import Mathlib

/-!
A verification development for the `binary-decision-diagrams` Rust crate.

The Rust sources are shallowly embedded:
* `u64`/`u32`/`usize` values are modelled as `Nat`, with an explicit `% 2^64`
  (resp. `% 2^32`) wherever the source performs wrapping arithmetic.
* `Vec` buffers are modelled as `List`s.  Memory obtained through
  `Vec::with_capacity` + `set_len` (deliberately uninitialized in the source)
  is modelled as a list filled with a fixed junk value.
* Out-of-bounds `get_unchecked` accesses, failed `assert!`s and other
  undefined behaviour are modelled as `Option.none` (the model aborts where
  the source has no defined behaviour).  `debug_assert!` is ignored
  (it is compiled out in release builds).
* Fallible loops are driven by explicit fuel; exhausting the fuel aborts
  the model with `none`.
-/

set_option maxRecDepth 8000

namespace BddRs

/-- The modulus of Rust `u64` arithmetic. -/
def W64 : Nat := 2 ^ 64

/-- The modulus of Rust `u32` arithmetic. -/
def W32 : Nat := 2 ^ 32

/-- The multiplicative mixing constant used by all hash functions in the crate. -/
def SEED : Nat := 0x517cc1b727220a95

/-- `u64::rotate_left` modelled on `Nat` (the argument is assumed `< 2^64`). -/
def rotl64 (x k : Nat) : Nat := ((x <<< k) % W64) + (x >>> (64 - k))

namespace Machine

/-- `machine/node_id.rs`: node ids range over the low 48 bits of a `u64`. -/
abbrev NodeId := Nat

/-- `NodeId::ZERO`. -/
def NodeId.ZERO : NodeId := 0

/-- `NodeId::ONE`. -/
def NodeId.ONE : NodeId := 1

/-- `NodeId::UNDEFINED = NodeId((1 << 48) - 1)`. -/
def NodeId.UNDEFINED : NodeId := (1 <<< 48) - 1

/-- `NodeId::BIT_MASK = (1 << 48) - 1`. -/
def NodeId.BIT_MASK : Nat := (1 <<< 48) - 1

def NodeId.is_zero (n : NodeId) : Bool := n == NodeId.ZERO

def NodeId.is_one (n : NodeId) : Bool := n == NodeId.ONE

def NodeId.is_terminal (n : NodeId) : Bool := n.is_zero || n.is_one

def NodeId.is_undefined (n : NodeId) : Bool := n == NodeId.UNDEFINED

/-- `NodeId::from_u48`: keep the 48 least significant bits. -/
def NodeId.from_u48 (value : Nat) : NodeId := value &&& NodeId.BIT_MASK

end Machine

namespace V3

/-- `v3/core/node_id.rs`: a transparent `u64` newtype. -/
abbrev NodeId := Nat

/-- `NodeId::ZERO = NodeId(0)`. -/
def NodeId.ZERO : NodeId := 0

/-- `NodeId::ONE = NodeId(1)`. -/
def NodeId.ONE : NodeId := 1

/-- `NodeId::UNDEFINED = NodeId(u64::MAX)`. -/
def NodeId.UNDEFINED : NodeId := W64 - 1

def NodeId.is_undefined (n : NodeId) : Bool := n == NodeId.UNDEFINED

def NodeId.is_zero (n : NodeId) : Bool := n == NodeId.ZERO

def NodeId.is_one (n : NodeId) : Bool := n == NodeId.ONE

def NodeId.is_terminal (n : NodeId) : Bool := n.is_zero || n.is_one

/-- `v3/core/variable_id.rs`: a transparent `u32` newtype. -/
abbrev VariableId := Nat

/-- `VariableId::UNDEFINED = VariableId(u32::MAX)`. -/
def VariableId.UNDEFINED : VariableId := W32 - 1

def VariableId.is_undefined (v : VariableId) : Bool := v == VariableId.UNDEFINED

/-- `v3/core/packed_bdd_node.rs`: the `(variable, low_link, high_link)` record.
(The Rust field `variable` is a Lean keyword; it is named `var` here.) -/
structure PackedBddNode where
  var : VariableId
  low_link : NodeId
  high_link : NodeId
deriving DecidableEq, Repr

def PackedBddNode.pack (v : VariableId) (low_link high_link : NodeId) :
    PackedBddNode :=
  { var := v, low_link := low_link, high_link := high_link }

def PackedBddNode.unpack (n : PackedBddNode) : VariableId × NodeId × NodeId :=
  (n.var, n.low_link, n.high_link)

def PackedBddNode.get_variable (n : PackedBddNode) : VariableId := n.var

def PackedBddNode.get_low_link (n : PackedBddNode) : NodeId := n.low_link

def PackedBddNode.get_high_link (n : PackedBddNode) : NodeId := n.high_link

/-- Modelled from the spec: the constants `PackedBddNode::ZERO` / `PackedBddNode::ONE`
are referenced by `v3/core/bdd.rs` and `v3/core/ooo/node_cache.rs` but their
definition is not among the provided sources.  Spec §3 (invariant 1) fixes the
terminal nodes as `ZERO = (UNDEFINED, 0, 0)` and `ONE = (UNDEFINED, 1, 1)`,
matching `v4::core::Node::ZERO/ONE` which are in the sources. -/
def PackedBddNode.ZERO : PackedBddNode :=
  PackedBddNode.pack VariableId.UNDEFINED NodeId.ZERO NodeId.ZERO

/-- Modelled from the spec: see `PackedBddNode.ZERO`. -/
def PackedBddNode.ONE : PackedBddNode :=
  PackedBddNode.pack VariableId.UNDEFINED NodeId.ONE NodeId.ONE

/-- `v3/core/bdd.rs`: a height estimate plus the linearized node array. -/
structure Bdd where
  height : Nat
  nodes : List PackedBddNode
deriving DecidableEq, Repr

def Bdd.is_false (b : Bdd) : Bool := b.nodes.length == 1

def Bdd.is_true (b : Bdd) : Bool := b.nodes.length == 2

def Bdd.get_root_id (b : Bdd) : NodeId := b.nodes.length - 1

def Bdd.get_height (b : Bdd) : Nat := b.height

/-- `Bdd::get_node_unchecked`; out-of-bounds access is undefined behaviour. -/
def Bdd.get_node_unchecked (b : Bdd) (id : NodeId) : Option PackedBddNode :=
  b.nodes.get? id

def Bdd.node_count (b : Bdd) : Nat := b.nodes.length

/-- `Bdd::from_raw_nodes`.  The `usize` subtraction
`last_variable - first_variable` is modelled by truncated `Nat` subtraction
(in a release build the Rust subtraction wraps; for the inputs appearing in
this development the subtraction never underflows). -/
def Bdd.from_raw_nodes (nodes : List PackedBddNode) : Bdd :=
  let height :=
    if nodes.length ≤ 2 then 0
    else
      (nodes.getD 2 PackedBddNode.ZERO).get_variable -
        (nodes.getD (nodes.length - 1) PackedBddNode.ZERO).get_variable
  { height := height, nodes := nodes }

/-- The DFS loop of `Bdd::sort_preorder` (v3/core/bdd.rs).  The stack is a
list with its head as the top; `id_map` and the countdown cursor
`next_free_id` are threaded explicitly.  The fuel is chosen below so that it
never runs out on inputs where the Rust loop terminates. -/
def preorderLoop (b : Bdd) :
    Nat → List NodeId → List NodeId → Nat → Option (List NodeId × Nat)
  | 0, stack, id_map, next_free =>
      match stack with
      | [] => some (id_map, next_free)
      | _ => none
  | fuel + 1, stack, id_map, next_free =>
      match stack with
      | [] => some (id_map, next_free)
      | task :: rest =>
          match id_map.get? task with
          | none => none
          | some tid =>
              if tid.is_undefined then
                match b.get_node_unchecked task with
                | none => none
                | some node =>
                    preorderLoop b fuel
                      (node.get_low_link :: node.get_high_link :: rest)
                      (id_map.set task next_free) (next_free - 1)
              else preorderLoop b fuel rest id_map next_free

/-- The element-copy loop of `Bdd::copy_shuffled` for indices `2..len`. -/
def copyShuffledAux (b : Bdd) (shuffle : List NodeId) :
    Nat → Nat → List PackedBddNode → Option (List PackedBddNode)
  | 0, _, acc => some acc
  | count + 1, old_id, acc =>
      match b.nodes.get? old_id, shuffle.get? old_id with
      | some old_node, some new_id =>
          match shuffle.get? old_node.get_low_link,
              shuffle.get? old_node.get_high_link with
          | some new_low, some new_high =>
              if new_id < acc.length then
                copyShuffledAux b shuffle count (old_id + 1)
                  (acc.set new_id
                    (PackedBddNode.pack old_node.get_variable new_low new_high))
              else none
          | _, _ => none
      | _, _ => none

/-- `Bdd::copy_shuffled` (v3/core/bdd.rs).  The uninitialized output vector is
modelled as a list filled with the junk value `PackedBddNode.ZERO`; slots `0`
and `1` are then set to the terminal nodes as in the source. -/
def Bdd.copy_shuffled (b : Bdd) (shuffle : List NodeId) : Option Bdd :=
  let init :=
    ((List.replicate b.nodes.length PackedBddNode.ZERO).set 0
        PackedBddNode.ZERO).set 1 PackedBddNode.ONE
  (copyShuffledAux b shuffle (b.nodes.length - 2) 2 init).map
    (fun new_nodes => { height := b.height, nodes := new_nodes })

/-- `Bdd::sort_preorder` (v3/core/bdd.rs).  The failed `assert_eq!` at the end
of the Rust function is modelled by returning `none`. -/
def Bdd.sort_preorder (b : Bdd) : Option Bdd :=
  if b.nodes.length ≤ 2 then some b
  else
    let id_map :=
      ((List.replicate b.nodes.length NodeId.UNDEFINED).set 0
          NodeId.ZERO).set 1 NodeId.ONE
    match preorderLoop b (2 * b.nodes.length + 2) [b.get_root_id] id_map
        (b.nodes.length - 1) with
    | none => none
    | some (id_map, next_free) =>
        if next_free = 1 then b.copy_shuffled id_map else none

/-- The DFS loop of `Bdd::sort_postorder` (v3/core/bdd.rs). -/
def postorderLoop (b : Bdd) :
    Nat → List (NodeId × Bool) → List NodeId → Nat →
      Option (List NodeId × Nat)
  | 0, stack, id_map, next_free =>
      match stack with
      | [] => some (id_map, next_free)
      | _ => none
  | fuel + 1, stack, id_map, next_free =>
      match stack with
      | [] => some (id_map, next_free)
      | (task, expended) :: rest =>
          match id_map.get? task with
          | none => none
          | some tid =>
              if expended then
                postorderLoop b fuel rest (id_map.set task next_free)
                  (next_free + 1)
              else if tid.is_undefined then
                match b.get_node_unchecked task with
                | none => none
                | some node =>
                    postorderLoop b fuel
                      ((node.get_low_link, false) ::
                        (node.get_high_link, false) :: (task, true) :: rest)
                      id_map next_free
              else postorderLoop b fuel rest id_map next_free

/-- `Bdd::sort_postorder` (v3/core/bdd.rs). -/
def Bdd.sort_postorder (b : Bdd) : Option Bdd :=
  if b.nodes.length ≤ 2 then some b
  else
    let id_map :=
      ((List.replicate b.nodes.length NodeId.UNDEFINED).set 0
          NodeId.ZERO).set 1 NodeId.ONE
    match postorderLoop b (3 * b.nodes.length + 2) [(b.get_root_id, false)]
        id_map 2 with
    | none => none
    | some (id_map, next_free) =>
        if next_free = b.nodes.length then b.copy_shuffled id_map else none

end V3

namespace V3

namespace OOO

/-- `v3/core/ooo/reorder_buffer.rs`: a `u32` slot index into the ROB. -/
abbrev RobSlot := Nat

/-- `RobSlot::UNDEFINED = RobSlot(u32::MAX)`. -/
def RobSlot.UNDEFINED : RobSlot := W32 - 1

/-- The reorder buffer: a `u64` vector whose free slots form a linked list. -/
structure ReorderBuffer where
  buffer : List Nat
  next_free : RobSlot
deriving DecidableEq, Repr

/-- `ReorderBuffer::new`.  With `capacity = 0` the Rust code indexes
`list[len - 1]` out of bounds (a panic), modelled as `none`. -/
def ReorderBuffer.new (capacity : Nat) : Option ReorderBuffer :=
  if capacity = 0 then none
  else
    some
      { buffer :=
          ((List.range capacity).map (· + 1)).set (capacity - 1) (W64 - 1),
        next_free := 0 }

def ReorderBuffer.is_full (rb : ReorderBuffer) : Bool :=
  rb.next_free == RobSlot.UNDEFINED

/-- `ReorderBuffer::allocate_slot`; the stored `u64` link is truncated
`as u32` when it becomes the new `next_free`. -/
def ReorderBuffer.allocate_slot (rb : ReorderBuffer) :
    Option (RobSlot × ReorderBuffer) :=
  match rb.buffer.get? rb.next_free with
  | none => none
  | some slot_value =>
      some (rb.next_free,
        { buffer := rb.buffer.set rb.next_free (W64 - 1),
          next_free := slot_value % W32 })

/-- `ReorderBuffer::free_slot`. -/
def ReorderBuffer.free_slot (rb : ReorderBuffer) (slot : RobSlot) :
    Option ReorderBuffer :=
  match rb.buffer.get? slot with
  | none => none
  | some _ =>
      some { buffer := rb.buffer.set slot rb.next_free, next_free := slot }

/-- `ReorderBuffer::get_slot_value`. -/
def ReorderBuffer.get_slot_value (rb : ReorderBuffer) (slot : RobSlot) :
    Option NodeId :=
  rb.buffer.get? slot

/-- `ReorderBuffer::set_slot_value`. -/
def ReorderBuffer.set_slot_value (rb : ReorderBuffer) (slot : RobSlot)
    (id : NodeId) : Option ReorderBuffer :=
  match rb.buffer.get? slot with
  | none => none
  | some _ => some { rb with buffer := rb.buffer.set slot id }

/-- `v3/core/ooo/task_cache.rs`: a slot index into the task cache. -/
abbrev TaskCacheSlot := Nat

/-- The leaky task cache.  `capacity` is a `NonZeroU64` in the source. -/
structure TaskCache where
  collisions : Nat
  capacity : Nat
  table : List ((NodeId × NodeId) × NodeId)
deriving DecidableEq, Repr

/-- `TaskCache::HASH_BLOCK = 1 << 14`. -/
def TaskCache.HASH_BLOCK : Nat := 1 <<< 14

/-- `TaskCache::new`; `NonZeroU64::new(0).unwrap()` panics, modelled `none`. -/
def TaskCache.new (left_count right_count : Nat) : Option TaskCache :=
  let initial_capacity := max left_count right_count
  if initial_capacity = 0 then none
  else
    some
      { collisions := 0,
        capacity := initial_capacity,
        table :=
          List.replicate initial_capacity
            ((NodeId.ZERO, NodeId.ZERO), NodeId.ZERO) }

/-- `TaskCache::read_unchecked`. -/
def TaskCache.read_unchecked (tc : TaskCache) (key : NodeId × NodeId)
    (slot : TaskCacheSlot) : Option NodeId :=
  match tc.table.get? slot with
  | none => none
  | some entry => some (if entry.1 = key then entry.2 else NodeId.UNDEFINED)

/-- `TaskCache::write_unchecked`. -/
def TaskCache.write_unchecked (tc : TaskCache) (key : NodeId × NodeId)
    (value : NodeId) (slot : TaskCacheSlot) : Option TaskCache :=
  match tc.table.get? slot with
  | none => none
  | some entry =>
      some
        { tc with
          collisions :=
            if entry.1 ≠ (NodeId.ZERO, NodeId.ZERO) then tc.collisions + 1
            else tc.collisions,
          table := tc.table.set slot (key, value) }

/-- `TaskCache::find_slot`. -/
def TaskCache.find_slot (tc : TaskCache) (key : NodeId × NodeId) :
    TaskCacheSlot :=
  let left := key.1
  let right := key.2
  let left_hash := rotl64 left 7 * SEED % W64
  let right_hash := right * SEED % W64
  let block_index := (left_hash ^^^ right_hash) % TaskCache.HASH_BLOCK
  let block_start := left
  (block_start + block_index) % W64 % tc.capacity

/-- `v3/core/ooo/node_cache.rs`: a slot index into the node cache. -/
abbrev NodeCacheSlot := Nat

/-- `NodeCacheSlot::UNDEFINED = NodeCacheSlot(u64::MAX)`. -/
def NodeCacheSlot.UNDEFINED : NodeCacheSlot := W64 - 1

def NodeCacheSlot.is_undefined (s : NodeCacheSlot) : Bool :=
  s == NodeCacheSlot.UNDEFINED

/-- The chained node cache owning the result node array. -/
structure NodeCache where
  capacity : Nat
  index_after_last : Nat
  nodes : List (PackedBddNode × NodeCacheSlot)
  table : List NodeCacheSlot
deriving DecidableEq, Repr

/-- `NodeCache::HASH_BLOCK = 1 << 14`. -/
def NodeCache.HASH_BLOCK : Nat := 1 <<< 14

/-- `NodeCache::new`.  The uninitialized `nodes` vector is modelled as junk
entries `(PackedBddNode.ZERO, UNDEFINED)`; slots `0`/`1` are then written as
in the source.  `NonZeroU64::new(0).unwrap()` and writes out of a vector of
capacity `< 2` are modelled as `none`. -/
def NodeCache.new (table_capacity node_capacity : Nat) : Option NodeCache :=
  if table_capacity = 0 then none
  else if node_capacity < 2 then none
  else
    some
      { capacity := table_capacity,
        index_after_last := 2,
        table := List.replicate table_capacity NodeCacheSlot.UNDEFINED,
        nodes :=
          ((List.replicate node_capacity
                (PackedBddNode.ZERO, NodeCacheSlot.UNDEFINED)).set 0
              (PackedBddNode.ZERO, NodeCacheSlot.UNDEFINED)).set 1
            (PackedBddNode.ONE, NodeCacheSlot.UNDEFINED) }

/-- `NodeCache::hash_position`. -/
def NodeCache.hash_position (nc : NodeCache) (key : PackedBddNode) : Nat :=
  let low_link := key.get_low_link
  let high_link := key.get_high_link
  let low_hash := low_link * SEED % W64
  let high_hash := high_link * SEED % W64
  let block_index := (low_hash ^^^ high_hash) % NodeCache.HASH_BLOCK
  let base := max low_link high_link
  (base + block_index) % W64 % nc.capacity

/-- `NodeCache::ensure`.  `Ok` results also return the updated cache. -/
def NodeCache.ensure (nc : NodeCache) (node : PackedBddNode) :
    Option (Except NodeCacheSlot NodeId × NodeCache) :=
  let hash_slot := nc.hash_position node
  match nc.table.get? hash_slot with
  | none => none
  | some linked_list_start =>
      if linked_list_start.is_undefined then
        let fresh_slot := nc.index_after_last
        if fresh_slot < nc.nodes.length then
          some (Except.ok fresh_slot,
            { nc with
              table := nc.table.set hash_slot fresh_slot,
              index_after_last := nc.index_after_last + 1,
              nodes :=
                nc.nodes.set fresh_slot (node, NodeCacheSlot.UNDEFINED) })
        else none
      else some (Except.error linked_list_start, nc)

/-- `NodeCache::ensure_at`. -/
def NodeCache.ensure_at (nc : NodeCache) (node : PackedBddNode)
    (slot : NodeCacheSlot) : Option (Except NodeCacheSlot NodeId × NodeCache) :=
  match nc.nodes.get? slot with
  | none => none
  | some slot_value =>
      if slot_value.1 = node then some (Except.ok slot, nc)
      else if ¬slot_value.2.is_undefined then
        some (Except.error slot_value.2, nc)
      else
        let fresh_slot := nc.index_after_last
        if fresh_slot < nc.nodes.length then
          some (Except.ok fresh_slot,
            { nc with
              index_after_last := nc.index_after_last + 1,
              nodes :=
                (nc.nodes.set slot (slot_value.1, fresh_slot)).set fresh_slot
                  (node, NodeCacheSlot.UNDEFINED) })
        else none

/-- `NodeCache::export_nodes`. -/
def NodeCache.export_nodes (nc : NodeCache) : List PackedBddNode :=
  (nc.nodes.take nc.index_after_last).map Prod.fst

/-- `v3/core/ooo/task_stack.rs`: the `NOT_DECODED` bit of `offset`. -/
def NOT_DECODED : Nat := 1 <<< 31

/-- `v3/core/ooo/task_stack.rs`: the tag bit marking a ROB slot id. -/
def ROB_SLOT : Nat := 1 <<< 63

/-- A stack frame.  (The Rust field `variable` is named `var` here.) -/
structure StackedTask where
  offset : Nat
  var : VariableId
  task : NodeId × NodeId
  results : Nat × Nat
  task_cache_slot : TaskCacheSlot
deriving DecidableEq, Repr

/-- The junk value modelling uninitialized `StackedTask` memory. -/
def StackedTask.junk : StackedTask :=
  { offset := 0, var := 0, task := (0, 0), results := (0, 0),
    task_cache_slot := 0 }

def StackedTask.is_decoded (t : StackedTask) : Bool :=
  t.offset &&& NOT_DECODED == 0

/-- `StackedTask::set_decoded`: clear the `NOT_DECODED` bit
(`offset & !NOT_DECODED` on a `u32`). -/
def StackedTask.set_decoded (t : StackedTask) : StackedTask :=
  { t with offset := t.offset &&& (NOT_DECODED - 1) }

def StackedTask.operands (t : StackedTask) : NodeId × NodeId := t.task

/-- The fixed-capacity task stack (`TaskStack::new` leaves the items
uninitialized; junk values model that memory). -/
structure TaskStack where
  index_after_last : Nat
  items : List StackedTask
deriving DecidableEq, Repr

def TaskStack.new (height_left height_right : Nat) : TaskStack :=
  { index_after_last := 0,
    items := List.replicate (height_left + height_right) StackedTask.junk }

/-- `TaskStack::push_new`; writing past the capacity is undefined
behaviour, modelled as `none`. -/
def TaskStack.push_new (s : TaskStack) (offset : Nat)
    (task : NodeId × NodeId) : Option TaskStack :=
  match s.items.get? s.index_after_last with
  | none => none
  | some slot =>
      some
        { index_after_last := s.index_after_last + 1,
          items :=
            s.items.set s.index_after_last
              { slot with task := task, offset := offset ||| NOT_DECODED } }

def TaskStack.is_empty (s : TaskStack) : Bool := s.index_after_last == 0

/-- `TaskStack::get_top_mut` (reading part). -/
def TaskStack.get_top (s : TaskStack) : Option StackedTask :=
  if s.index_after_last = 0 then none
  else s.items.get? (s.index_after_last - 1)

/-- Writing through the `get_top_mut` reference. -/
def TaskStack.set_top (s : TaskStack) (t : StackedTask) : Option TaskStack :=
  if s.index_after_last = 0 then none
  else some { s with items := s.items.set (s.index_after_last - 1) t }

/-- `TaskStack::pop_with_result`.  `offset` is `top.offset & !NOT_DECODED`;
an underflowing `index_after_last - offset` is an out-of-bounds access. -/
def TaskStack.pop_with_result (s : TaskStack) (result : Nat) :
    Option TaskStack :=
  if s.index_after_last = 0 then none
  else
    let i := s.index_after_last - 1
    match s.items.get? i with
    | none => none
    | some top =>
        let offset := top.offset &&& (NOT_DECODED - 1)
        if i < offset then none
        else
          match s.items.get? (i - offset) with
          | none => none
          | some output =>
              let output :=
                if offset = 1 then
                  { output with results := (output.results.1, result) }
                else { output with results := (result, output.results.2) }
              some { index_after_last := i,
                     items := s.items.set (i - offset) output }

def TaskStack.pop_with_node_id (s : TaskStack) (result : NodeId) :
    Option TaskStack :=
  s.pop_with_result result

def TaskStack.pop_with_slot_id (s : TaskStack) (result : RobSlot) :
    Option TaskStack :=
  s.pop_with_result ((result % W32) ||| ROB_SLOT)

/-- `v3/core/ooo/execution_queue.rs`: an in-flight task.
(The Rust field `variable` is named `var` here.) -/
structure PendingTask where
  rob_slot : RobSlot
  var : VariableId
  task : NodeId × NodeId
  result : Nat × Nat
  task_cache_slot : TaskCacheSlot
  node_cache_slot : NodeCacheSlot
deriving DecidableEq, Repr

/-- The junk value modelling uninitialized `PendingTask` memory. -/
def PendingTask.junk : PendingTask :=
  { rob_slot := 0, var := 0, task := (0, 0), result := (0, 0),
    task_cache_slot := 0, node_cache_slot := 0 }

def PendingTask.operands (t : PendingTask) : NodeId × NodeId := t.task

def PendingTask.has_low_result (t : PendingTask) : Bool :=
  t.result.1 &&& ROB_SLOT == 0

def PendingTask.has_high_result (t : PendingTask) : Bool :=
  t.result.2 &&& ROB_SLOT == 0

def PendingTask.get_low_rob (t : PendingTask) : RobSlot :=
  (t.result.1 ^^^ ROB_SLOT) % W32

def PendingTask.get_high_rob (t : PendingTask) : RobSlot :=
  (t.result.2 ^^^ ROB_SLOT) % W32

def PendingTask.get_low_result (t : PendingTask) : NodeId := t.result.1

def PendingTask.get_high_result (t : PendingTask) : NodeId := t.result.2

def PendingTask.result_node (t : PendingTask) : PackedBddNode :=
  PackedBddNode.pack t.var t.result.1 t.result.2

def PendingTask.mark_as_retired (t : PendingTask) : PendingTask :=
  { t with rob_slot := RobSlot.UNDEFINED }

def PendingTask.is_retired (t : PendingTask) : Bool :=
  t.rob_slot == RobSlot.UNDEFINED

/-- The queue length `LEN = 32` used by `v3::core::ooo::apply`. -/
def QLEN : Nat := 32

/-- `ExecutionRetireQueue<32>`: a circular buffer with three cursors. -/
structure ExecutionRetireQueue where
  queue : List PendingTask
  retire_head : Nat
  execution_head : Nat
  execution_tail : Nat
deriving DecidableEq, Repr

def ExecutionRetireQueue.new : ExecutionRetireQueue :=
  { queue := List.replicate QLEN PendingTask.junk,
    retire_head := 0, execution_head := 0, execution_tail := 0 }

def ExecutionRetireQueue.is_full (q : ExecutionRetireQueue) : Bool :=
  (q.execution_tail + 1) % QLEN == q.retire_head

def ExecutionRetireQueue.is_empty (q : ExecutionRetireQueue) : Bool :=
  q.execution_tail == q.execution_head && q.execution_head == q.retire_head

def ExecutionRetireQueue.can_execute (q : ExecutionRetireQueue) : Bool :=
  q.execution_head != q.execution_tail

def ExecutionRetireQueue.can_retire (q : ExecutionRetireQueue) : Bool :=
  q.retire_head != q.execution_head

/-- `ExecutionRetireQueue::enqueue_for_execution`. -/
def ExecutionRetireQueue.enqueue_for_execution (q : ExecutionRetireQueue)
    (rob : RobSlot) (task : StackedTask) : Option ExecutionRetireQueue :=
  match q.queue.get? q.execution_tail with
  | none => none
  | some _ =>
      some
        { q with
          queue :=
            q.queue.set q.execution_tail
              { rob_slot := rob, var := task.var, task := task.operands,
                result := task.results,
                task_cache_slot := task.task_cache_slot,
                node_cache_slot := NodeCacheSlot.UNDEFINED },
          execution_tail := (q.execution_tail + 1) % QLEN }

/-- `ExecutionRetireQueue::execute_task_reference` (reading part). -/
def ExecutionRetireQueue.execute_task (q : ExecutionRetireQueue) :
    Option PendingTask :=
  q.queue.get? q.execution_head

/-- Writing through the `execute_task_reference`. -/
def ExecutionRetireQueue.set_execute_task (q : ExecutionRetireQueue)
    (t : PendingTask) : Option ExecutionRetireQueue :=
  match q.queue.get? q.execution_head with
  | none => none
  | some _ => some { q with queue := q.queue.set q.execution_head t }

/-- `ExecutionRetireQueue::retire_task_reference` (reading part). -/
def ExecutionRetireQueue.retire_task (q : ExecutionRetireQueue) :
    Option PendingTask :=
  q.queue.get? q.retire_head

/-- Writing through the `retire_task_reference`. -/
def ExecutionRetireQueue.set_retire_task (q : ExecutionRetireQueue)
    (t : PendingTask) : Option ExecutionRetireQueue :=
  match q.queue.get? q.retire_head with
  | none => none
  | some _ => some { q with queue := q.queue.set q.retire_head t }

def ExecutionRetireQueue.move_to_retire (q : ExecutionRetireQueue) :
    ExecutionRetireQueue :=
  { q with execution_head := (q.execution_head + 1) % QLEN }

def ExecutionRetireQueue.retire (q : ExecutionRetireQueue) :
    ExecutionRetireQueue :=
  { q with retire_head := (q.retire_head + 1) % QLEN }

/-- The complete state of the `v3::core::ooo::apply` loop. -/
structure ApplyState where
  queue : ExecutionRetireQueue
  rob : ReorderBuffer
  task_cache : TaskCache
  node_cache : NodeCache
  stack : TaskStack
  stall : Nat
deriving DecidableEq, Repr

/-- The allocations performed at the entry of `v3::core::ooo::apply`
(v3/core/ooo/mod.rs, lines 17-24), including the initial push of the
root task. -/
def applyInit (L R : Bdd) : Option ApplyState := do
  let queue := ExecutionRetireQueue.new
  let rob ← ReorderBuffer.new (L.get_height + R.get_height)
  let task_cache ← TaskCache.new L.node_count R.node_count
  let node_cache ← NodeCache.new L.node_count (2 * L.node_count)
  let stack := TaskStack.new L.get_height R.get_height
  let stack ← stack.push_new 0 (L.get_root_id, R.get_root_id)
  some { queue := queue, rob := rob, task_cache := task_cache,
         node_cache := node_cache, stack := stack, stall := 0 }

/-- The retire stage of one loop iteration of `v3::core::ooo::apply`. -/
def retireStage (s : ApplyState) : Option ApplyState :=
  if s.queue.can_retire then
    match s.queue.retire_task with
    | none => none
    | some task =>
        if task.is_retired then some { s with queue := s.queue.retire }
        else
          match s.node_cache.ensure_at task.result_node task.node_cache_slot with
          | none => none
          | some (Except.ok id, nc) => do
              let rob ← s.rob.set_slot_value task.rob_slot id
              let tcache ←
                s.task_cache.write_unchecked task.operands id
                  task.task_cache_slot
              some { s with
                node_cache := nc, rob := rob,
                task_cache := tcache, queue := s.queue.retire }
          | some (Except.error slot, nc) => do
              let q ←
                s.queue.set_retire_task { task with node_cache_slot := slot }
              some { s with node_cache := nc, queue := q }
  else some s

/-- The execute stage of one loop iteration of `v3::core::ooo::apply`. -/
def executeStage (s : ApplyState) : Option ApplyState :=
  if s.queue.can_execute then
    match s.queue.execute_task with
    | none => none
    | some task =>
        if task.has_low_result && task.has_high_result then
          let low_result := task.get_low_result
          let high_result := task.get_high_result
          if low_result = high_result then do
            let rob ← s.rob.set_slot_value task.rob_slot low_result
            let tcache ←
              s.task_cache.write_unchecked task.operands low_result
                task.task_cache_slot
            let q ← s.queue.set_execute_task task.mark_as_retired
            some { s with
              rob := rob, task_cache := tcache,
              queue := q.move_to_retire }
          else
            match s.node_cache.ensure task.result_node with
            | none => none
            | some (Except.ok id, nc) => do
                let rob ← s.rob.set_slot_value task.rob_slot id
                let tcache ←
                  s.task_cache.write_unchecked task.operands id
                    task.task_cache_slot
                let q ← s.queue.set_execute_task task.mark_as_retired
                some { s with
                  node_cache := nc, rob := rob,
                  task_cache := tcache, queue := q.move_to_retire }
            | some (Except.error slot, nc) => do
                let q ←
                  s.queue.set_execute_task
                    { task with node_cache_slot := slot }
                some { s with node_cache := nc, queue := q.move_to_retire }
        else do
          let first ←
            if ¬task.has_low_result then
              match s.rob.get_slot_value task.get_low_rob with
              | none => none
              | some result =>
                  if ¬result.is_undefined then do
                    let rob ← s.rob.free_slot task.get_low_rob
                    some ({ task with result := (result, task.result.2) }, rob)
                  else some (task, s.rob)
            else some (task, s.rob)
          let task := first.1
          let rob := first.2
          let second ←
            if ¬task.has_high_result then
              match rob.get_slot_value task.get_high_rob with
              | none => none
              | some result =>
                  if ¬result.is_undefined then do
                    let rob' ← rob.free_slot task.get_high_rob
                    some ({ task with result := (task.result.1, result) }, rob')
                  else some (task, rob)
            else some (task, rob)
          let q ← s.queue.set_execute_task second.1
          some { s with rob := second.2, queue := q }
  else some s

/-- The issue stage of one loop iteration of `v3::core::ooo::apply`. -/
def issueStage (L R : Bdd) (s : ApplyState) : Option ApplyState :=
  if ¬s.stack.is_empty then
    match s.stack.get_top with
    | none => none
    | some task =>
        if task.is_decoded then
          if ¬s.rob.is_full && ¬s.queue.is_full then do
            let alloc ← s.rob.allocate_slot
            let q ← s.queue.enqueue_for_execution alloc.1 task
            let stack ← s.stack.pop_with_slot_id alloc.1
            some { s with rob := alloc.2, queue := q, stack := stack }
          else some { s with stall := s.stall + 1 }
        else
          let left := task.operands.1
          let right := task.operands.2
          if left.is_one || right.is_one then do
            let stack ← s.stack.pop_with_node_id NodeId.ONE
            some { s with stack := stack }
          else if left.is_zero && right.is_zero then do
            let stack ← s.stack.pop_with_node_id NodeId.ZERO
            some { s with stack := stack }
          else
            let task_slot := s.task_cache.find_slot (left, right)
            match s.task_cache.read_unchecked (left, right) task_slot with
            | none => none
            | some cached_node =>
                if ¬cached_node.is_undefined then do
                  let stack ← s.stack.pop_with_node_id cached_node
                  some { s with stack := stack }
                else
                  match L.get_node_unchecked left, R.get_node_unchecked right with
                  | some left_node, some right_node =>
                      let left_var := left_node.get_variable
                      let right_var := right_node.get_variable
                      let decision_variable := min left_var right_var
                      let lpair :=
                        if decision_variable = left_var then
                          (left_node.get_low_link, left_node.get_high_link)
                        else (left, left)
                      let rpair :=
                        if decision_variable = right_var then
                          (right_node.get_low_link, right_node.get_high_link)
                        else (right, right)
                      do
                        let stack ←
                          s.stack.set_top
                            { (task.set_decoded) with
                              task_cache_slot := task_slot,
                              var := decision_variable }
                        let stack ← stack.push_new 1 (lpair.2, rpair.2)
                        let stack ← stack.push_new 2 (lpair.1, rpair.1)
                        some { s with stack := stack }
                  | _, _ => none
  else some s

/-- One iteration of the main loop of `v3::core::ooo::apply`:
retire stage, then execute stage, then issue stage. -/
def step (L R : Bdd) (s : ApplyState) : Option ApplyState := do
  let s ← retireStage s
  let s ← executeStage s
  issueStage L R s

/-- The loop guard of `v3::core::ooo::apply`. -/
def finished (s : ApplyState) : Bool :=
  s.stack.is_empty && s.queue.is_empty

/-- The main loop of `v3::core::ooo::apply`, driven by explicit fuel. -/
def applyLoop (L R : Bdd) : Nat → ApplyState → Option ApplyState
  | 0, s => if finished s then some s else none
  | fuel + 1, s =>
      if finished s then some s else (step L R s).bind (applyLoop L R fuel)

/-- `v3::core::ooo::apply` (v3/core/ooo/mod.rs). -/
def apply (L R : Bdd) (fuel : Nat) : Option Bdd :=
  (applyInit L R).bind fun s =>
    (applyLoop L R fuel s).map fun s =>
      Bdd.from_raw_nodes s.node_cache.export_nodes

end OOO

end V3

namespace V4

/-- `v4/core/_variable.rs`: a transparent `u32` newtype. -/
abbrev Variable := Nat

/-- `Variable::UNDEFINED = Variable(u32::MAX)`. -/
def Variable.UNDEFINED : Variable := W32 - 1

def Variable.is_undefined (v : Variable) : Bool := v == Variable.UNDEFINED

/-- `v4/core/_node_index.rs`: a transparent `u64` newtype. -/
abbrev NodeIndex := Nat

/-- `NodeIndex::UNDEFINED = NodeIndex(u64::MAX)`. -/
def NodeIndex.UNDEFINED : NodeIndex := W64 - 1

/-- `NodeIndex::ZERO = NodeIndex(0)`. -/
def NodeIndex.ZERO : NodeIndex := 0

/-- `NodeIndex::ONE = NodeIndex(1)`. -/
def NodeIndex.ONE : NodeIndex := 1

def NodeIndex.is_undefined (n : NodeIndex) : Bool := n == NodeIndex.UNDEFINED

def NodeIndex.is_zero (n : NodeIndex) : Bool := n == NodeIndex.ZERO

def NodeIndex.is_one (n : NodeIndex) : Bool := n == NodeIndex.ONE

/-- `v4/core/_node.rs`: `Node(Variable, NodeIndex, NodeIndex)`.
(The Rust field `variable` is named `var` here.) -/
structure Node where
  var : Variable
  low : NodeIndex
  high : NodeIndex
deriving DecidableEq, Repr

/-- `Node::ZERO`. -/
def Node.ZERO : Node :=
  { var := Variable.UNDEFINED, low := NodeIndex.ZERO, high := NodeIndex.ZERO }

/-- `Node::ONE`. -/
def Node.ONE : Node :=
  { var := Variable.UNDEFINED, low := NodeIndex.ONE, high := NodeIndex.ONE }

def Node.pack (v : Variable) (low high : NodeIndex) : Node :=
  { var := v, low := low, high := high }

def Node.unpack (n : Node) : Variable × NodeIndex × NodeIndex :=
  (n.var, n.low, n.high)

def Node.is_terminal (n : Node) : Bool := n.var.is_undefined

def Node.get_variable (n : Node) : Variable := n.var

def Node.get_low_link (n : Node) : NodeIndex := n.low

def Node.get_high_link (n : Node) : NodeIndex := n.high

/-- `v4/core/_bdd.rs`: a `u32` height estimate plus the node array. -/
structure Bdd where
  height : Nat
  nodes : List Node
deriving DecidableEq, Repr

/-- `Bdd::new_zero`. -/
def Bdd.new_zero : Bdd := { height := 0, nodes := [Node.ZERO] }

/-- `Bdd::new_one`. -/
def Bdd.new_one : Bdd := { height := 0, nodes := [Node.ZERO, Node.ONE] }

def Bdd.get_height (b : Bdd) : Nat := b.height

def Bdd.get_size (b : Bdd) : Nat := b.nodes.length

/-- `Bdd::get_root_index`: `nodes.len() - 1` as a wrapping `usize`
subtraction (the vector is normally never empty). -/
def Bdd.get_root_index (b : Bdd) : NodeIndex :=
  (b.nodes.length + (W64 - 1)) % W64

/-- `Bdd::get_node_unchecked`; out-of-bounds access is undefined behaviour. -/
def Bdd.get_node_unchecked (b : Bdd) (index : NodeIndex) : Option Node :=
  b.nodes.get? index

def Bdd.is_zero (b : Bdd) : Bool := b.nodes.length == 1

def Bdd.is_one (b : Bdd) : Bool := b.nodes.length == 2

/-- `Bdd::is_constant` (whether the root node is terminal). -/
def Bdd.is_constant (b : Bdd) : Option Bool :=
  (b.get_node_unchecked b.get_root_index).map Node.is_terminal

/-- The structural-violation cases detected by `Bdd::check_consistency_errors`.
The Rust function reports them as formatted strings; the error payloads are
irrelevant to this development, so they are modelled as an enum carrying the
index of the offending node. -/
inductive ConsistencyError where
  | low_out_of_bounds (i : Nat)
  | high_out_of_bounds (i : Nat)
  | low_var_order (i : Nat)
  | high_var_order (i : Nat)
  | low_self_loop (i : Nat)
  | high_self_loop (i : Nat)
  | terminal_order
deriving DecidableEq, Repr

/-- The per-node checks of `Bdd::check_consistency_errors`, in source order. -/
def checkNode (nodes : List Node) (root : Nat) (i : Nat) (node : Node) :
    Option ConsistencyError :=
  if node.get_low_link > root then some (ConsistencyError.low_out_of_bounds i)
  else if node.get_high_link > root then
    some (ConsistencyError.high_out_of_bounds i)
  else
    let low := nodes.getD node.get_low_link Node.ZERO
    let high := nodes.getD node.get_high_link Node.ZERO
    if ¬node.is_terminal ∧ low.get_variable ≤ node.get_variable then
      some (ConsistencyError.low_var_order i)
    else if ¬node.is_terminal ∧ high.get_variable ≤ node.get_variable then
      some (ConsistencyError.high_var_order i)
    else if ((low == node) != node.is_terminal) then
      some (ConsistencyError.low_self_loop i)
    else if ((high == node) != node.is_terminal) then
      some (ConsistencyError.high_self_loop i)
    else none

/-- The node loop of `Bdd::check_consistency_errors`. -/
def checkNodesLoop (nodes : List Node) (root : Nat) :
    Nat → List Node → Option ConsistencyError
  | _, [] => none
  | i, node :: rest =>
      match checkNode nodes root i node with
      | some e => some e
      | none => checkNodesLoop nodes root (i + 1) rest

/-- `Bdd::check_consistency_errors` (v4/core/_bdd.rs).  `nodes.len() - 1` is a
wrapping `usize` subtraction. -/
def check_consistency_errors (nodes : List Node) : Option ConsistencyError :=
  let root := (nodes.length + (W64 - 1)) % W64
  match checkNodesLoop nodes root 0 nodes with
  | some e => some e
  | none =>
      let terminals := (nodes.takeWhile Node.is_terminal).length
      let all_terminals := (nodes.filter Node.is_terminal).length
      if terminals ≠ all_terminals then some ConsistencyError.terminal_order
      else none

/-- The BFS loop of `Bdd::recompute_height`; the queue is a FIFO list.
Index arithmetic on the `height`/`visited` vectors is bounds-checked
(the Rust code indexes them with `[]`, which panics when out of bounds). -/
def bfsLoop (b : Bdd) :
    Nat → List NodeIndex → List Nat → List Bool →
      Option (List Nat)
  | 0, queue, height, _ =>
      match queue with
      | [] => some height
      | _ => none
  | _ + 1, [], height, _ => some height
  | fuel + 1, i_node :: rest, height, visited =>
      match b.nodes.get? i_node with
      | none => none
      | some node =>
          match height.get? i_node with
          | none => none
          | some node_height =>
              let low_link := node.get_low_link
              let high_link := node.get_high_link
              if low_link < height.length ∧ high_link < height.length ∧
                  low_link < visited.length ∧ high_link < visited.length then
                let height :=
                  height.set low_link
                    (max (height.getD low_link 0) (node_height + 1))
                let height :=
                  height.set high_link
                    (max (height.getD high_link 0) (node_height + 1))
                let (queue, visited) :=
                  if ¬(visited.getD low_link false) then
                    (rest ++ [low_link], visited.set low_link true)
                  else (rest, visited)
                let (queue, visited) :=
                  if ¬(visited.getD high_link false) then
                    (queue ++ [high_link], visited.set high_link true)
                  else (queue, visited)
                bfsLoop b fuel queue height visited
              else none

/-- The final scan of `Bdd::recompute_height`: take the maximum of the
computed heights over the leading run of terminal nodes (the Rust loop
returns at the first non-terminal index). -/
def terminalHeightMax (nodes : List Node) (height : List Nat) : Nat :=
  ((List.range (nodes.takeWhile Node.is_terminal).length).map
      (fun i => height.getD i 0)).foldl max 0

/-- `Bdd::recompute_height` (v4/core/_bdd.rs). -/
def Bdd.recompute_height (b : Bdd) : Option Bdd := do
  let c ← b.is_constant
  if c then some { b with height := 0 }
  else
    let n := b.nodes.length
    let height := (List.replicate n 0).set b.get_root_index 1
    let visited := List.replicate n false
    match bfsLoop b (n + 2) [b.get_root_index] height visited with
    | none => none
    | some height =>
        some { b with height := terminalHeightMax b.nodes height }

/-- The parse errors surfaced by `TryFrom<&str> for Bdd`.  The Rust code
reports formatted strings; the payloads are modelled structurally. -/
inductive ParseError where
  | malformed_node (s : String)
  | invalid_variable (s : String)
  | invalid_pointer (s : String)
  | consistency (e : ConsistencyError)
deriving DecidableEq, Repr

/-- Decimal digits, as parsed by Rust's `str::parse` for unsigned types. -/
def parseDigits : List Char → Option Nat → Option Nat
  | [], acc => acc
  | c :: rest, acc =>
      if c.isDigit then
        parseDigits rest
          (some ((acc.getD 0) * 10 + (c.toNat - '0'.toNat)))
      else none

/-- Rust `str::split(sep)` modelled on character lists (an empty input
yields one empty piece, exactly as in Rust). -/
def splitOnChar (sep : Char) : List Char → List (List Char)
  | [] => [[]]
  | c :: rest =>
      let r := splitOnChar sep rest
      if c = sep then [] :: r
      else
        match r with
        | [] => [[c]]
        | g :: gs => (c :: g) :: gs

/-- Rust `str::parse::<uN>`: an optional leading `+`, then one or more
decimal digits, and the value must fit in the target width. -/
def parseUInt (width : Nat) (cs : List Char) : Option Nat :=
  let cs := match cs with
    | '+' :: rest => rest
    | _ => cs
  match parseDigits cs none with
  | none => none
  | some v => if v < width then some v else none

/-- Parsing a single `variable,low,high` entry of the textual format
(the body of the `for node_string in ...` loop of `TryFrom<&str>`). -/
def parseNodeStr (s : List Char) : Except ParseError Node :=
  match splitOnChar ',' s with
  | [v, l, h] =>
      match parseUInt W32 v with
      | none => Except.error (ParseError.invalid_variable (String.mk v))
      | some vv =>
          match parseUInt W64 l with
          | none => Except.error (ParseError.invalid_pointer (String.mk l))
          | some ll =>
              match parseUInt W64 h with
              | none => Except.error (ParseError.invalid_pointer (String.mk h))
              | some hh => Except.ok (Node.pack vv ll hh)
  | _ => Except.error (ParseError.malformed_node (String.mk s))

/-- The terminal replacement step of `TryFrom<&str>`: `if let Some(zero) =
nodes.get_mut(0)` / `get_mut(1)`. -/
def patchTerminals (nodes : List Node) : List Node :=
  let nodes := if 0 < nodes.length then nodes.set 0 Node.ZERO else nodes
  if 1 < nodes.length then nodes.set 1 Node.ONE else nodes

/-- `TryFrom<&str> for Bdd` (v4/core/_bdd.rs).  The outer `Option` is the
undefined-behaviour monad of this development: parsing an input with zero
node entries reaches `recompute_height` on an empty node vector, which
indexes out of bounds. -/
def tryFromStr (data : String) : Option (Except ParseError Bdd) :=
  match ((splitOnChar '|' data.data).filter
      (fun s => ¬s.isEmpty)).mapM parseNodeStr with
  | Except.error e => some (Except.error e)
  | Except.ok nodes =>
      match check_consistency_errors (patchTerminals nodes) with
      | some e => some (Except.error (ParseError.consistency e))
      | none =>
          match Bdd.recompute_height
              { height := W32 - 1, nodes := patchTerminals nodes } with
          | none => none
          | some bdd => some (Except.ok bdd)

/-- `v4/apply/task_cache.rs`: a `u64` slot index. -/
abbrev TaskCacheSlot := Nat

/-- `TaskCacheSlot::UNDEFINED = TaskCacheSlot(u64::MAX)`. -/
def TaskCacheSlot.UNDEFINED : TaskCacheSlot := W64 - 1

/-- The leaky task cache of the v4 apply. -/
structure TaskCache where
  elements : Nat
  bit_extension : Nat
  capacity : Nat
  items : List ((NodeIndex × NodeIndex) × NodeIndex)
deriving DecidableEq, Repr

/-- `TaskCache::HASH_BLOCK = 1 << 13`. -/
def TaskCache.HASH_BLOCK : Nat := 1 <<< 13

/-- `TaskCache::UNDEFINED_ENTRY`. -/
def TaskCache.UNDEFINED_ENTRY : (NodeIndex × NodeIndex) × NodeIndex :=
  ((NodeIndex.UNDEFINED, NodeIndex.UNDEFINED), NodeIndex.UNDEFINED)

/-- `TaskCache::new` (v4/apply/task_cache.rs). -/
def TaskCache.new (initial_capacity : Nat) : TaskCache :=
  { elements := 0,
    bit_extension := 0,
    capacity := initial_capacity,
    items :=
      List.replicate (initial_capacity + TaskCache.HASH_BLOCK)
        TaskCache.UNDEFINED_ENTRY }

/-- `u64::leading_zeros` modelled on `Nat` (the argument is assumed
`< 2^64`); `Nat.size` is the binary length. -/
def leadingZeros64 (x : Nat) : Nat := 64 - x.size

/-- `TaskCache::hashed_index`. -/
def TaskCache.hashed_index (tc : TaskCache) (task : NodeIndex × NodeIndex) :
    TaskCacheSlot :=
  let left := task.1
  let right := task.2
  let right_hash := right * SEED % W64
  let block_offset := right_hash % TaskCache.HASH_BLOCK
  let shift_bits := 64 - leadingZeros64 tc.bit_extension
  let block_base := ((left <<< shift_bits) % W64) ||| (right &&& tc.bit_extension)
  (block_base + block_offset) % W64

/-- `TaskCache::read`.  The `get_unchecked` read is modelled with a default
value; under the invariants maintained by `apply` the slot is in bounds. -/
def TaskCache.read (tc : TaskCache) (task : NodeIndex × NodeIndex) :
    NodeIndex × TaskCacheSlot :=
  let slot := tc.hashed_index task
  let slot_value := tc.items.getD slot TaskCache.UNDEFINED_ENTRY
  if slot_value.1 = task then (slot_value.2, slot)
  else (NodeIndex.UNDEFINED, slot)

/-- `TaskCache::write`.  (`List.set` ignores out-of-bounds writes; under the
invariants maintained by `apply` the slot is in bounds.) -/
def TaskCache.write (tc : TaskCache) (slot : TaskCacheSlot)
    (task : NodeIndex × NodeIndex) (result : NodeIndex) : TaskCache :=
  { tc with
    items := tc.items.set slot (task, result),
    elements := tc.elements + 1 }

/-- `v4/apply/node_cache.rs`: a `u64` slot index. -/
abbrev NodeCacheSlot := Nat

/-- `NodeCacheSlot::UNDEFINED = NodeCacheSlot(u64::MAX)`. -/
def NodeCacheSlot.UNDEFINED : NodeCacheSlot := W64 - 1

def NodeCacheSlot.is_undefined (s : NodeCacheSlot) : Bool :=
  s == NodeCacheSlot.UNDEFINED

/-- The chained node cache of the v4 apply. -/
structure NodeCache where
  index_after_last : Nat
  nodes : List (Node × NodeCacheSlot)
  table : List NodeCacheSlot
deriving DecidableEq, Repr

/-- `NodeCache::new` (v4/apply/node_cache.rs); the `assert!` on the capacity
is modelled as `none`, the uninitialized `nodes` memory as junk entries. -/
def NodeCache.new (initial_capacity : Nat) : Option NodeCache :=
  if initial_capacity < 2 then none
  else
    some
      { index_after_last := 2,
        table := List.replicate initial_capacity NodeCacheSlot.UNDEFINED,
        nodes :=
          ((List.replicate initial_capacity
                (Node.ZERO, NodeCacheSlot.UNDEFINED)).set 0
              (Node.ZERO, NodeCacheSlot.UNDEFINED)).set 1
            (Node.ONE, NodeCacheSlot.UNDEFINED) }

def NodeCache.len (nc : NodeCache) : Nat := nc.index_after_last

/-- `NodeCache::hash_position`: `max(low_link, high_link)`. -/
def NodeCache.hash_position (_nc : NodeCache) (key : Node) : Nat :=
  max key.get_low_link key.get_high_link

/-- `NodeCache::ensure`.  Unchecked reads/writes are modelled with default
values / `List.set`; under the invariants of `apply` they are in bounds. -/
def NodeCache.ensure (nc : NodeCache) (node : Node) :
    Except NodeCacheSlot NodeIndex × NodeCache :=
  let hash_slot := nc.hash_position node
  let linked_list_start := nc.table.getD hash_slot NodeCacheSlot.UNDEFINED
  if linked_list_start.is_undefined then
    let fresh_slot := nc.index_after_last
    (Except.ok fresh_slot,
      { nc with
        table := nc.table.set hash_slot fresh_slot,
        index_after_last := nc.index_after_last + 1,
        nodes := nc.nodes.set fresh_slot (node, NodeCacheSlot.UNDEFINED) })
  else (Except.error linked_list_start, nc)

/-- `NodeCache::ensure_at`. -/
def NodeCache.ensure_at (nc : NodeCache) (node : Node)
    (slot : NodeCacheSlot) : Except NodeCacheSlot NodeIndex × NodeCache :=
  let slot_value := nc.nodes.getD slot (Node.ZERO, NodeCacheSlot.UNDEFINED)
  if slot_value.1 = node then (Except.ok slot, nc)
  else if ¬slot_value.2.is_undefined then (Except.error slot_value.2, nc)
  else
    let fresh_slot := nc.index_after_last
    (Except.ok fresh_slot,
      { nc with
        index_after_last := nc.index_after_last + 1,
        nodes :=
          (nc.nodes.set slot (slot_value.1, fresh_slot)).set fresh_slot
            (node, NodeCacheSlot.UNDEFINED) })

/-- The `ensure`/`ensure_at` driver loop of `v4::apply::apply`
(`while let Err(slot) = cached { ... }`), with explicit fuel. -/
def internAux (node : Node) :
    Nat → Except NodeCacheSlot NodeIndex × NodeCache →
      Option (NodeIndex × NodeCache)
  | _, (Except.ok id, nc) => some (id, nc)
  | 0, (Except.error _, _) => none
  | fuel + 1, (Except.error slot, nc) =>
      internAux node fuel (nc.ensure_at node slot)

def NodeCache.intern (nc : NodeCache) (node : Node) (fuel : Nat) :
    Option (NodeIndex × NodeCache) :=
  internAux node fuel (nc.ensure node)

/-- `v4/apply/mod.rs`: a stack frame of the in-order apply.
`offset` stores `(logical offset << 1) | decoded bit` in a `u8`;
`results` models the `[NodeIndex; 2]` array as a pair
(`results.1 = results[0]`, `results.2 = results[1]`). -/
structure ApplyTask where
  offset : Nat
  var : Variable
  task : NodeIndex × NodeIndex
  results : NodeIndex × NodeIndex
  task_cache_slot : TaskCacheSlot
deriving DecidableEq, Repr

/-- `ApplyTask::new`. -/
def ApplyTask.new (offset : Nat) (task : NodeIndex × NodeIndex) : ApplyTask :=
  { offset := (offset <<< 1) % 256,
    var := Variable.UNDEFINED,
    task := task,
    results := (NodeIndex.UNDEFINED, NodeIndex.UNDEFINED),
    task_cache_slot := TaskCacheSlot.UNDEFINED }

def ApplyTask.get_offset (t : ApplyTask) : Nat := t.offset >>> 1

def ApplyTask.is_not_decoded (t : ApplyTask) : Bool := t.offset &&& 1 == 0

def ApplyTask.mark_as_decoded (t : ApplyTask) : ApplyTask :=
  { t with offset := t.offset ||| 1 }

/-- The state of the `v4::apply::apply` loop.  The stack contents are a list
(head = top); `stack_capacity` records the size allocated by
`UnsafeStack::new` — the pushes themselves are unchecked in the source, so
the model lets the list grow and the capacity bound is a property to prove
(claim C4). -/
structure ApplyState where
  task_cache : TaskCache
  node_cache : NodeCache
  task_count : Nat
  stack : List ApplyTask
  stack_capacity : Nat
deriving DecidableEq, Repr

/-- The allocations at the entry of `v4::apply::apply`
(v4/apply/mod.rs, lines 48-57), including the initial push.
`height_limit = left.get_height() + right.get_height()` is a `u32`
addition (it wraps in release builds, hence the `% 2^32`); the capacity
`2 * height_limit.into_index()` is then a `usize` product, which cannot
wrap for `u32` operands. -/
def applyInit (L R : Bdd) : Option ApplyState := do
  let height_limit := (L.get_height + R.get_height) % W32
  let task_cache := TaskCache.new L.get_size
  let node_cache ← NodeCache.new (3 * L.get_size)
  some
    { task_cache := task_cache, node_cache := node_cache, task_count := 0,
      stack := [ApplyTask.new 0 (L.get_root_index, R.get_root_index)],
      stack_capacity := 2 * height_limit }

/-- The common tail of the `v4::apply::apply` loop body for an iteration
that produced a `result`: pop the top frame and store the result in the
parent frame (`peek_at(top_offset)`, `results[top_offset - 1]`).
`rest` is the stack after the pop.  Out-of-bounds `peek_at` or
`get_unchecked_mut` (possible only for ill-formed offsets) is `none`. -/
def finishStep (s : ApplyState) (top_offset : Nat) (rest : List ApplyTask)
    (result : NodeIndex) : Option ApplyState :=
  match rest with
  | [] => some { s with stack := [] }
  | _ =>
      if top_offset = 0 then none
      else
        match rest.get? (top_offset - 1) with
        | none => none
        | some parent =>
            let parent :=
              if top_offset = 1 then
                { parent with results := (result, parent.results.2) }
              else { parent with results := (parent.results.1, result) }
            some { s with stack := rest.set (top_offset - 1) parent }

/-- One iteration of the `v4::apply::apply` main loop
(v4/apply/mod.rs, lines 59-137). -/
def step (L R : Bdd) (s : ApplyState) : Option ApplyState :=
  match s.stack with
  | [] => none
  | top :: rest =>
      let top_offset := top.get_offset
      if top.is_not_decoded then
        let top := top.mark_as_decoded
        let left := top.task.1
        let right := top.task.2
        if left.is_one || right.is_one then
          finishStep s top_offset rest NodeIndex.ONE
        else if left.is_zero && right.is_zero then
          finishStep s top_offset rest NodeIndex.ZERO
        else
          let rd := s.task_cache.read top.task
          if ¬rd.1.is_undefined then finishStep s top_offset rest rd.1
          else
            let top := { top with task_cache_slot := rd.2 }
            match L.get_node_unchecked left, R.get_node_unchecked right with
            | some left_node, some right_node =>
                let l_var := left_node.get_variable
                let r_var := right_node.get_variable
                let stack :=
                  if l_var = r_var then
                    ApplyTask.new 2 (left_node.get_low_link,
                        right_node.get_low_link) ::
                      ApplyTask.new 1 (left_node.get_high_link,
                        right_node.get_high_link) ::
                      { top with var := l_var } :: rest
                  else if l_var < r_var then
                    ApplyTask.new 2 (left_node.get_low_link, right) ::
                      ApplyTask.new 1 (left_node.get_high_link, right) ::
                      { top with var := l_var } :: rest
                  else
                    ApplyTask.new 2 (left, right_node.get_low_link) ::
                      ApplyTask.new 1 (left, right_node.get_high_link) ::
                      { top with var := r_var } :: rest
                some { s with task_count := s.task_count + 1, stack := stack }
            | _, _ => none
      else
        let result_low := top.results.2
        let result_high := top.results.1
        if result_low = result_high then
          let tc := s.task_cache.write top.task_cache_slot top.task result_low
          finishStep { s with task_cache := tc } top_offset rest result_low
        else
          let node := Node.pack top.var result_low result_high
          match s.node_cache.intern node (s.node_cache.nodes.length + 2) with
          | none => none
          | some (id, nc) =>
              let tc := s.task_cache.write top.task_cache_slot top.task id
              finishStep { s with node_cache := nc, task_cache := tc }
                top_offset rest id

/-- The main loop of `v4::apply::apply`, driven by explicit fuel. -/
def applyLoop (L R : Bdd) : Nat → ApplyState → Option ApplyState
  | 0, s => if s.stack.isEmpty then some s else none
  | fuel + 1, s =>
      if s.stack.isEmpty then some s
      else (step L R s).bind (applyLoop L R fuel)

/-- `v4::apply::apply` (v4/apply/mod.rs): returns
`(node_cache.len(), task_count)` — not a `Bdd`. -/
def apply (L R : Bdd) (fuel : Nat) : Option (Nat × Nat) :=
  (applyInit L R).bind fun s =>
    (applyLoop L R fuel s).map fun s => (s.node_cache.len, s.task_count)

/-- The states visited by the `v4::apply::apply` loop: `stepN k` is the state
after `k` iterations (stopping early once the stack is empty, exactly as the
loop guard does). -/
def stepN (L R : Bdd) : Nat → ApplyState → Option ApplyState
  | 0, s => some s
  | k + 1, s =>
      if s.stack.isEmpty then some s else (step L R s).bind (stepN L R k)

/-- The structural invariants of spec §3 for a v4 `Bdd`, as an executable
check: at least one node, the first two entries are the `ZERO`/`ONE`
terminals, and every other node is a non-terminal with in-bounds links,
strictly increasing variables along both links, and distinct children. -/
def Bdd.wfb (b : Bdd) : Bool :=
  let n := b.nodes.length
  decide (0 < n) &&
  (b.nodes.getD 0 Node.ONE == Node.ZERO) &&
  (n == 1 || b.nodes.getD 1 Node.ZERO == Node.ONE) &&
  (List.range n).all (fun i =>
    if i < 2 then true
    else
      let node := b.nodes.getD i Node.ZERO
      !node.get_variable.is_undefined &&
      decide (node.get_variable < W32) &&
      decide (node.get_low_link < n) &&
      decide (node.get_high_link < n) &&
      node.get_low_link != node.get_high_link &&
      decide (node.get_variable <
        (b.nodes.getD node.get_low_link Node.ZERO).get_variable) &&
      decide (node.get_variable <
        (b.nodes.getD node.get_high_link Node.ZERO).get_variable))

/-- The number of edges on the longest path from node `i` to a terminal,
computed with enough fuel to be exact on any variable-ordered node array
(the recursion depth is bounded by the strictly increasing variables). -/
def eheightAux (nodes : List Node) : Nat → Nat → Nat
  | 0, _ => 0
  | fuel + 1, i =>
      match nodes.get? i with
      | none => 0
      | some node =>
          if node.is_terminal then 0
          else
            1 + max (eheightAux nodes fuel node.get_low_link)
                (eheightAux nodes fuel node.get_high_link)

/-- The number of edges on the longest root-to-terminal path of `b`. -/
def Bdd.eheight (b : Bdd) : Nat :=
  eheightAux b.nodes (W32 + 1) b.get_root_index

/-- `eheightAux` with its canonical (sufficient) fuel, at node `i`. -/
def eAt (b : Bdd) (i : Nat) : Nat := eheightAux b.nodes (W32 + 1) i

/-- The variable stored at index `i` (`Node.ZERO`, i.e. `UNDEFINED`,
out of bounds). -/
def varD (b : Bdd) (i : Nat) : Nat := (b.nodes.getD i Node.ZERO).get_variable

/-- The "variable gap" used as a termination measure: variables strictly
increase along links, so the gap strictly decreases. -/
def gap (b : Bdd) (i : Nat) : Nat := W32 - varD b i

/-- The measure of a coupled-DFS task: longest-path length in `L` from the
left operand plus longest-path length in `R` from the right operand. -/
def taskMu (L R : Bdd) (t : NodeIndex × NodeIndex) : Nat :=
  eAt L t.1 + eAt R t.2

/-- The shape-relevant projection of a stack frame: its `is_not_decoded`
flag and its task.  The stack-shape invariant only depends on this
projection, so result writes into parent frames preserve it. -/
def projF (t : ApplyTask) : Bool × (NodeIndex × NodeIndex) :=
  (t.is_not_decoded, t.task)

/-- The "chain below" part of the stack-shape invariant (claim C4), on
projected frames, listed top-first.  Parameter `v` is the measure of the
decoded frame immediately above the remaining stack: between two decoded
frames at most one non-decoded sibling is pending, measures of decoded
frames strictly increase towards the bottom of the stack, and all of them
are at most `S0`. -/
inductive CB (L R : Bdd) (S0 : Nat) :
    Nat → List (Bool × (NodeIndex × NodeIndex)) → Prop where
  | nil : ∀ v, CB L R S0 v []
  | seg : ∀ (pre : List (Bool × (NodeIndex × NodeIndex)))
      (d : Bool × (NodeIndex × NodeIndex))
      (s : List (Bool × (NodeIndex × NodeIndex))) (v : Nat),
      pre.length ≤ 1 →
      (∀ f ∈ pre, f.1 = true ∧ taskMu L R f.2 < taskMu L R d.2) →
      d.1 = false →
      v < taskMu L R d.2 → taskMu L R d.2 ≤ S0 →
      CB L R S0 (taskMu L R d.2) s →
      CB L R S0 v (pre ++ d :: s)

/-- The stack-shape invariant of the v4 apply loop (claim C4), on projected
frames listed top-first: the stack is empty, a single not-yet-decoded root
frame, or a block of at most two fresh non-decoded frames on top of a
decoded frame followed by a `CB` chain. -/
inductive SInv (L R : Bdd) (S0 : Nat) :
    List (Bool × (NodeIndex × NodeIndex)) → Prop where
  | empty : SInv L R S0 []
  | lone : ∀ f, f.1 = true → taskMu L R f.2 ≤ S0 → SInv L R S0 [f]
  | chain : ∀ (pre : List (Bool × (NodeIndex × NodeIndex)))
      (d : Bool × (NodeIndex × NodeIndex))
      (s : List (Bool × (NodeIndex × NodeIndex))),
      pre.length ≤ 2 →
      (∀ f ∈ pre, f.1 = true ∧ taskMu L R f.2 < taskMu L R d.2) →
      d.1 = false →
      1 ≤ taskMu L R d.2 → taskMu L R d.2 ≤ S0 →
      CB L R S0 (taskMu L R d.2) s →
      SInv L R S0 (pre ++ d :: s)

/-- All stack frames hold in-bounds operand pairs. -/
def StackOk (L R : Bdd) (s : List ApplyTask) : Prop :=
  ∀ f ∈ s, f.task.1 < L.nodes.length ∧ f.task.2 < R.nodes.length

/-- The v4 `Bdd` of the single variable `x0`, with a stored height that is a
valid bound on the number of nodes of the longest root-to-terminal path. -/
def xZeroV4 : Bdd :=
  { height := 2, nodes := [Node.ZERO, Node.ONE, Node.pack 0 0 1] }

/-- The v4 `Bdd` of `x0` with the (still valid) stored height bound `2^31`:
two of these make the `u32` height addition at the `apply` entry wrap to
`0`. -/
def xZeroWideV4 : Bdd :=
  { height := 2 ^ 31, nodes := [Node.ZERO, Node.ONE, Node.pack 0 0 1] }

end V4

namespace V3

/-- The structural invariants of spec §3 for a v3 `Bdd` (same checks as
`V4.Bdd.wfb`). -/
def Bdd.wfbCore (b : Bdd) : Bool :=
  let n := b.nodes.length
  decide (0 < n) &&
  (b.nodes.getD 0 PackedBddNode.ONE == PackedBddNode.ZERO) &&
  (n == 1 || b.nodes.getD 1 PackedBddNode.ZERO == PackedBddNode.ONE) &&
  (List.range n).all (fun i =>
    if i < 2 then true
    else
      let node := b.nodes.getD i PackedBddNode.ZERO
      !node.get_variable.is_undefined &&
      decide (node.get_variable < W32) &&
      decide (node.get_low_link < n) &&
      decide (node.get_high_link < n) &&
      node.get_low_link != node.get_high_link &&
      decide (node.get_variable <
        (b.nodes.getD node.get_low_link PackedBddNode.ZERO).get_variable) &&
      decide (node.get_variable <
        (b.nodes.getD node.get_high_link PackedBddNode.ZERO).get_variable))

/-- One round of the reachability closure: every already-marked non-terminal
marks both of its children. -/
def reachStep (b : Bdd) (marked : List Bool) : List Bool :=
  (List.range b.nodes.length).foldl
    (fun m i =>
      if m.getD i false ∧ 2 ≤ i then
        match b.nodes.get? i with
        | some node => (m.set node.get_low_link true).set node.get_high_link true
        | none => m
      else m)
    marked

/-- `n`-fold reachability closure starting from the root. -/
def reachN (b : Bdd) : Nat → List Bool
  | 0 => (List.replicate b.nodes.length false).set (b.nodes.length - 1) true
  | k + 1 => reachStep b (reachN b k)

/-- Executable check that every non-terminal node is reachable from the root
(spec §4.1: the sort passes assign an index to every node, so all slots are
consumed). -/
def Bdd.reachAllb (b : Bdd) : Bool :=
  let m := reachN b b.nodes.length
  (List.range b.nodes.length).all (fun i => i < 2 || m.getD i false)

/-- Well-formedness of a v3 `Bdd`: the structural invariants of spec §3
plus reachability of every non-terminal node (spec §4.1). -/
def Bdd.wfb (b : Bdd) : Bool := b.wfbCore && b.reachAllb

/-- Reachability from the root through non-terminal nodes, as an inductive
relation (used in proofs; `Bdd.reachAllb` implies it). -/
inductive Reach (b : Bdd) : Nat → Prop where
  | root : Reach b (b.nodes.length - 1)
  | low {i node} : Reach b i → 2 ≤ i → b.nodes.get? i = some node →
      Reach b node.get_low_link
  | high {i node} : Reach b i → 2 ≤ i → b.nodes.get? i = some node →
      Reach b node.get_high_link

/-- Evaluation of the Boolean function of a `Bdd` node under an assignment
(`0 ↦ false`, `1 ↦ true`, otherwise branch on the node's variable). -/
def evalAux (nodes : List PackedBddNode) (a : Nat → Bool) :
    Nat → Nat → Bool
  | 0, _ => false
  | fuel + 1, i =>
      if i = 0 then false
      else if i = 1 then true
      else
        match nodes.get? i with
        | none => false
        | some node =>
            if a node.get_variable then
              evalAux nodes a fuel node.get_high_link
            else evalAux nodes a fuel node.get_low_link

/-- The truth table of a v3 `Bdd`: evaluation from the root. -/
def Bdd.eval (b : Bdd) (a : Nat → Bool) : Bool :=
  evalAux b.nodes a (b.nodes.length + 1) b.get_root_id

/-- The `Bdd` of the single variable `x0` (`height` stores a valid upper
bound as required by `TaskStack::new`). -/
def xZero : Bdd :=
  { height := 2,
    nodes :=
      [PackedBddNode.ZERO, PackedBddNode.ONE,
        PackedBddNode.pack 0 NodeId.ZERO NodeId.ONE] }

/-- The `Bdd` of `¬x0`. -/
def notXZero : Bdd :=
  { height := 2,
    nodes :=
      [PackedBddNode.ZERO, PackedBddNode.ONE,
        PackedBddNode.pack 0 NodeId.ONE NodeId.ZERO] }

/-- The `Bdd` of `x0 ∧ x1`. -/
def andChain : Bdd :=
  { height := 3,
    nodes :=
      [PackedBddNode.ZERO, PackedBddNode.ONE,
        PackedBddNode.pack 1 NodeId.ZERO NodeId.ONE,
        PackedBddNode.pack 0 NodeId.ZERO 2] }

/-- The `Bdd` of `x0` with the (valid) height bound `4`: the slack is needed
because `v3::core::ooo::apply` sizes its task stack by
`height(L) + height(R)` only, which the coupled DFS of `x0` with `x1`
exceeds for the tight bound `2`. -/
def xZeroTall : Bdd :=
  { height := 4,
    nodes :=
      [PackedBddNode.ZERO, PackedBddNode.ONE,
        PackedBddNode.pack 0 NodeId.ZERO NodeId.ONE] }

/-- The `Bdd` of `x1` with the tight height bound `2`. -/
def xOneVar : Bdd :=
  { height := 2,
    nodes :=
      [PackedBddNode.ZERO, PackedBddNode.ONE,
        PackedBddNode.pack 1 NodeId.ZERO NodeId.ONE] }

/-- The `Bdd` of `x1` with the height bound `4` (see `xZeroTall`). -/
def xOneTall : Bdd :=
  { height := 4,
    nodes :=
      [PackedBddNode.ZERO, PackedBddNode.ONE,
        PackedBddNode.pack 1 NodeId.ZERO NodeId.ONE] }

/-- The decision variable stored at index `i` (terminals and out-of-range
reads give the `UNDEFINED` variable of the `ZERO` node). -/
def varP (b : Bdd) (i : NodeId) : VariableId :=
  (b.nodes.getD i PackedBddNode.ZERO).get_variable

/-- A well-formed index relabeling produced by one of the two DFS sorts of
`v3/core/bdd.rs`: it is total on `[0, n)`, fixes the two terminal indices,
maps non-terminal indices to non-terminal indices below `n`, and is
injective. -/
structure ShuffleOK (n : Nat) (σ : List NodeId) : Prop where
  len : σ.length = n
  zero : σ.get? 0 = some 0
  one : σ.get? 1 = some 1
  val2 : ∀ (i v : Nat), 2 ≤ i → σ.get? i = some v → 2 ≤ v ∧ v < n
  inj : ∀ (i j vi vj : Nat), σ.get? i = some vi → σ.get? j = some vj →
    vi = vj → i = j

/-- `b2` is the relabeling of `b1` along `σ`: the node stored at `i` in
`b1` is stored at `σ i` in `b2` with both links renamed through `σ`. -/
structure SortPerm (b1 b2 : Bdd) (σ : List NodeId) : Prop where
  len2 : b2.nodes.length = b1.nodes.length
  ok : ShuffleOK b1.nodes.length σ
  rel : ∀ (i : Nat) (node : PackedBddNode), b1.nodes.get? i = some node →
    ∃ (v lv hv : Nat), σ.get? i = some v ∧
      σ.get? node.get_low_link = some lv ∧
      σ.get? node.get_high_link = some hv ∧
      b2.nodes.get? v = some (PackedBddNode.pack node.get_variable lv hv)

/-- The invariant of the id map of the pre-order DFS
(`Bdd::sort_preorder`): ids count down from `n - 1`, the terminals keep
ids `0`/`1`, assigned ids are distinct and lie in `(next_free, n)`, and
`next_free` exceeds the number of still-unassigned indices by one. -/
structure PreMapInv (n : Nat) (m : List NodeId) (nf : Nat) : Prop where
  len : m.length = n
  zero : m.get? 0 = some 0
  one : m.get? 1 = some 1
  count : ∃ U : Finset Nat,
    (∀ i, i ∈ U ↔ 2 ≤ i ∧ i < n ∧ m.get? i = some NodeId.UNDEFINED) ∧
    nf = 1 + U.card
  values : ∀ (i v : Nat), 2 ≤ i → m.get? i = some v →
    v ≠ NodeId.UNDEFINED → nf < v ∧ v < n
  inj : ∀ (i j vi vj : Nat), m.get? i = some vi → m.get? j = some vj →
    vi ≠ NodeId.UNDEFINED → vi = vj → i = j

/-- The invariant of the id map of the post-order DFS
(`Bdd::sort_postorder`): ids count up from `2`. -/
structure PostMapInv (n : Nat) (m : List NodeId) (nf : Nat) : Prop where
  len : m.length = n
  zero : m.get? 0 = some 0
  one : m.get? 1 = some 1
  count : ∃ U : Finset Nat,
    (∀ i, i ∈ U ↔ 2 ≤ i ∧ i < n ∧ m.get? i = some NodeId.UNDEFINED) ∧
    nf + U.card = n
  values : ∀ (i v : Nat), 2 ≤ i → m.get? i = some v →
    v ≠ NodeId.UNDEFINED → 2 ≤ v ∧ v < nf
  inj : ∀ (i j vi vj : Nat), m.get? i = some vi → m.get? j = some vj →
    vi ≠ NodeId.UNDEFINED → vi = vj → i = j

/-- The discipline of the post-order DFS stack: every pending "expended"
entry is still unassigned, and everything pushed above it belongs to the
subtrees of its children, hence carries a strictly larger decision
variable (so the entry cannot be duplicated while it waits). -/
def PostStackInv (b : Bdd) (m : List NodeId)
    (stack : List (NodeId × Bool)) : Prop :=
  ∀ (pre : List (NodeId × Bool)) (t : Nat) (post : List (NodeId × Bool)),
    stack = pre ++ (t, true) :: post →
    m.get? t = some NodeId.UNDEFINED ∧
    ∀ q ∈ pre, varP b t < varP b q.1

namespace OOO

/-- The states visited by the `v3::core::ooo::apply` loop: the state after
`k` iterations (stopping once the loop guard fails, as the loop does). -/
def stepN (L R : Bdd) : Nat → ApplyState → Option ApplyState
  | 0, s => some s
  | k + 1, s =>
      if finished s then some s else (step L R s).bind (stepN L R k)

/-- Reachability along the `next` links of the node-cache chains
(reflexive-transitive closure of the one-step link relation). -/
inductive SlotReach (nc : NodeCache) : NodeCacheSlot → NodeCacheSlot → Prop
  where
  | refl (a : NodeCacheSlot) : SlotReach nc a a
  | step (a b : NodeCacheSlot) (e : PackedBddNode × NodeCacheSlot) :
      nc.nodes.get? a = some e → e.2 ≠ NodeCacheSlot.UNDEFINED →
      SlotReach nc e.2 b → SlotReach nc a b

/-- Membership of slot `s` in the hash chain rooted at table entry `h`. -/
def ChainReach (nc : NodeCache) (h : Nat) (s : NodeCacheSlot) : Prop :=
  ∃ r, nc.table.get? h = some r ∧ r ≠ NodeCacheSlot.UNDEFINED ∧
    SlotReach nc r s

/-- The node-cache representation invariant: terminals in slots 0/1, chain
roots and links point at saved slots with strictly increasing slot numbers,
every saved node is a member of the chain of its own hash, saved nodes are
pairwise distinct, and every saved node is a proper decision node. -/
structure NInv (nc : NodeCache) : Prop where
  two_le : 2 ≤ nc.index_after_last
  le_len : nc.index_after_last ≤ nc.nodes.length
  len_lt : nc.nodes.length < NodeCacheSlot.UNDEFINED
  node0 : nc.nodes.get? 0 = some (PackedBddNode.ZERO, NodeCacheSlot.UNDEFINED)
  node1 : nc.nodes.get? 1 = some (PackedBddNode.ONE, NodeCacheSlot.UNDEFINED)
  roots : ∀ (h r : Nat), nc.table.get? h = some r →
    r ≠ NodeCacheSlot.UNDEFINED → 2 ≤ r ∧ r < nc.index_after_last
  links : ∀ (a b : Nat) e, 2 ≤ a → a < nc.index_after_last →
    nc.nodes.get? a = some e → e.2 = b → b ≠ NodeCacheSlot.UNDEFINED →
    a < b ∧ b < nc.index_after_last
  self_reach : ∀ a e, 2 ≤ a → a < nc.index_after_last →
    nc.nodes.get? a = some e → ChainReach nc (nc.hash_position e.1) a
  distinct : ∀ i j ei ej, 2 ≤ i → i < j → j < nc.index_after_last →
    nc.nodes.get? i = some ei → nc.nodes.get? j = some ej → ei.1 ≠ ej.1
  good : ∀ a e, 2 ≤ a → a < nc.index_after_last → nc.nodes.get? a = some e →
    e.1.get_low_link ≠ e.1.get_high_link ∧
      e.1.get_variable ≠ VariableId.UNDEFINED

/-- The state of an in-progress chain walk for `node` paused at `slot`
(the `Err` protocol of `ensure`/`ensure_at`): the slot is saved, lies in the
chain of `node`'s hash, and every saved duplicate of `node` is still ahead
of the walk. -/
structure WalkInv (nc : NodeCache) (node : PackedBddNode)
    (slot : Nat) : Prop where
  two_le : 2 ≤ slot
  lt : slot < nc.index_after_last
  in_chain : ChainReach nc (nc.hash_position node) slot
  ahead : ∀ a e, 2 ≤ a → a < nc.index_after_last → nc.nodes.get? a = some e →
    e.1 = node → SlotReach nc slot a

/-- The invariant of a task in the execution region of the queue. -/
def EInv (t : PendingTask) : Prop :=
  t.task ≠ (NodeId.ZERO, NodeId.ZERO) ∧ t.var ≠ VariableId.UNDEFINED

/-- The invariant of a task in the retire region of the queue. -/
def RInv (nc : NodeCache) (t : PendingTask) : Prop :=
  t.task ≠ (NodeId.ZERO, NodeId.ZERO) ∧
    (t.is_retired = true ∨
      (t.var ≠ VariableId.UNDEFINED ∧ t.result.1 ≠ t.result.2 ∧
        WalkInv nc t.result_node t.node_cache_slot))

/-- The invariant of a decoded stack frame: its operands survived the
terminal shortcuts and its decision variable is defined. -/
def FrameInv (f : StackedTask) : Prop :=
  f.is_decoded = true →
    f.task ≠ (NodeId.ZERO, NodeId.ZERO) ∧ f.var ≠ VariableId.UNDEFINED

/-- Forward ring distance between two cursors of the 32-slot queue. -/
def ringDist (a b : Nat) : Nat := (b + QLEN - a) % QLEN

/-- The global machine invariant of the `v3::core::ooo::apply` loop. -/
structure Inv (s : ApplyState) : Prop where
  ninv : NInv s.node_cache
  tinv : ∀ e ∈ s.task_cache.table,
    e.1 = (NodeId.ZERO, NodeId.ZERO) → e.2 = NodeId.ZERO
  qlen : s.queue.queue.length = QLEN
  rh_lt : s.queue.retire_head < QLEN
  eh_lt : s.queue.execution_head < QLEN
  et_lt : s.queue.execution_tail < QLEN
  order : ringDist s.queue.retire_head s.queue.execution_head ≤
    ringDist s.queue.retire_head s.queue.execution_tail
  retire_inv : ∀ p t, p < QLEN →
    ringDist s.queue.retire_head p <
      ringDist s.queue.retire_head s.queue.execution_head →
    s.queue.queue.get? p = some t → RInv s.node_cache t
  exec_inv : ∀ p t, p < QLEN →
    ringDist s.queue.retire_head s.queue.execution_head ≤
      ringDist s.queue.retire_head p →
    ringDist s.queue.retire_head p <
      ringDist s.queue.retire_head s.queue.execution_tail →
    s.queue.queue.get? p = some t → EInv t
  stack_inv : ∀ i f, i < s.stack.index_after_last →
    s.stack.items.get? i = some f → FrameInv f

end OOO

/-- Parsing a single `variable,low,high` entry in `TryFrom<&str> for Bdd`
(v3/core/bdd.rs); same grammar as the v4 parser. -/
def parseNodeStr (s : List Char) : Except V4.ParseError PackedBddNode :=
  match V4.splitOnChar ',' s with
  | [v, l, h] =>
      match V4.parseUInt W32 v with
      | none => Except.error (V4.ParseError.invalid_variable (String.mk v))
      | some vv =>
          match V4.parseUInt W64 l with
          | none => Except.error (V4.ParseError.invalid_pointer (String.mk l))
          | some ll =>
              match V4.parseUInt W64 h with
              | none => Except.error (V4.ParseError.invalid_pointer (String.mk h))
              | some hh => Except.ok (PackedBddNode.pack vv ll hh)
  | _ => Except.error (V4.ParseError.malformed_node (String.mk s))

/-- `TryFrom<&str> for Bdd` (v3/core/bdd.rs).  Note that, unlike the v4
version, this parser performs no structural validation — the source carries
an explicit `TODO` about it and directly calls `Bdd::from_raw_nodes`.
The `.unwrap()` on `nodes.get_mut(0)` panics for inputs with no node
entries; that is the `none` case. -/
def tryFromStr (data : String) : Option (Except V4.ParseError Bdd) :=
  match ((V4.splitOnChar '|' data.data).filter
      (fun s => ¬s.isEmpty)).mapM parseNodeStr with
  | Except.error e => some (Except.error e)
  | Except.ok nodes =>
      if nodes.length = 0 then none
      else
        let nodes := nodes.set 0 PackedBddNode.ZERO
        let nodes :=
          if 1 < nodes.length then nodes.set 1 PackedBddNode.ONE else nodes
        some (Except.ok (Bdd.from_raw_nodes nodes))

end V3

/-! ## Supporting lemmas -/

theorem get?_set_ne {α : Type} (l : List α) (i j : Nat) (a : α) (h : i ≠ j) :
    (l.set i a).get? j = l.get? j := by
  rw [List.get?_eq_getElem?, List.get?_eq_getElem?, List.getElem?_set_ne h]

theorem get?_set_self {α : Type} (l : List α) (i : Nat) (a : α)
    (h : i < l.length) : (l.set i a).get? i = some a := by
  rw [List.get?_eq_getElem?, List.getElem?_set_self]
  simp [h]

theorem get?_lt_length {α : Type} {l : List α} {i : Nat} {a : α}
    (h : l.get? i = some a) : i < l.length := (List.get?_eq_some.mp h).1

namespace V3

namespace OOO

theorem rob_new_length {c : Nat} {rb : ReorderBuffer}
    (h : ReorderBuffer.new c = some rb) : rb.buffer.length = c := by
  unfold ReorderBuffer.new at h
  split at h
  · exact absurd h (by simp)
  · cases h
    simp

theorem task_cache_new_table {l r : Nat} {tc : TaskCache}
    (h : TaskCache.new l r = some tc) :
    tc.capacity = max l r ∧ tc.table.length = max l r ∧
      ∀ e ∈ tc.table, e = ((NodeId.ZERO, NodeId.ZERO), NodeId.ZERO) := by
  simp only [TaskCache.new] at h
  split at h
  · exact absurd h (by simp)
  · cases h
    refine ⟨rfl, by simp, ?_⟩
    intro e he
    exact List.eq_of_mem_replicate he

theorem ooo_applyInit_parts {L R : Bdd} {st : ApplyState}
    (h : applyInit L R = some st) :
    ∃ rob tcache ncache stack,
      ReorderBuffer.new (L.get_height + R.get_height) = some rob ∧
      TaskCache.new L.node_count R.node_count = some tcache ∧
      NodeCache.new L.node_count (2 * L.node_count) = some ncache ∧
      (TaskStack.new L.get_height R.get_height).push_new 0
          (L.get_root_id, R.get_root_id) = some stack ∧
      st = { queue := ExecutionRetireQueue.new, rob := rob,
             task_cache := tcache, node_cache := ncache, stack := stack,
             stall := 0 } := by
  unfold applyInit at h
  simp only [bind, Option.bind_eq_some] at h
  obtain ⟨rob, hrob, tcache, htc, ncache, hnc, stack, hstack, heq⟩ := h
  exact ⟨rob, tcache, ncache, stack, hrob, htc, hnc, hstack,
    (Option.some_injective _ heq).symm⟩

theorem slotReach_trans {nc : NodeCache} {a b c : NodeCacheSlot}
    (h1 : SlotReach nc a b) : SlotReach nc b c → SlotReach nc a c := by
  induction h1 with
  | refl x => exact fun h2 => h2
  | step x y e hget hne hr ih =>
      exact fun h2 => SlotReach.step x c e hget hne (ih h2)

theorem slotReach_snoc {nc : NodeCache} {a b : NodeCacheSlot}
    {e : PackedBddNode × NodeCacheSlot} (h : SlotReach nc a b)
    (hget : nc.nodes.get? b = some e) (hne : e.2 ≠ NodeCacheSlot.UNDEFINED) :
    SlotReach nc a e.2 :=
  slotReach_trans h (SlotReach.step b e.2 e hget hne (SlotReach.refl _))

theorem chainReach_snoc {nc : NodeCache} {h : Nat} {a : NodeCacheSlot}
    {e : PackedBddNode × NodeCacheSlot} (hc : ChainReach nc h a)
    (hget : nc.nodes.get? a = some e) (hne : e.2 ≠ NodeCacheSlot.UNDEFINED) :
    ChainReach nc h e.2 := by
  obtain ⟨r, hr, hru, hra⟩ := hc
  exact ⟨r, hr, hru, slotReach_snoc hra hget hne⟩

theorem slotReach_cases {nc : NodeCache} {a b : NodeCacheSlot}
    (h : SlotReach nc a b) :
    a = b ∨ ∃ e, nc.nodes.get? a = some e ∧
      e.2 ≠ NodeCacheSlot.UNDEFINED ∧ SlotReach nc e.2 b := by
  cases h with
  | refl => exact Or.inl rfl
  | step x y e hget hne hr => exact Or.inr ⟨e, hget, hne, hr⟩

theorem slotReach_total {nc : NodeCache} {r a c : NodeCacheSlot}
    (h1 : SlotReach nc r a) : SlotReach nc r c →
    SlotReach nc a c ∨ SlotReach nc c a := by
  induction h1 with
  | refl x => exact fun h2 => Or.inl h2
  | step x y e hget hne hr ih =>
      intro h2
      rcases slotReach_cases h2 with rfl | ⟨e', hget', hne', hr'⟩
      · exact Or.inr (SlotReach.step x y e hget hne hr)
      · rw [hget] at hget'
        injection hget' with hee
        subst hee
        exact ih hr'

theorem chainReach_total {nc : NodeCache} {h : Nat} {a b : NodeCacheSlot}
    (h1 : ChainReach nc h a) (h2 : ChainReach nc h b) :
    SlotReach nc a b ∨ SlotReach nc b a := by
  obtain ⟨r, hr, hru, hra⟩ := h1
  obtain ⟨r', hr', hru', hrb⟩ := h2
  rw [hr] at hr'
  injection hr' with hrr
  subst hrr
  exact slotReach_total hra hrb

theorem hash_position_congr {nc nc' : NodeCache}
    (h : nc'.capacity = nc.capacity) (x : PackedBddNode) :
    nc'.hash_position x = nc.hash_position x := by
  unfold NodeCache.hash_position
  rw [h]

theorem slotReach_mono {nc nc' : NodeCache} (hN : NInv nc)
    (hagree : ∀ x ex, 2 ≤ x → x < nc.index_after_last →
      nc.nodes.get? x = some ex → ∃ ex', nc'.nodes.get? x = some ex' ∧
        ex'.1 = ex.1 ∧ (ex.2 ≠ NodeCacheSlot.UNDEFINED → ex'.2 = ex.2)) :
    ∀ {a b : NodeCacheSlot}, SlotReach nc a b → a < nc.index_after_last →
      SlotReach nc' a b := by
  intro a b h
  induction h with
  | refl x => exact fun _ => SlotReach.refl x
  | step x y e hget hne hr ih =>
      intro hx
      by_cases hx2 : 2 ≤ x
      · obtain ⟨-, hlt2⟩ := hN.links x e.2 e hx2 hx hget rfl hne
        obtain ⟨e', hget', h1, h2⟩ := hagree x e hx2 hx hget
        have he2 : e'.2 = e.2 := h2 hne
        refine SlotReach.step x y e' hget' ?_ ?_
        · rw [he2]
          exact hne
        · rw [he2]
          exact ih hlt2
      · interval_cases x
        · rw [hN.node0] at hget
          injection hget with hg
          subst hg
          exact absurd rfl hne
        · rw [hN.node1] at hget
          injection hget with hg
          subst hg
          exact absurd rfl hne

theorem chainReach_mono {nc nc' : NodeCache} (hN : NInv nc)
    (hagree : ∀ x ex, 2 ≤ x → x < nc.index_after_last →
      nc.nodes.get? x = some ex → ∃ ex', nc'.nodes.get? x = some ex' ∧
        ex'.1 = ex.1 ∧ (ex.2 ≠ NodeCacheSlot.UNDEFINED → ex'.2 = ex.2))
    (htab : ∀ h r, nc.table.get? h = some r →
      r ≠ NodeCacheSlot.UNDEFINED → nc'.table.get? h = some r) :
    ∀ {h : Nat} {s : NodeCacheSlot}, ChainReach nc h s → ChainReach nc' h s := by
  intro h s hc
  obtain ⟨r, hr, hru, hra⟩ := hc
  exact ⟨r, htab h r hr hru, hru,
    slotReach_mono hN hagree hra (hN.roots h r hr hru).2⟩

theorem ensure_spec {nc : NodeCache} {node : PackedBddNode}
    {res : Except NodeCacheSlot NodeId} {nc' : NodeCache} (hN : NInv nc)
    (hlh : node.get_low_link ≠ node.get_high_link)
    (hvar : node.get_variable ≠ VariableId.UNDEFINED)
    (h : nc.ensure node = some (res, nc')) :
    NInv nc' ∧ nc.index_after_last ≤ nc'.index_after_last ∧
      nc'.capacity = nc.capacity ∧
      (∀ n₂ s₂, WalkInv nc n₂ s₂ → WalkInv nc' n₂ s₂) ∧
      (∀ slot', res = Except.error slot' → WalkInv nc' node slot') := by
  simp only [NodeCache.ensure] at h
  split at h
  · cases h
  · rename_i ls heq
    by_cases hund : ls.is_undefined = true
    · -- the chain for this hash is empty: insert a fresh node
      rw [if_pos hund] at h
      by_cases hfr : nc.index_after_last < nc.nodes.length
      · rw [if_pos hfr] at h
        injection h with h
        rw [Prod.mk.injEq] at h
        obtain ⟨hres, hnc⟩ := h
        subst hres hnc
        have hundne : ls = NodeCacheSlot.UNDEFINED := by
          simpa [NodeCacheSlot.is_undefined] using hund
        have h2cur := hN.two_le
        have hlenlt := hN.len_lt
        have hfne : (nc.index_after_last : Nat) ≠ NodeCacheSlot.UNDEFINED :=
          Nat.ne_of_lt (lt_trans hfr hlenlt)
        have hhlt : nc.hash_position node < nc.table.length :=
          get?_lt_length heq
        have hnodup : ∀ a e, 2 ≤ a → a < nc.index_after_last →
            nc.nodes.get? a = some e → e.1 ≠ node := by
          intro a e h2a hlt hget hcontra
          obtain ⟨r, hr, hru, -⟩ := hN.self_reach a e h2a hlt hget
          rw [hcontra] at hr
          rw [heq] at hr
          injection hr with hr
          rw [← hr] at hru
          exact hru hundne
        have hagree : ∀ x ex, 2 ≤ x → x < nc.index_after_last →
            nc.nodes.get? x = some ex →
            ∃ ex', (nc.nodes.set nc.index_after_last
                (node, NodeCacheSlot.UNDEFINED)).get? x = some ex' ∧
              ex'.1 = ex.1 ∧
              (ex.2 ≠ NodeCacheSlot.UNDEFINED → ex'.2 = ex.2) := by
          intro x ex h2x hx hget
          refine ⟨ex, ?_, rfl, fun _ => rfl⟩
          rw [get?_set_ne _ _ _ _ (by omega)]
          exact hget
        have htab : ∀ h₂ r, nc.table.get? h₂ = some r →
            r ≠ NodeCacheSlot.UNDEFINED →
            (nc.table.set (nc.hash_position node)
                nc.index_after_last).get? h₂ = some r := by
          intro h₂ r hr hru
          by_cases hh : h₂ = nc.hash_position node
          · subst hh
            rw [heq] at hr
            injection hr with hr
            rw [← hr] at hru
            exact absurd hundne hru
          · rw [get?_set_ne _ _ _ _ (Ne.symm hh)]
            exact hr
        refine ⟨⟨?_, ?_, ?_, ?_, ?_, ?_, ?_, ?_, ?_, ?_⟩, ?_, rfl, ?_, ?_⟩
        · show 2 ≤ nc.index_after_last + 1
          omega
        · show nc.index_after_last + 1 ≤
            (nc.nodes.set nc.index_after_last
              (node, NodeCacheSlot.UNDEFINED)).length
          rw [List.length_set]
          omega
        · show (nc.nodes.set nc.index_after_last
              (node, NodeCacheSlot.UNDEFINED)).length <
            NodeCacheSlot.UNDEFINED
          rw [List.length_set]
          exact hlenlt
        · show (nc.nodes.set nc.index_after_last
              (node, NodeCacheSlot.UNDEFINED)).get? 0 = _
          rw [get?_set_ne _ _ _ _ (by omega)]
          exact hN.node0
        · show (nc.nodes.set nc.index_after_last
              (node, NodeCacheSlot.UNDEFINED)).get? 1 = _
          rw [get?_set_ne _ _ _ _ (by omega)]
          exact hN.node1
        · intro h₂ r hr hru
          by_cases hh : h₂ = nc.hash_position node
          · subst hh
            rw [get?_set_self _ _ _ hhlt] at hr
            injection hr with hr
            subst hr
            refine ⟨h2cur, ?_⟩
            show nc.index_after_last < nc.index_after_last + 1
            omega
          · rw [get?_set_ne _ _ _ _ (Ne.symm hh)] at hr
            have := hN.roots h₂ r hr hru
            refine ⟨this.1, ?_⟩
            show r < nc.index_after_last + 1
            omega
        · intro a b e h2a ha hget heb hne
          by_cases haf : a = nc.index_after_last
          · subst haf
            rw [get?_set_self _ _ _ hfr] at hget
            injection hget with hget
            subst hget
            exact absurd heb.symm hne
          · have ha' : a < nc.index_after_last := by
              change a < nc.index_after_last + 1 at ha
              omega
            rw [get?_set_ne _ _ _ _ (Ne.symm haf)] at hget
            have := hN.links a b e h2a ha' hget heb hne
            refine ⟨this.1, ?_⟩
            show b < nc.index_after_last + 1
            omega
        · intro a e h2a ha hget
          by_cases haf : a = nc.index_after_last
          · subst haf
            rw [get?_set_self _ _ _ hfr] at hget
            injection hget with hget
            subst hget
            rw [hash_position_congr rfl]
            exact ⟨nc.index_after_last, get?_set_self _ _ _ hhlt, hfne,
              SlotReach.refl _⟩
          · have ha' : a < nc.index_after_last := by
              change a < nc.index_after_last + 1 at ha
              omega
            rw [get?_set_ne _ _ _ _ (Ne.symm haf)] at hget
            rw [hash_position_congr rfl]
            exact chainReach_mono hN hagree htab (hN.self_reach a e h2a ha' hget)
        · intro i j ei ej h2i hij hj hgi hgj
          by_cases hjf : j = nc.index_after_last
          · subst hjf
            rw [get?_set_self _ _ _ hfr] at hgj
            injection hgj with hgj
            subst hgj
            rw [get?_set_ne _ _ _ _ (by omega)] at hgi
            exact hnodup i ei h2i (by omega) hgi
          · have hj' : j < nc.index_after_last := by
              change j < nc.index_after_last + 1 at hj
              omega
            rw [get?_set_ne _ _ _ _ (Ne.symm hjf)] at hgj
            rw [get?_set_ne _ _ _ _ (by omega)] at hgi
            exact hN.distinct i j ei ej h2i hij hj' hgi hgj
        · intro a e h2a ha hget
          by_cases haf : a = nc.index_after_last
          · subst haf
            rw [get?_set_self _ _ _ hfr] at hget
            injection hget with hget
            subst hget
            exact ⟨hlh, hvar⟩
          · have ha' : a < nc.index_after_last := by
              change a < nc.index_after_last + 1 at ha
              omega
            rw [get?_set_ne _ _ _ _ (Ne.symm haf)] at hget
            exact hN.good a e h2a ha' hget
        · exact Nat.le_succ _
        · intro n₂ s₂ hW₂
          refine ⟨hW₂.two_le, by
            have := hW₂.lt
            change s₂ < nc.index_after_last + 1
            omega, ?_, ?_⟩
          · rw [hash_position_congr rfl]
            exact chainReach_mono hN hagree htab hW₂.in_chain
          · intro a e h2a ha hget he1
            by_cases haf : a = nc.index_after_last
            · subst haf
              rw [get?_set_self _ _ _ hfr] at hget
              injection hget with hget
              subst hget
              obtain ⟨r, hr, hru, -⟩ := hW₂.in_chain
              rw [← he1] at hr
              rw [heq] at hr
              injection hr with hr
              rw [← hr] at hru
              exact absurd hundne hru
            · have ha' : a < nc.index_after_last := by
                change a < nc.index_after_last + 1 at ha
                omega
              rw [get?_set_ne _ _ _ _ (Ne.symm haf)] at hget
              exact slotReach_mono hN hagree (hW₂.ahead a e h2a ha' hget he1)
                hW₂.lt
        · intro slot' hres'
          exact Except.noConfusion hres'
      · rw [if_neg hfr] at h
        cases h
    · -- the chain is non-empty: hand the root back to the caller
      rw [if_neg hund] at h
      injection h with h
      rw [Prod.mk.injEq] at h
      obtain ⟨hres, hnc⟩ := h
      subst hres hnc
      have hundne : ls ≠ NodeCacheSlot.UNDEFINED := by
        simpa [NodeCacheSlot.is_undefined] using hund
      refine ⟨hN, le_rfl, rfl, fun n₂ s₂ hW => hW, ?_⟩
      intro slot' hres'
      injection hres' with hres'
      subst hres'
      obtain ⟨h2ls, hlsc⟩ := hN.roots _ ls heq hundne
      refine ⟨h2ls, hlsc, ⟨ls, heq, hundne, SlotReach.refl _⟩, ?_⟩
      intro a e h2a ha hget he1
      obtain ⟨r, hr, hru, hra⟩ := hN.self_reach a e h2a ha hget
      rw [he1] at hr
      rw [heq] at hr
      injection hr with hr
      rw [← hr] at hra
      exact hra

theorem ensure_at_spec {nc : NodeCache} {node : PackedBddNode}
    {slot : Nat} {res : Except NodeCacheSlot NodeId} {nc' : NodeCache}
    (hN : NInv nc) (hW : WalkInv nc node slot)
    (hlh : node.get_low_link ≠ node.get_high_link)
    (hvar : node.get_variable ≠ VariableId.UNDEFINED)
    (h : nc.ensure_at node slot = some (res, nc')) :
    NInv nc' ∧ nc.index_after_last ≤ nc'.index_after_last ∧
      nc'.capacity = nc.capacity ∧
      (∀ n₂ s₂, WalkInv nc n₂ s₂ → WalkInv nc' n₂ s₂) ∧
      (∀ slot', res = Except.error slot' → WalkInv nc' node slot') := by
  simp only [NodeCache.ensure_at] at h
  split at h
  · cases h
  · rename_i e heqs
    by_cases hfound : e.1 = node
    · rw [if_pos hfound] at h
      injection h with h
      rw [Prod.mk.injEq] at h
      obtain ⟨hres, hnc⟩ := h
      subst hres hnc
      exact ⟨hN, le_rfl, rfl, fun _ _ hW => hW,
        fun slot' hres' => Except.noConfusion hres'⟩
    · rw [if_neg hfound] at h
      by_cases hnext : e.2.is_undefined = true
      · -- the chain ends here: append a fresh node
        rw [if_neg (not_not_intro hnext)] at h
        by_cases hfr : nc.index_after_last < nc.nodes.length
        · rw [if_pos hfr] at h
          injection h with h
          rw [Prod.mk.injEq] at h
          obtain ⟨hres, hnc⟩ := h
          subst hres hnc
          have hend : e.2 = NodeCacheSlot.UNDEFINED := by
            simpa [NodeCacheSlot.is_undefined] using hnext
          have h2cur := hN.two_le
          have h2slot := hW.two_le
          have hslot_lt := hW.lt
          have hlenlt := hN.len_lt
          have hslt : slot < nc.nodes.length := lt_of_lt_of_le hW.lt hN.le_len
          have hsne : slot ≠ nc.index_after_last := Nat.ne_of_lt hW.lt
          have hfne : (nc.index_after_last : Nat) ≠ NodeCacheSlot.UNDEFINED :=
            Nat.ne_of_lt (lt_trans hfr hlenlt)
          have hget_fresh : ((nc.nodes.set slot
              (e.1, nc.index_after_last)).set nc.index_after_last
                (node, NodeCacheSlot.UNDEFINED)).get? nc.index_after_last =
              some (node, NodeCacheSlot.UNDEFINED) := by
            rw [get?_set_self]
            rw [List.length_set]
            exact hfr
          have hget_slot : ((nc.nodes.set slot
              (e.1, nc.index_after_last)).set nc.index_after_last
                (node, NodeCacheSlot.UNDEFINED)).get? slot =
              some (e.1, nc.index_after_last) := by
            rw [get?_set_ne _ _ _ _ (Ne.symm hsne), get?_set_self _ _ _ hslt]
          have hget_other : ∀ x, x ≠ slot → x ≠ nc.index_after_last →
              ((nc.nodes.set slot
                (e.1, nc.index_after_last)).set nc.index_after_last
                  (node, NodeCacheSlot.UNDEFINED)).get? x =
                nc.nodes.get? x := by
            intro x hx1 hx2
            rw [get?_set_ne _ _ _ _ (Ne.symm hx2),
              get?_set_ne _ _ _ _ (Ne.symm hx1)]
          have hnodup : ∀ a ea, 2 ≤ a → a < nc.index_after_last →
              nc.nodes.get? a = some ea → ea.1 ≠ node := by
            intro a ea h2a ha hget hcontra
            have hsr := hW.ahead a ea h2a ha hget hcontra
            rcases slotReach_cases hsr with rfl | ⟨e', hget', hne', hr'⟩
            · rw [heqs] at hget
              injection hget with hget
              rw [← hget] at hcontra
              exact hfound hcontra
            · rw [heqs] at hget'
              injection hget' with hget'
              subst hget'
              exact hne' hend
          have hagree : ∀ x ex, 2 ≤ x → x < nc.index_after_last →
              nc.nodes.get? x = some ex →
              ∃ ex', ((nc.nodes.set slot
                  (e.1, nc.index_after_last)).set nc.index_after_last
                    (node, NodeCacheSlot.UNDEFINED)).get? x = some ex' ∧
                ex'.1 = ex.1 ∧
                (ex.2 ≠ NodeCacheSlot.UNDEFINED → ex'.2 = ex.2) := by
            intro x ex h2x hx hget
            by_cases hxs : x = slot
            · subst hxs
              rw [heqs] at hget
              injection hget with hget
              subst hget
              exact ⟨(e.1, nc.index_after_last), hget_slot, rfl,
                fun hcon => absurd hend hcon⟩
            · refine ⟨ex, ?_, rfl, fun _ => rfl⟩
              rw [hget_other x hxs (by omega)]
              exact hget
          have hfst : ∀ x ex', 2 ≤ x → x < nc.index_after_last →
              ((nc.nodes.set slot
                  (e.1, nc.index_after_last)).set nc.index_after_last
                    (node, NodeCacheSlot.UNDEFINED)).get? x = some ex' →
              ∃ ex, nc.nodes.get? x = some ex ∧ ex.1 = ex'.1 := by
            intro x ex' h2x hx hget
            by_cases hxs : x = slot
            · subst hxs
              rw [hget_slot] at hget
              injection hget with hget
              subst hget
              exact ⟨e, heqs, rfl⟩
            · rw [hget_other x hxs (by omega)] at hget
              exact ⟨ex', hget, rfl⟩
          have htab : ∀ h₂ r, nc.table.get? h₂ = some r →
              r ≠ NodeCacheSlot.UNDEFINED → nc.table.get? h₂ = some r :=
            fun _ _ hr _ => hr
          have hsm : ∀ {aa bb : NodeCacheSlot}, SlotReach nc aa bb →
              aa < nc.index_after_last →
              SlotReach { nc with
                index_after_last := nc.index_after_last + 1,
                nodes := (nc.nodes.set slot
                  (e.1, nc.index_after_last)).set nc.index_after_last
                    (node, NodeCacheSlot.UNDEFINED) } aa bb :=
            fun h ha => @slotReach_mono nc
              { nc with
                index_after_last := nc.index_after_last + 1,
                nodes := (nc.nodes.set slot
                  (e.1, nc.index_after_last)).set nc.index_after_last
                    (node, NodeCacheSlot.UNDEFINED) } hN hagree _ _ h ha
          have hcm : ∀ {h₂ : Nat} {s₂ : NodeCacheSlot}, ChainReach nc h₂ s₂ →
              ChainReach { nc with
                index_after_last := nc.index_after_last + 1,
                nodes := (nc.nodes.set slot
                  (e.1, nc.index_after_last)).set nc.index_after_last
                    (node, NodeCacheSlot.UNDEFINED) } h₂ s₂ :=
            fun hc => @chainReach_mono nc
              { nc with
                index_after_last := nc.index_after_last + 1,
                nodes := (nc.nodes.set slot
                  (e.1, nc.index_after_last)).set nc.index_after_last
                    (node, NodeCacheSlot.UNDEFINED) } hN hagree htab _ _ hc
          refine ⟨⟨?_, ?_, ?_, ?_, ?_, ?_, ?_, ?_, ?_, ?_⟩, ?_, rfl, ?_, ?_⟩
          · show 2 ≤ nc.index_after_last + 1
            omega
          · show nc.index_after_last + 1 ≤ _
            rw [List.length_set, List.length_set]
            omega
          · show (_ : List _).length < NodeCacheSlot.UNDEFINED
            rw [List.length_set, List.length_set]
            exact hlenlt
          · rw [hget_other 0 (by omega) (by omega)]
            exact hN.node0
          · rw [hget_other 1 (by omega) (by omega)]
            exact hN.node1
          · intro h₂ r hr hru
            have := hN.roots h₂ r hr hru
            refine ⟨this.1, ?_⟩
            show r < nc.index_after_last + 1
            omega
          · intro a b ea h2a ha hget heb hne
            by_cases haf : a = nc.index_after_last
            · subst haf
              rw [hget_fresh] at hget
              injection hget with hget
              subst hget
              exact absurd heb.symm hne
            · have ha' : a < nc.index_after_last := by
                change a < nc.index_after_last + 1 at ha
                omega
              by_cases has : a = slot
              · subst has
                rw [hget_slot] at hget
                injection hget with hget
                subst hget
                have hb : b = nc.index_after_last := heb.symm
                subst hb
                constructor
                · show a < nc.index_after_last
                  exact hW.lt
                · show nc.index_after_last < nc.index_after_last + 1
                  omega
              · rw [hget_other a has haf] at hget
                have := hN.links a b ea h2a ha' hget heb hne
                refine ⟨this.1, ?_⟩
                show b < nc.index_after_last + 1
                omega
          · intro a ea h2a ha hget
            by_cases haf : a = nc.index_after_last
            · subst haf
              rw [hget_fresh] at hget
              injection hget with hget
              subst hget
              rw [hash_position_congr rfl]
              have hreach := hcm hW.in_chain
              have := chainReach_snoc hreach hget_slot
                (by exact hfne)
              exact this
            · have ha' : a < nc.index_after_last := by
                change a < nc.index_after_last + 1 at ha
                omega
              rw [hash_position_congr rfl]
              by_cases has : a = slot
              · subst has
                rw [hget_slot] at hget
                injection hget with hget
                subst hget
                exact hcm (hN.self_reach a e h2a ha' heqs)
              · rw [hget_other a has haf] at hget
                exact hcm (hN.self_reach a ea h2a ha' hget)
          · intro i j ei ej h2i hij hj hgi hgj
            by_cases hjf : j = nc.index_after_last
            · subst hjf
              rw [hget_fresh] at hgj
              injection hgj with hgj
              subst hgj
              obtain ⟨ei', hgi', h1⟩ := hfst i ei h2i (by omega) hgi
              rw [← h1]
              exact hnodup i ei' h2i (by omega) hgi'
            · have hj' : j < nc.index_after_last := by
                change j < nc.index_after_last + 1 at hj
                omega
              obtain ⟨ei', hgi', h1⟩ := hfst i ei h2i (by omega) hgi
              obtain ⟨ej', hgj', h2⟩ := hfst j ej (by omega) hj' hgj
              rw [← h1, ← h2]
              exact hN.distinct i j ei' ej' h2i hij hj' hgi' hgj'
          · intro a ea h2a ha hget
            by_cases haf : a = nc.index_after_last
            · subst haf
              rw [hget_fresh] at hget
              injection hget with hget
              subst hget
              exact ⟨hlh, hvar⟩
            · have ha' : a < nc.index_after_last := by
                change a < nc.index_after_last + 1 at ha
                omega
              obtain ⟨ea', hget', h1⟩ := hfst a ea h2a ha' hget
              rw [← h1]
              exact hN.good a ea' h2a ha' hget'
          · exact Nat.le_succ _
          · intro n₂ s₂ hW₂
            refine ⟨hW₂.two_le, ?_, ?_, ?_⟩
            · have := hW₂.lt
              show s₂ < nc.index_after_last + 1
              omega
            · rw [hash_position_congr rfl]
              exact hcm hW₂.in_chain
            · intro a ea h2a ha hget hea
              by_cases haf : a = nc.index_after_last
              · subst haf
                rw [hget_fresh] at hget
                injection hget with hget
                subst hget
                have hnn : node = n₂ := hea
                subst hnn
                have htot := chainReach_total hW₂.in_chain hW.in_chain
                have hlift : SlotReach
                    { nc with
                      index_after_last := nc.index_after_last + 1,
                      nodes := (nc.nodes.set slot
                        (e.1, nc.index_after_last)).set nc.index_after_last
                          (node, NodeCacheSlot.UNDEFINED) } s₂ slot := by
                  rcases htot with htot | htot
                  · exact hsm htot hW₂.lt
                  · rcases slotReach_cases htot with rfl | ⟨e', hg', hn', -⟩
                    · exact SlotReach.refl _
                    · rw [heqs] at hg'
                      injection hg' with hg'
                      subst hg'
                      exact absurd hend hn'
                have := slotReach_snoc hlift hget_slot (by exact hfne)
                exact this
              · have ha' : a < nc.index_after_last := by
                  change a < nc.index_after_last + 1 at ha
                  omega
                obtain ⟨ea', hget', h1⟩ := hfst a ea h2a ha' hget
                rw [hea] at h1
                have := hW₂.ahead a ea' h2a ha' hget' h1
                exact hsm this hW₂.lt
          · intro slot' hres'
            exact Except.noConfusion hres'
        · rw [if_neg hfr] at h
          cases h
      · -- the node is not here but the chain continues
        rw [if_pos hnext] at h
        injection h with h
        rw [Prod.mk.injEq] at h
        obtain ⟨hres, hnc⟩ := h
        subst hres hnc
        have hne2 : e.2 ≠ NodeCacheSlot.UNDEFINED := by
          simpa [NodeCacheSlot.is_undefined] using hnext
        refine ⟨hN, le_rfl, rfl, fun _ _ hW => hW, ?_⟩
        intro slot' hres'
        injection hres' with hres'
        subst hres'
        obtain ⟨hlt1, hlt2⟩ := hN.links slot e.2 e hW.two_le hW.lt heqs rfl
          hne2
        have h2s := hW.two_le
        refine ⟨by omega, hlt2, chainReach_snoc hW.in_chain heqs hne2, ?_⟩
        intro a ea h2a ha hget hea
        have hsr := hW.ahead a ea h2a ha hget hea
        rcases slotReach_cases hsr with rfl | ⟨e', hget', hne', hr'⟩
        · rw [heqs] at hget
          injection hget with hget
          rw [← hget] at hea
          exact absurd hea hfound
        · rw [heqs] at hget'
          injection hget' with hget'
          subst hget'
          exact hr'

theorem mark_retired_is_retired (t : PendingTask) :
    t.mark_as_retired.is_retired = true := by
  simp [PendingTask.mark_as_retired, PendingTask.is_retired]

theorem rinv_mono {nc nc' : NodeCache} {t : PendingTask}
    (hP : ∀ n s, WalkInv nc n s → WalkInv nc' n s) (h : RInv nc t) :
    RInv nc' t := by
  obtain ⟨hk, hr⟩ := h
  refine ⟨hk, ?_⟩
  rcases hr with hr | ⟨h1, h2, h3⟩
  · exact Or.inl hr
  · exact Or.inr ⟨h1, h2, hP _ _ h3⟩

theorem set_decoded_is_decoded (t : StackedTask) :
    t.set_decoded.is_decoded = true := by
  simp only [StackedTask.set_decoded, StackedTask.is_decoded, NOT_DECODED]
  rw [Nat.and_assoc]
  norm_num
  rw [show (1 <<< 31 - 1 &&& 1 <<< 31 : Nat) = 0 from by decide,
    Nat.and_zero]

theorem min_ne_undef {a b : Nat} (h : a < W32 - 1 ∨ b < W32 - 1) :
    ¬(min a b = VariableId.UNDEFINED) := by
  unfold VariableId.UNDEFINED
  omega

end OOO

theorem wfbCore_var {b : Bdd} (h : b.wfbCore = true) :
    ∀ (i v : Nat) (node : PackedBddNode), 2 ≤ i →
      b.nodes.get? i = some node → node.get_variable = v →
      v ≠ VariableId.UNDEFINED ∧ v < W32 := by
  intro i v node h2 hg hv
  unfold Bdd.wfbCore at h
  simp only [Bool.and_eq_true, decide_eq_true_eq, beq_iff_eq,
    Bool.or_eq_true, List.all_eq_true, List.mem_range] at h
  obtain ⟨-, hall⟩ := h
  have hi : i < b.nodes.length := get?_lt_length hg
  have hD : b.nodes.getD i PackedBddNode.ZERO = node := by
    rw [List.getD_eq_getElem b.nodes PackedBddNode.ZERO hi]
    have := List.getElem?_eq_getElem hi
    rw [← List.get?_eq_getElem?] at this
    rw [hg] at this
    exact (Option.some_injective _ this.symm)
  have := hall i hi
  rw [if_neg (by omega)] at this
  simp only [Bool.and_eq_true, decide_eq_true_eq, bne_iff_ne,
    Bool.not_eq_true', hD] at this
  obtain ⟨⟨⟨⟨⟨⟨hu, hvw⟩, -⟩, -⟩, -⟩, -⟩, -⟩ := this
  subst hv
  constructor
  · intro hcon
    rw [VariableId.is_undefined, hcon] at hu
    simp at hu
  · exact hvw

namespace OOO

theorem frameInv_results (f : StackedTask) (r : Nat × Nat)
    (h : FrameInv f) : FrameInv { f with results := r } := h

theorem pop_stack_inv {s : TaskStack} {r : Nat} {s' : TaskStack}
    (hs : ∀ i f, i < s.index_after_last → s.items.get? i = some f →
      FrameInv f)
    (h : s.pop_with_result r = some s') :
    (∀ i f, i < s'.index_after_last → s'.items.get? i = some f →
      FrameInv f) ∧
      s'.index_after_last = s.index_after_last - 1 ∧
      s'.items.length = s.items.length := by
  simp only [TaskStack.pop_with_result] at h
  split at h
  · cases h
  · rename_i hne
    split at h
    · cases h
    · rename_i top htop
      split at h
      · cases h
      · rename_i hoff
        split at h
        · cases h
        · rename_i output hout
          injection h with h
          subst h
          refine ⟨?_, rfl, by simp⟩
          intro i f hi hget
          by_cases hio : i = s.index_after_last - 1 -
              (top.offset &&& (NOT_DECODED - 1))
          · subst hio
            rw [get?_set_self _ _ _ (get?_lt_length hout)] at hget
            injection hget with hget
            subst hget
            have hfo := hs _ _ (by omega) hout
            split
            · exact frameInv_results _ _ hfo
            · exact frameInv_results _ _ hfo
          · rw [get?_set_ne _ _ _ _ (Ne.symm hio)] at hget
            exact hs i f (by
              change i < s.index_after_last - 1 at hi
              omega) hget

theorem write_tinv {tc : TaskCache} {key : NodeId × NodeId} {v : NodeId}
    {slot : Nat} {tc' : TaskCache}
    (hk : key ≠ (NodeId.ZERO, NodeId.ZERO))
    (hT : ∀ e ∈ tc.table, e.1 = (NodeId.ZERO, NodeId.ZERO) →
      e.2 = NodeId.ZERO)
    (h : tc.write_unchecked key v slot = some tc') :
    ∀ e ∈ tc'.table, e.1 = (NodeId.ZERO, NodeId.ZERO) →
      e.2 = NodeId.ZERO := by
  simp only [TaskCache.write_unchecked] at h
  split at h
  · cases h
  · injection h with h
    subst h
    intro e he h0
    rcases List.mem_or_eq_of_mem_set he with he | rfl
    · exact hT e he h0
    · exact absurd h0 hk

theorem retireStage_inv {s s' : ApplyState} (hI : Inv s)
    (h : retireStage s = some s') : Inv s' := by
  obtain ⟨q, rob, tc, ncache, stk, stl⟩ := s
  obtain ⟨qlist, rh, eh, et⟩ := q
  have hql : qlist.length = 32 := hI.qlen
  have hrl : rh < 32 := hI.rh_lt
  have hel : eh < 32 := hI.eh_lt
  have htl : et < 32 := hI.et_lt
  have hord : (eh + 32 - rh) % 32 ≤ (et + 32 - rh) % 32 := hI.order
  simp only [retireStage] at h
  split at h
  · rename_i hcr
    have hrne : rh ≠ eh := by
      simpa [ExecutionRetireQueue.can_retire, bne_iff_ne] using hcr
    split at h
    · cases h
    · rename_i task htask
      have htask' : qlist.get? rh = some task := htask
      have hRI : RInv ncache task := by
        refine hI.retire_inv rh task hI.rh_lt ?_ htask'
        show (rh + 32 - rh) % 32 < (eh + 32 - rh) % 32
        omega
      split at h
      · -- already retired during execute: skip
        injection h with h
        subst h
        refine ⟨hI.ninv, hI.tinv, hI.qlen, ?_, hI.eh_lt, hI.et_lt, ?_, ?_,
          ?_, hI.stack_inv⟩
        · show (rh + 1) % 32 < 32
          omega
        · show (eh + 32 - (rh + 1) % 32) % 32 ≤ (et + 32 - (rh + 1) % 32) % 32
          omega
        · intro p t hp hd hget
          have hp' : p < 32 := hp
          have hd' : (p + 32 - (rh + 1) % 32) % 32 <
            (eh + 32 - (rh + 1) % 32) % 32 := hd
          refine hI.retire_inv p t hp ?_ hget
          show (p + 32 - rh) % 32 < (eh + 32 - rh) % 32
          omega
        · intro p t hp hd1 hd2 hget
          have hp' : p < 32 := hp
          have hd1' : (eh + 32 - (rh + 1) % 32) % 32 ≤
            (p + 32 - (rh + 1) % 32) % 32 := hd1
          have hd2' : (p + 32 - (rh + 1) % 32) % 32 <
            (et + 32 - (rh + 1) % 32) % 32 := hd2
          refine hI.exec_inv p t hp ?_ ?_ hget
          · show (eh + 32 - rh) % 32 ≤ (p + 32 - rh) % 32
            omega
          · show (p + 32 - rh) % 32 < (et + 32 - rh) % 32
            omega
      · rename_i hret
        have hRd : task.task ≠ (NodeId.ZERO, NodeId.ZERO) ∧
            task.var ≠ VariableId.UNDEFINED ∧
            task.result.1 ≠ task.result.2 ∧
            WalkInv ncache task.result_node task.node_cache_slot := by
          obtain ⟨hk, hor⟩ := hRI
          rcases hor with hor | ⟨h1, h2, h3⟩
          · exact absurd hor hret
          · exact ⟨hk, h1, h2, h3⟩
        obtain ⟨hkey, hvar', hresne, hW⟩ := hRd
        split at h
        · cases h
        · -- node inserted or found: write the caches and retire
          rename_i id nc2 hens
          obtain ⟨hN', hle, hcap, hPres, -⟩ :=
            ensure_at_spec hI.ninv hW hresne hvar' hens
          simp only [bind, Option.bind_eq_some] at h
          obtain ⟨rob2, hrob2, tch, htch, heq⟩ := h
          injection heq with heq
          subst heq
          refine ⟨hN', write_tinv hkey hI.tinv htch, hI.qlen, ?_, hI.eh_lt,
            hI.et_lt, ?_, ?_, ?_, hI.stack_inv⟩
          · show (rh + 1) % 32 < 32
            omega
          · show (eh + 32 - (rh + 1) % 32) % 32 ≤
              (et + 32 - (rh + 1) % 32) % 32
            omega
          · intro p t hp hd hget
            have hp' : p < 32 := hp
            have hd' : (p + 32 - (rh + 1) % 32) % 32 <
              (eh + 32 - (rh + 1) % 32) % 32 := hd
            refine rinv_mono hPres (hI.retire_inv p t hp ?_ hget)
            show (p + 32 - rh) % 32 < (eh + 32 - rh) % 32
            omega
          · intro p t hp hd1 hd2 hget
            have hp' : p < 32 := hp
            have hd1' : (eh + 32 - (rh + 1) % 32) % 32 ≤
              (p + 32 - (rh + 1) % 32) % 32 := hd1
            have hd2' : (p + 32 - (rh + 1) % 32) % 32 <
              (et + 32 - (rh + 1) % 32) % 32 := hd2
            refine hI.exec_inv p t hp ?_ ?_ hget
            · show (eh + 32 - rh) % 32 ≤ (p + 32 - rh) % 32
              omega
            · show (p + 32 - rh) % 32 < (et + 32 - rh) % 32
              omega
        · -- the chain continues: record the new slot and try again later
          rename_i slot nc2 hens
          obtain ⟨hN', hle, hcap, hPres, hWerr⟩ :=
            ensure_at_spec hI.ninv hW hresne hvar' hens
          simp only [bind, Option.bind_eq_some] at h
          obtain ⟨q2, hq2, heq⟩ := h
          injection heq with heq
          subst heq
          simp only [ExecutionRetireQueue.set_retire_task] at hq2
          split at hq2
          · cases hq2
          · injection hq2 with hq2
            subst hq2
            refine ⟨hN', hI.tinv, by simpa using hI.qlen, hI.rh_lt,
              hI.eh_lt, hI.et_lt, hI.order, ?_, ?_, hI.stack_inv⟩
            · intro p t hp hd hget
              by_cases hpr : p = rh
              · subst hpr
                rw [get?_set_self _ _ _ (by omega)] at hget
                injection hget with hget
                subst hget
                exact ⟨hkey, Or.inr ⟨hvar', hresne, hWerr slot rfl⟩⟩
              · rw [get?_set_ne _ _ _ _ (Ne.symm hpr)] at hget
                exact rinv_mono hPres (hI.retire_inv p t hp hd hget)
            · intro p t hp hd1 hd2 hget
              have hp' : p < 32 := hp
              have hd1' : (eh + 32 - rh) % 32 ≤ (p + 32 - rh) % 32 := hd1
              have hpr : p ≠ rh := by
                intro hc
                subst hc
                omega
              rw [get?_set_ne _ _ _ _ (Ne.symm hpr)] at hget
              exact hI.exec_inv p t hp hd1 hd2 hget
  · injection h with h
    subst h
    exact hI

set_option maxHeartbeats 1600000 in
theorem executeStage_inv {s s' : ApplyState} (hI : Inv s)
    (h : executeStage s = some s') : Inv s' := by
  obtain ⟨q, rob, tc, ncache, stk, stl⟩ := s
  obtain ⟨qlist, rh, eh, et⟩ := q
  have hql : qlist.length = 32 := hI.qlen
  have hrl : rh < 32 := hI.rh_lt
  have hel : eh < 32 := hI.eh_lt
  have htl : et < 32 := hI.et_lt
  have hord : (eh + 32 - rh) % 32 ≤ (et + 32 - rh) % 32 := hI.order
  simp only [executeStage, ExecutionRetireQueue.move_to_retire] at h
  split at h
  · rename_i hce
    have hene : eh ≠ et := by
      simpa [ExecutionRetireQueue.can_execute, bne_iff_ne] using hce
    split at h
    · cases h
    · rename_i task htask
      have htask' : qlist.get? eh = some task := htask
      have hE : EInv task := by
        refine hI.exec_inv eh task hI.eh_lt ?_ ?_ htask'
        · show (eh + 32 - rh) % 32 ≤ (eh + 32 - rh) % 32
          omega
        · show (eh + 32 - rh) % 32 < (et + 32 - rh) % 32
          omega
      obtain ⟨hkey, hvar'⟩ := hE
      split at h
      · -- both results available
        by_cases heqr : task.get_low_result = task.get_high_result
        · rw [if_pos heqr] at h
          simp only [bind, Option.bind_eq_some] at h
          obtain ⟨rob2, hrob2, tch, htch, q2, hq2, heq⟩ := h
          injection heq with heq
          subst heq
          simp only [ExecutionRetireQueue.set_execute_task] at hq2
          split at hq2
          · cases hq2
          · injection hq2 with hq2
            subst hq2
            refine ⟨hI.ninv, write_tinv hkey hI.tinv htch,
              by simpa using hI.qlen, hI.rh_lt, ?_, hI.et_lt, ?_, ?_, ?_,
              hI.stack_inv⟩
            · show (eh + 1) % 32 < 32
              omega
            · show ((eh + 1) % 32 + 32 - rh) % 32 ≤ (et + 32 - rh) % 32
              omega
            · intro p t hp hd hget
              have hp' : p < 32 := hp
              have hd' : (p + 32 - rh) % 32 <
                ((eh + 1) % 32 + 32 - rh) % 32 := hd
              by_cases hpe : p = eh
              · subst hpe
                rw [get?_set_self _ _ _ (by omega)] at hget
                injection hget with hget
                subst hget
                exact ⟨hkey, Or.inl (mark_retired_is_retired task)⟩
              · rw [get?_set_ne _ _ _ _ (Ne.symm hpe)] at hget
                refine hI.retire_inv p t hp ?_ hget
                show (p + 32 - rh) % 32 < (eh + 32 - rh) % 32
                omega
            · intro p t hp hd1 hd2 hget
              have hp' : p < 32 := hp
              have hd1' : ((eh + 1) % 32 + 32 - rh) % 32 ≤
                (p + 32 - rh) % 32 := hd1
              have hd2' : (p + 32 - rh) % 32 < (et + 32 - rh) % 32 := hd2
              have hpe : p ≠ eh := by
                intro hc
                subst hc
                omega
              rw [get?_set_ne _ _ _ _ (Ne.symm hpe)] at hget
              refine hI.exec_inv p t hp ?_ hd2 hget
              show (eh + 32 - rh) % 32 ≤ (p + 32 - rh) % 32
              omega
        · rw [if_neg heqr] at h
          split at h
          · cases h
          · -- the node was ensured: retire the task
            rename_i id nc2 hens
            obtain ⟨hN', hle, hcap, hPres, -⟩ :=
              @ensure_spec ncache task.result_node _ _ hI.ninv heqr hvar'
                hens
            simp only [bind, Option.bind_eq_some] at h
            obtain ⟨rob2, hrob2, tch, htch, q2, hq2, heq⟩ := h
            injection heq with heq
            subst heq
            simp only [ExecutionRetireQueue.set_execute_task] at hq2
            split at hq2
            · cases hq2
            · injection hq2 with hq2
              subst hq2
              refine ⟨hN', write_tinv hkey hI.tinv htch,
                by simpa using hI.qlen, hI.rh_lt, ?_, hI.et_lt, ?_, ?_, ?_,
                hI.stack_inv⟩
              · show (eh + 1) % 32 < 32
                omega
              · show ((eh + 1) % 32 + 32 - rh) % 32 ≤ (et + 32 - rh) % 32
                omega
              · intro p t hp hd hget
                have hp' : p < 32 := hp
                have hd' : (p + 32 - rh) % 32 <
                  ((eh + 1) % 32 + 32 - rh) % 32 := hd
                by_cases hpe : p = eh
                · subst hpe
                  rw [get?_set_self _ _ _ (by omega)] at hget
                  injection hget with hget
                  subst hget
                  exact ⟨hkey, Or.inl (mark_retired_is_retired task)⟩
                · rw [get?_set_ne _ _ _ _ (Ne.symm hpe)] at hget
                  refine rinv_mono hPres (hI.retire_inv p t hp ?_ hget)
                  show (p + 32 - rh) % 32 < (eh + 32 - rh) % 32
                  omega
              · intro p t hp hd1 hd2 hget
                have hp' : p < 32 := hp
                have hd1' : ((eh + 1) % 32 + 32 - rh) % 32 ≤
                  (p + 32 - rh) % 32 := hd1
                have hd2' : (p + 32 - rh) % 32 < (et + 32 - rh) % 32 := hd2
                have hpe : p ≠ eh := by
                  intro hc
                  subst hc
                  omega
                rw [get?_set_ne _ _ _ _ (Ne.symm hpe)] at hget
                refine hI.exec_inv p t hp ?_ hd2 hget
                show (eh + 32 - rh) % 32 ≤ (p + 32 - rh) % 32
                omega
          · -- no luck: remember the slot and move to the retire region
            rename_i slot nc2 hens
            obtain ⟨hN', hle, hcap, hPres, hWerr⟩ :=
              @ensure_spec ncache task.result_node _ _ hI.ninv heqr hvar'
                hens
            simp only [bind, Option.bind_eq_some] at h
            obtain ⟨q2, hq2, heq⟩ := h
            injection heq with heq
            subst heq
            simp only [ExecutionRetireQueue.set_execute_task] at hq2
            split at hq2
            · cases hq2
            · injection hq2 with hq2
              subst hq2
              refine ⟨hN', hI.tinv, by simpa using hI.qlen, hI.rh_lt, ?_,
                hI.et_lt, ?_, ?_, ?_, hI.stack_inv⟩
              · show (eh + 1) % 32 < 32
                omega
              · show ((eh + 1) % 32 + 32 - rh) % 32 ≤ (et + 32 - rh) % 32
                omega
              · intro p t hp hd hget
                have hp' : p < 32 := hp
                have hd' : (p + 32 - rh) % 32 <
                  ((eh + 1) % 32 + 32 - rh) % 32 := hd
                by_cases hpe : p = eh
                · subst hpe
                  rw [get?_set_self _ _ _ (by omega)] at hget
                  injection hget with hget
                  subst hget
                  exact ⟨hkey, Or.inr ⟨hvar', heqr, hWerr slot rfl⟩⟩
                · rw [get?_set_ne _ _ _ _ (Ne.symm hpe)] at hget
                  refine rinv_mono hPres (hI.retire_inv p t hp ?_ hget)
                  show (p + 32 - rh) % 32 < (eh + 32 - rh) % 32
                  omega
              · intro p t hp hd1 hd2 hget
                have hp' : p < 32 := hp
                have hd1' : ((eh + 1) % 32 + 32 - rh) % 32 ≤
                  (p + 32 - rh) % 32 := hd1
                have hd2' : (p + 32 - rh) % 32 < (et + 32 - rh) % 32 := hd2
                have hpe : p ≠ eh := by
                  intro hc
                  subst hc
                  omega
                rw [get?_set_ne _ _ _ _ (Ne.symm hpe)] at hget
                refine hI.exec_inv p t hp ?_ hd2 hget
                show (eh + 32 - rh) % 32 ≤ (p + 32 - rh) % 32
                omega
      · -- results still outstanding: poll the reorder buffer
        simp only [bind] at h
        have finish : ∀ (t2 : PendingTask) (rob2 : ReorderBuffer)
            (q2 : ExecutionRetireQueue), t2.task = task.task →
            t2.var = task.var →
            ExecutionRetireQueue.set_execute_task
              { queue := qlist, retire_head := rh, execution_head := eh,
                execution_tail := et } t2 = some q2 →
            Inv { queue := q2, rob := rob2, task_cache := tc,
                  node_cache := ncache, stack := stk, stall := stl } := by
          intro t2 rob2 q2 ht2t ht2v hq2
          simp only [ExecutionRetireQueue.set_execute_task] at hq2
          split at hq2
          · cases hq2
          · injection hq2 with hq2
            subst hq2
            refine ⟨hI.ninv, hI.tinv, by simpa using hI.qlen, hI.rh_lt,
              hI.eh_lt, hI.et_lt, hI.order, ?_, ?_, hI.stack_inv⟩
            · intro p t hp hd hget
              have hp' : p < 32 := hp
              have hd' : (p + 32 - rh) % 32 < (eh + 32 - rh) % 32 := hd
              have hpe : p ≠ eh := by
                intro hc
                subst hc
                omega
              rw [get?_set_ne _ _ _ _ (Ne.symm hpe)] at hget
              exact hI.retire_inv p t hp hd hget
            · intro p t hp hd1 hd2 hget
              by_cases hpe : p = eh
              · subst hpe
                rw [get?_set_self _ _ _ (by omega)] at hget
                injection hget with hget
                subst hget
                refine ⟨?_, ?_⟩
                · rw [ht2t]
                  exact hkey
                · rw [ht2v]
                  exact hvar'
              · rw [get?_set_ne _ _ _ _ (Ne.symm hpe)] at hget
                exact hI.exec_inv p t hp hd1 hd2 hget
        split at h
        · split at h
          · rw [Option.none_bind] at h
            cases h
          · rename_i resl hresl
            split at h
            · rw [Option.bind_eq_some] at h
              obtain ⟨rb1, hrb1, h⟩ := h
              rw [Option.some_bind] at h
              split at h
              · split at h
                · rw [Option.none_bind] at h
                  cases h
                · rename_i resh hresh
                  split at h
                  · rw [Option.bind_eq_some] at h
                    obtain ⟨rb2, hrb2, h⟩ := h
                    rw [Option.some_bind] at h
                    rw [Option.bind_eq_some] at h
                    obtain ⟨q2, hq2, h⟩ := h
                    injection h with h
                    subst h
                    exact finish _ _ _ (by rfl) (by rfl) hq2
                  · rw [Option.some_bind] at h
                    rw [Option.bind_eq_some] at h
                    obtain ⟨q2, hq2, h⟩ := h
                    injection h with h
                    subst h
                    exact finish _ _ _ (by rfl) (by rfl) hq2
              · rw [Option.some_bind] at h
                rw [Option.bind_eq_some] at h
                obtain ⟨q2, hq2, h⟩ := h
                injection h with h
                subst h
                exact finish _ _ _ (by rfl) (by rfl) hq2
            · rw [Option.some_bind] at h
              split at h
              · split at h
                · rw [Option.none_bind] at h
                  cases h
                · rename_i resh hresh
                  split at h
                  · rw [Option.bind_eq_some] at h
                    obtain ⟨rb2, hrb2, h⟩ := h
                    rw [Option.some_bind] at h
                    rw [Option.bind_eq_some] at h
                    obtain ⟨q2, hq2, h⟩ := h
                    injection h with h
                    subst h
                    exact finish _ _ _ (by rfl) (by rfl) hq2
                  · rw [Option.some_bind] at h
                    rw [Option.bind_eq_some] at h
                    obtain ⟨q2, hq2, h⟩ := h
                    injection h with h
                    subst h
                    exact finish _ _ _ (by rfl) (by rfl) hq2
              · rw [Option.some_bind] at h
                rw [Option.bind_eq_some] at h
                obtain ⟨q2, hq2, h⟩ := h
                injection h with h
                subst h
                exact finish _ _ _ (by rfl) (by rfl) hq2
        · rw [Option.some_bind] at h
          split at h
          · split at h
            · rw [Option.none_bind] at h
              cases h
            · rename_i resh hresh
              split at h
              · rw [Option.bind_eq_some] at h
                obtain ⟨rb2, hrb2, h⟩ := h
                rw [Option.some_bind] at h
                rw [Option.bind_eq_some] at h
                obtain ⟨q2, hq2, h⟩ := h
                injection h with h
                subst h
                exact finish _ _ _ (by rfl) (by rfl) hq2
              · rw [Option.some_bind] at h
                rw [Option.bind_eq_some] at h
                obtain ⟨q2, hq2, h⟩ := h
                injection h with h
                subst h
                exact finish _ _ _ (by rfl) (by rfl) hq2
          · rw [Option.some_bind] at h
            rw [Option.bind_eq_some] at h
            obtain ⟨q2, hq2, h⟩ := h
            injection h with h
            subst h
            exact finish _ _ _ (by rfl) (by rfl) hq2
  · injection h with h
    subst h
    exact hI

theorem two_le_of_ne {a : Nat} (h0 : a ≠ 0) (h1 : a ≠ 1) : 2 ≤ a := by
  omega

theorem lt_pred_of_ne {a w : Nat} (h1 : a ≠ w - 1) (h2 : a < w) :
    a < w - 1 := by
  omega

set_option maxHeartbeats 1600000 in
theorem issueStage_inv {L R : Bdd} {s s' : ApplyState}
    (hL : L.wfbCore = true) (hR : R.wfbCore = true) (hI : Inv s)
    (h : issueStage L R s = some s') : Inv s' := by
  obtain ⟨q, rob, tc, ncache, stk, stl⟩ := s
  obtain ⟨qlist, rh, eh, et⟩ := q
  have hql : qlist.length = 32 := hI.qlen
  have hrl : rh < 32 := hI.rh_lt
  have hel : eh < 32 := hI.eh_lt
  have htl : et < 32 := hI.et_lt
  have hord : (eh + 32 - rh) % 32 ≤ (et + 32 - rh) % 32 := hI.order
  have hSI : ∀ i f, i < stk.index_after_last → stk.items.get? i = some f →
      FrameInv f := hI.stack_inv
  have base : ∀ (stk2 : TaskStack),
      (∀ i f, i < stk2.index_after_last → stk2.items.get? i = some f →
        FrameInv f) →
      Inv { queue := { queue := qlist, retire_head := rh,
                       execution_head := eh, execution_tail := et },
            rob := rob, task_cache := tc, node_cache := ncache,
            stack := stk2, stall := stl } := by
    intro stk2 hs2
    exact ⟨hI.ninv, hI.tinv, hI.qlen, hI.rh_lt, hI.eh_lt, hI.et_lt,
      hI.order, hI.retire_inv, hI.exec_inv, hs2⟩
  simp only [issueStage] at h
  split at h
  · rename_i hne
    have hial0 : stk.index_after_last ≠ 0 := by
      intro hc
      exact hne (by show (stk.index_after_last == 0) = true
                    exact beq_iff_eq.mpr hc)
    split at h
    · cases h
    · rename_i task htop
      have htop' : stk.items.get? (stk.index_after_last - 1) = some task := by
        have : (if stk.index_after_last = 0 then none
            else stk.items.get? (stk.index_after_last - 1)) = some task := htop
        rwa [if_neg hial0] at this
      split at h
      · -- the top frame is already decoded: try to dispatch it
        rename_i hdec
        have hFtop := hSI (stk.index_after_last - 1) task (by omega) htop'
        obtain ⟨htne, hvne⟩ := hFtop hdec
        split at h
        · rename_i hnf
          simp only [bind, Option.bind_eq_some] at h
          obtain ⟨alloc, halloc, q2, hq2, stk2, hstk2, heq⟩ := h
          injection heq with heq
          subst heq
          simp only [ExecutionRetireQueue.enqueue_for_execution] at hq2
          split at hq2
          · cases hq2
          · injection hq2 with hq2
            subst hq2
            have hqnf : (et + 1) % 32 ≠ rh := by
              intro hc
              rw [Bool.and_eq_true] at hnf
              have h2 := hnf.2
              simp only [decide_eq_true_eq] at h2
              exact h2 (by
                show (((et + 1) % 32 == rh) = true)
                exact beq_iff_eq.mpr hc)
            obtain ⟨hsf, hsl, -⟩ := pop_stack_inv hSI hstk2
            refine ⟨hI.ninv, hI.tinv, by simpa using hI.qlen, hI.rh_lt,
              hI.eh_lt, ?_, ?_, ?_, ?_, hsf⟩
            · show (et + 1) % 32 < 32
              omega
            · show (eh + 32 - rh) % 32 ≤ ((et + 1) % 32 + 32 - rh) % 32
              omega
            · intro p t hp hd hget
              have hp' : p < 32 := hp
              have hd' : (p + 32 - rh) % 32 < (eh + 32 - rh) % 32 := hd
              have hpe : p ≠ et := by omega
              rw [get?_set_ne _ _ _ _ (Ne.symm hpe)] at hget
              exact hI.retire_inv p t hp hd hget
            · intro p t hp hd1 hd2 hget
              have hp' : p < 32 := hp
              have hd1' : (eh + 32 - rh) % 32 ≤ (p + 32 - rh) % 32 := hd1
              have hd2' : (p + 32 - rh) % 32 <
                  ((et + 1) % 32 + 32 - rh) % 32 := hd2
              by_cases hpe : p = et
              · subst hpe
                rw [get?_set_self _ _ _ (by omega)] at hget
                injection hget with hget
                subst hget
                exact ⟨htne, hvne⟩
              · rw [get?_set_ne _ _ _ _ (Ne.symm hpe)] at hget
                refine hI.exec_inv p t hp hd1 ?_ hget
                show (p + 32 - rh) % 32 < (et + 32 - rh) % 32
                omega
        · -- a structure is full: record the stall and try again later
          injection h with h
          subst h
          exact ⟨hI.ninv, hI.tinv, hI.qlen, hI.rh_lt, hI.eh_lt, hI.et_lt,
            hI.order, hI.retire_inv, hI.exec_inv, hSI⟩
      · -- the top frame still needs decoding
        rename_i hdec
        split at h
        · -- a ONE operand: pop with result ONE
          simp only [bind, Option.bind_eq_some] at h
          obtain ⟨stk2, hstk2, heq⟩ := h
          injection heq with heq
          subst heq
          exact base stk2 (pop_stack_inv hSI hstk2).1
        · rename_i hone
          split at h
          · -- both operands ZERO: pop with result ZERO
            simp only [bind, Option.bind_eq_some] at h
            obtain ⟨stk2, hstk2, heq⟩ := h
            injection heq with heq
            subst heq
            exact base stk2 (pop_stack_inv hSI hstk2).1
          · rename_i hzero
            split at h
            · cases h
            · rename_i cached hcached
              split at h
              · -- task cache hit: pop with the cached node
                simp only [bind, Option.bind_eq_some] at h
                obtain ⟨stk2, hstk2, heq⟩ := h
                injection heq with heq
                subst heq
                exact base stk2 (pop_stack_inv hSI hstk2).1
              · -- decode: split the task on the top decision variable
                rename_i hmiss
                split at h
                · rename_i left_node right_node hln hrn
                  have hkey : task.task ≠ (NodeId.ZERO, NodeId.ZERO) := by
                    intro hc
                    apply hzero
                    show (task.operands.1.is_zero &&
                      task.operands.2.is_zero) = true
                    have ho : task.operands = (NodeId.ZERO, NodeId.ZERO) := hc
                    rw [ho]
                    decide
                  have hn1 : task.operands.1 ≠ NodeId.ONE := by
                    intro hc
                    apply hone
                    show (task.operands.1.is_one ||
                      task.operands.2.is_one) = true
                    rw [hc]
                    simp [NodeId.is_one]
                  have hn2 : task.operands.2 ≠ NodeId.ONE := by
                    intro hc
                    apply hone
                    show (task.operands.1.is_one ||
                      task.operands.2.is_one) = true
                    rw [hc]
                    simp [NodeId.is_one]
                  have h2or : 2 ≤ task.operands.1 ∨ 2 ≤ task.operands.2 := by
                    have hn1' : task.operands.1 ≠ 1 := hn1
                    have hn2' : task.operands.2 ≠ 1 := hn2
                    by_cases hc1 : task.operands.1 = NodeId.ZERO
                    · have hc1' : task.operands.1 = 0 := hc1
                      right
                      have hz2 : task.operands.2 ≠ NodeId.ZERO := by
                        intro hc2
                        apply hzero
                        show (task.operands.1.is_zero &&
                          task.operands.2.is_zero) = true
                        rw [hc1, hc2]
                        decide
                      have hz2' : task.operands.2 ≠ 0 := hz2
                      exact two_le_of_ne hz2' hn2'
                    · have hc1' : task.operands.1 ≠ 0 := hc1
                      left
                      exact two_le_of_ne hc1' hn1'
                  have hmin : min left_node.get_variable
                      right_node.get_variable ≠ VariableId.UNDEFINED := by
                    refine min_ne_undef ?_
                    rcases h2or with h2 | h2
                    · left
                      obtain ⟨hvne', hvlt⟩ :=
                        wfbCore_var hL task.operands.1 left_node.get_variable
                          left_node h2 hln rfl
                      exact @lt_pred_of_ne left_node.get_variable W32
                        hvne' hvlt
                    · right
                      obtain ⟨hvne', hvlt⟩ :=
                        wfbCore_var hR task.operands.2 right_node.get_variable
                          right_node h2 hrn rfl
                      exact @lt_pred_of_ne right_node.get_variable W32
                        hvne' hvlt
                  simp only [bind, Option.bind_eq_some] at h
                  obtain ⟨stk2, hset, stk3, hp1, stk4, hp2, heq⟩ := h
                  injection heq with heq
                  subst heq
                  simp only [TaskStack.set_top] at hset
                  split at hset
                  · cases hset
                  · injection hset with hset
                    subst hset
                    simp only [TaskStack.push_new] at hp1
                    split at hp1
                    · cases hp1
                    · rename_i slot1 hslot1
                      injection hp1 with hp1
                      subst hp1
                      simp only [TaskStack.push_new] at hp2
                      split at hp2
                      · cases hp2
                      · rename_i slot2 hslot2
                        injection hp2 with hp2
                        subst hp2
                        refine base _ ?_
                        intro i f' hi hget
                        have hi' : i < stk.index_after_last + 1 + 1 := hi
                        have hl1 : stk.index_after_last <
                            (stk.items.set (stk.index_after_last - 1) _).length
                          := get?_lt_length hslot1
                        have hl1' : stk.index_after_last <
                            stk.items.length := by
                          simpa using hl1
                        by_cases hiA : i = stk.index_after_last + 1
                        · subst hiA
                          rw [get?_set_self _ _ _ (by
                            simpa using get?_lt_length hslot2)] at hget
                          injection hget with hget
                          subst hget
                          intro hcd
                          have hcd' :
                              ((2 ||| NOT_DECODED) &&& NOT_DECODED == 0)
                                = true := hcd
                          exact absurd hcd' (by decide)
                        · rw [get?_set_ne _ _ _ _ (Ne.symm hiA)] at hget
                          by_cases hiB : i = stk.index_after_last
                          · subst hiB
                            rw [get?_set_self _ _ _ (by
                              simpa using hl1')] at hget
                            injection hget with hget
                            subst hget
                            intro hcd
                            have hcd' :
                                ((1 ||| NOT_DECODED) &&& NOT_DECODED == 0)
                                  = true := hcd
                            exact absurd hcd' (by decide)
                          · rw [get?_set_ne _ _ _ _ (Ne.symm hiB)] at hget
                            by_cases hiC : i = stk.index_after_last - 1
                            · subst hiC
                              rw [get?_set_self _ _ _ (by omega)] at hget
                              injection hget with hget
                              subst hget
                              intro hcd
                              exact ⟨hkey, hmin⟩
                            · rw [get?_set_ne _ _ _ _ (Ne.symm hiC)] at hget
                              exact hSI i f' (by omega) hget
                · cases h
  · injection h with h
    subst h
    exact hI

theorem step_inv {L R : Bdd} {s s' : ApplyState}
    (hL : L.wfbCore = true) (hR : R.wfbCore = true) (hI : Inv s)
    (h : step L R s = some s') : Inv s' := by
  simp only [step, bind, Option.bind_eq_some] at h
  obtain ⟨s1, h1, s2, h2, h3⟩ := h
  exact issueStage_inv hL hR (executeStage_inv (retireStage_inv hI h1) h2) h3

theorem applyLoop_inv {L R : Bdd} {fuel : Nat} {s s' : ApplyState}
    (hL : L.wfbCore = true) (hR : R.wfbCore = true) (hI : Inv s)
    (h : applyLoop L R fuel s = some s') : Inv s' := by
  induction fuel generalizing s with
  | zero =>
      simp only [applyLoop] at h
      split at h
      · injection h with h
        subst h
        exact hI
      · cases h
  | succ n ih =>
      simp only [applyLoop] at h
      split at h
      · injection h with h
        subst h
        exact hI
      · rw [Option.bind_eq_some] at h
        obtain ⟨s1, h1, h2⟩ := h
        exact ih (step_inv hL hR hI h1) h2

theorem ooo_stepN_inv {L R : Bdd} (hL : L.wfbCore = true)
    (hR : R.wfbCore = true) :
    ∀ (k : Nat) {s s' : ApplyState}, Inv s → stepN L R k s = some s' →
      Inv s' := by
  intro k
  induction k with
  | zero =>
      intro s s' hI h
      injection h with h
      subst h
      exact hI
  | succ k ih =>
      intro s s' hI h
      unfold stepN at h
      split at h
      · injection h with h
        subst h
        exact hI
      · rw [Option.bind_eq_some] at h
        obtain ⟨s1, h1, h2⟩ := h
        exact ih (step_inv hL hR hI h1) h2

theorem ooo_applyInit_inv {L R : Bdd} {s0 : ApplyState}
    (hcap : 2 * L.node_count < NodeCacheSlot.UNDEFINED)
    (h : applyInit L R = some s0) : Inv s0 := by
  simp only [applyInit, bind, Option.bind_eq_some] at h
  obtain ⟨rob, hrob, tcache, htc, ncache, hnc, stk, hstk, heq⟩ := h
  injection heq with heq
  subst heq
  simp only [NodeCache.new] at hnc
  split at hnc
  · cases hnc
  · rename_i hc0
    split at hnc
    · cases hnc
    · rename_i hc2
      injection hnc with hnc
      subst hnc
      have hc2' : ¬2 * L.node_count < 2 := hc2
      simp only [TaskStack.push_new] at hstk
      split at hstk
      · cases hstk
      · rename_i slot0 hslot0
        injection hstk with hstk
        subst hstk
        refine ⟨?_, ?_, ?_, ?_, ?_, ?_, ?_, ?_, ?_, ?_⟩
        · refine ⟨le_refl 2, ?_, ?_, ?_, ?_, ?_, ?_, ?_, ?_, ?_⟩
          · simp only [List.length_set, List.length_replicate]
            omega
          · simpa using hcap
          · rw [get?_set_ne _ _ _ _ (by decide : (1 : Nat) ≠ 0)]
            exact get?_set_self _ _ _ (by simp; omega)
          · exact get?_set_self _ _ _ (by simp; omega)
          · intro hh r hg hne
            exact absurd (List.eq_of_mem_replicate (List.get?_mem hg)) hne
          · intro a b e h2a hlt
            exact absurd (show a < 2 from hlt) (by omega)
          · intro a e h2a hlt
            exact absurd (show a < 2 from hlt) (by omega)
          · intro i j ei ej h2i hij hjlt
            exact absurd (show j < 2 from hjlt) (by omega)
          · intro a e h2a hlt
            exact absurd (show a < 2 from hlt) (by omega)
        · intro e he h0
          rw [(task_cache_new_table htc).2.2 e he]
        · show (List.replicate QLEN PendingTask.junk).length = QLEN
          simp
        · show 0 < 32
          omega
        · show 0 < 32
          omega
        · show 0 < 32
          omega
        · show (0 + 32 - 0) % 32 ≤ (0 + 32 - 0) % 32
          omega
        · intro p t hp hd hget
          have hd' : (p + 32 - 0) % 32 < (0 + 32 - 0) % 32 := hd
          have hp' : p < 32 := hp
          omega
        · intro p t hp hd1 hd2 hget
          have hd2' : (p + 32 - 0) % 32 < (0 + 32 - 0) % 32 := hd2
          have hp' : p < 32 := hp
          omega
        · intro i f hi hget
          have hi' : i < 0 + 1 := hi
          have hi0 : i = 0 := by omega
          subst hi0
          simp only [TaskStack.new] at hslot0 hget
          rw [get?_set_self _ _ _ (get?_lt_length hslot0)] at hget
          injection hget with hget
          subst hget
          intro hcd
          have hcd' : ((0 ||| NOT_DECODED) &&& NOT_DECODED == 0) = true := hcd
          exact absurd hcd' (by decide)

theorem export_nodes_get {nc : NodeCache} {i : Nat} {n : PackedBddNode}
    (h : nc.export_nodes.get? i = some n) :
    i < nc.index_after_last ∧ ∃ e, nc.nodes.get? i = some e ∧ e.1 = n := by
  simp only [NodeCache.export_nodes, List.get?_eq_getElem?,
    List.getElem?_map, Option.map_eq_some'] at h
  obtain ⟨e, he, hefst⟩ := h
  have hlt : i < (nc.nodes.take nc.index_after_last).length := by
    rw [← List.get?_eq_getElem?] at he
    exact get?_lt_length he
  rw [List.length_take] at hlt
  have hi : i < nc.index_after_last := lt_of_lt_of_le hlt (min_le_left _ _)
  rw [List.getElem?_take_of_lt hi] at he
  refine ⟨hi, e, ?_, hefst⟩
  rw [List.get?_eq_getElem?]
  exact he

end OOO

theorem from_raw_nodes_nodes (ns : List PackedBddNode) :
    (Bdd.from_raw_nodes ns).nodes = ns := rfl

theorem get?_total {α : Type} {l : List α} {i : Nat} (h : i < l.length) :
    ∃ a, l.get? i = some a := by
  rw [List.get?_eq_getElem?]
  exact ⟨l[i], List.getElem?_eq_getElem h⟩

theorem wfbCore_spec {b : Bdd} (h : b.wfbCore = true) :
    0 < b.nodes.length ∧
    b.nodes.get? 0 = some PackedBddNode.ZERO ∧
    (2 ≤ b.nodes.length → b.nodes.get? 1 = some PackedBddNode.ONE) ∧
    ∀ i node, 2 ≤ i → b.nodes.get? i = some node →
      node.get_variable ≠ VariableId.UNDEFINED ∧
      node.get_variable < W32 ∧
      node.get_low_link < b.nodes.length ∧
      node.get_high_link < b.nodes.length ∧
      node.get_low_link ≠ node.get_high_link ∧
      node.get_variable < varP b node.get_low_link ∧
      node.get_variable < varP b node.get_high_link := by
  unfold Bdd.wfbCore at h
  simp only [Bool.and_eq_true, decide_eq_true_eq, beq_iff_eq,
    Bool.or_eq_true, List.all_eq_true, List.mem_range] at h
  obtain ⟨⟨⟨hlen, h0⟩, h1⟩, hall⟩ := h
  refine ⟨hlen, ?_, ?_, ?_⟩
  · rw [List.get?_eq_getElem?, List.getElem?_eq_getElem hlen]
    rw [← List.getD_eq_getElem b.nodes PackedBddNode.ONE hlen]
    exact congrArg some h0
  · intro h2
    have h1' : b.nodes.getD 1 PackedBddNode.ZERO = PackedBddNode.ONE := by
      rcases h1 with h1 | h1
      · omega
      · exact h1
    rw [List.get?_eq_getElem?, List.getElem?_eq_getElem (by omega)]
    rw [← List.getD_eq_getElem b.nodes PackedBddNode.ZERO (by omega)]
    exact congrArg some h1'
  · intro i node h2 hg
    have hi : i < b.nodes.length := (List.get?_eq_some.mp hg).1
    have hD : b.nodes.getD i PackedBddNode.ZERO = node := by
      rw [List.getD_eq_getElem b.nodes PackedBddNode.ZERO hi]
      have := List.getElem?_eq_getElem hi
      rw [← List.get?_eq_getElem?] at this
      rw [hg] at this
      exact (Option.some_injective _ this.symm)
    have := hall i hi
    rw [if_neg (by omega)] at this
    simp only [Bool.and_eq_true, decide_eq_true_eq, bne_iff_ne,
      Bool.not_eq_true', hD] at this
    obtain ⟨⟨⟨⟨⟨⟨hu, hvw⟩, hlo⟩, hhi⟩, hne⟩, hvl⟩, hvh⟩ := this
    refine ⟨?_, hvw, hlo, hhi, hne, hvl, hvh⟩
    intro hcontra
    rw [VariableId.is_undefined, hcontra] at hu
    simp at hu

theorem varP_eq {b : Bdd} {i : Nat} {node : PackedBddNode}
    (hg : b.nodes.get? i = some node) :
    varP b i = node.get_variable := by
  unfold varP
  have hi : i < b.nodes.length := (List.get?_eq_some.mp hg).1
  rw [List.getD_eq_getElem b.nodes PackedBddNode.ZERO hi]
  have := List.getElem?_eq_getElem hi
  rw [← List.get?_eq_getElem?] at this
  rw [hg] at this
  exact congrArg PackedBddNode.get_variable (Option.some_injective _ this.symm)

theorem shuffle_bound {n : Nat} {σ : List NodeId} (hOK : ShuffleOK n σ)
    {i v : Nat} (hn : 0 < n) (hn1 : 1 < n) (hw : σ.get? i = some v) :
    v < n := by
  by_cases h2 : 2 ≤ i
  · exact (hOK.val2 i v h2 hw).2
  · interval_cases i
    · rw [hOK.zero] at hw
      cases hw
      exact hn
    · rw [hOK.one] at hw
      cases hw
      exact hn1

theorem copyAux_spec {b : Bdd} {σ : List NodeId} {n : Nat}
    (hn : b.nodes.length = n) (hOK : ShuffleOK n σ)
    (hlinks : ∀ i node, 2 ≤ i → b.nodes.get? i = some node →
      node.get_low_link < n ∧ node.get_high_link < n) :
    ∀ count start acc, start + count = n → 2 ≤ start → acc.length = n →
      ∃ out, copyShuffledAux b σ count start acc = some out ∧
        out.length = n ∧
        (∀ p, (∀ old w, start ≤ old → old < n → σ.get? old = some w →
            w ≠ p) → out.get? p = acc.get? p) ∧
        (∀ old node v lv hv, start ≤ old → old < n →
          b.nodes.get? old = some node → σ.get? old = some v →
          σ.get? node.get_low_link = some lv →
          σ.get? node.get_high_link = some hv →
          out.get? v = some (PackedBddNode.pack node.get_variable lv hv)) := by
  intro count
  induction count with
  | zero =>
      intro start acc hsum h2 hlen
      refine ⟨acc, rfl, hlen, fun p _ => rfl, ?_⟩
      intro old node v lv hv h1 h2' hnode hv' hlv hhv
      exact absurd h1 (by omega)
  | succ c ih =>
      intro start acc hsum h2 hlen
      have hstart_lt : start < n := by omega
      obtain ⟨node, hnode⟩ :=
        get?_total (l := b.nodes) (by rw [hn]; exact hstart_lt)
      obtain ⟨sv, hsv⟩ := get?_total (l := σ) (by rw [hOK.len]; exact hstart_lt)
      obtain ⟨hlowlt, hhighlt⟩ := hlinks start node h2 hnode
      obtain ⟨lv, hlv⟩ := get?_total (l := σ) (by rw [hOK.len]; exact hlowlt)
      obtain ⟨hv2, hhv2⟩ := get?_total (l := σ) (by rw [hOK.len]; exact hhighlt)
      obtain ⟨hsv2, hsvlt⟩ := hOK.val2 start sv h2 hsv
      obtain ⟨out, hrec, hlen', huntouched, hwritten⟩ :=
        ih (start + 1)
          (acc.set sv (PackedBddNode.pack node.get_variable lv hv2))
          (by omega) (by omega) (by simpa using hlen)
      refine ⟨out, ?_, hlen', ?_, ?_⟩
      · show copyShuffledAux b σ (c + 1) start acc = some out
        simp only [copyShuffledAux, hnode, hsv, hlv, hhv2]
        rw [if_pos (by rw [hlen]; exact hsvlt)]
        exact hrec
      · intro p hp
        rw [huntouched p ?_]
        · exact get?_set_ne _ _ _ _ (hp start sv (le_refl _) hstart_lt hsv)
        · intro old w h1 h2' hw
          exact hp old w (by omega) h2' hw
      · intro old node' v' lv' hv' h1 h2' hnode' hv'' hlv' hhv'
        by_cases heq : old = start
        · have hnn : node' = node := by
            rw [heq, hnode] at hnode'
            exact (Option.some_injective _ hnode').symm
          have hvv : v' = sv := by
            rw [heq, hsv] at hv''
            exact (Option.some_injective _ hv'').symm
          have hll : lv' = lv := by
            rw [hnn, hlv] at hlv'
            exact (Option.some_injective _ hlv').symm
          have hhh : hv' = hv2 := by
            rw [hnn, hhv2] at hhv'
            exact (Option.some_injective _ hhv').symm
          rw [hvv, hnn, hll, hhh]
          rw [huntouched sv ?_]
          · exact get?_set_self _ _ _ (by rw [hlen]; exact hsvlt)
          · intro old2 w h1' h2'' hw2 hc
            rw [hc] at hw2
            exact absurd (hOK.inj old2 start sv sv hw2 hsv rfl) (by omega)
        · exact hwritten old node' v' lv' hv' (by omega) h2' hnode' hv''
            hlv' hhv'

theorem initMap_get {n i : Nat} (hi : i < n) :
    (((List.replicate n NodeId.UNDEFINED).set 0 NodeId.ZERO).set 1
        NodeId.ONE).get? i =
      some (if i = 0 then 0 else if i = 1 then 1
        else NodeId.UNDEFINED) := by
  by_cases h0 : i = 0
  · subst h0
    rw [get?_set_ne _ _ _ _ (by decide : (1 : Nat) ≠ 0)]
    rw [get?_set_self _ _ _ (by simpa using hi)]
    simp [NodeId.ZERO]
  · by_cases h1 : i = 1
    · subst h1
      rw [get?_set_self _ _ _ (by simpa using hi)]
      simp [NodeId.ONE]
    · rw [get?_set_ne _ _ _ _ (Ne.symm h1), get?_set_ne _ _ _ _ (Ne.symm h0)]
      rw [List.get?_eq_getElem?, List.getElem?_replicate]
      simp [hi, h0, h1]

theorem premap_init {n : Nat} (hn : 2 < n) :
    PreMapInv n (((List.replicate n NodeId.UNDEFINED).set 0
      NodeId.ZERO).set 1 NodeId.ONE) (n - 1) := by
  refine ⟨by simp, ?_, ?_, ?_, ?_, ?_⟩
  · rw [initMap_get (by omega)]
    norm_num
  · rw [initMap_get (by omega)]
    norm_num
  · refine ⟨Finset.Ico 2 n, ?_, ?_⟩
    · intro i
      constructor
      · intro hi
        obtain ⟨h2, hlt⟩ := Finset.mem_Ico.mp hi
        refine ⟨h2, hlt, ?_⟩
        rw [initMap_get hlt, if_neg (by omega), if_neg (by omega)]
      · rintro ⟨h2, hlt, -⟩
        exact Finset.mem_Ico.mpr ⟨h2, hlt⟩
    · rw [Nat.card_Ico]
      omega
  · intro i v h2 hget hne
    have hi : i < n := by simpa using get?_lt_length hget
    rw [initMap_get hi, if_neg (by omega), if_neg (by omega)] at hget
    injection hget with hget
    exact absurd hget.symm hne
  · intro i j vi vj hgi hgj hne heq
    have hi : i < n := by simpa using get?_lt_length hgi
    have hj : j < n := by simpa using get?_lt_length hgj
    rw [initMap_get hi] at hgi
    rw [initMap_get hj] at hgj
    injection hgi with hgi
    injection hgj with hgj
    by_cases h2i : 2 ≤ i
    · rw [if_neg (by omega), if_neg (by omega)] at hgi
      exact absurd hgi.symm hne
    · by_cases h2j : 2 ≤ j
      · rw [if_neg (by omega), if_neg (by omega)] at hgj
        rw [← heq] at hgj
        exact absurd hgj.symm hne
      · interval_cases i <;> interval_cases j <;> simp_all

theorem nEq {a b : Nat} (h : a = b) : a = b := h

theorem nLt {a b : Nat} (h : a < b) : a < b := h

theorem preorderLoop_inv {b : Bdd} {n : Nat} (hn : b.nodes.length = n)
    (hns : n < NodeId.UNDEFINED) :
    ∀ fuel stack m nf mf nff, PreMapInv n m nf →
      preorderLoop b fuel stack m nf = some (mf, nff) →
      PreMapInv n mf nff ∧
        ∀ i v, m.get? i = some v → v ≠ NodeId.UNDEFINED →
          mf.get? i = some v := by
  intro fuel
  induction fuel with
  | zero =>
      intro stack m nf mf nff hInv h
      simp only [preorderLoop] at h
      split at h
      · injection h with h
        injection h with h1 h2
        subst h1
        subst h2
        exact ⟨hInv, fun i v hv _ => hv⟩
      · cases h
  | succ f ih =>
      intro stack m nf mf nff hInv h
      simp only [preorderLoop] at h
      split at h
      · injection h with h
        injection h with h1 h2
        subst h1
        subst h2
        exact ⟨hInv, fun i v hv _ => hv⟩
      · rename_i task rest
        split at h
        · cases h
        · rename_i tid hmt
          split at h
          · rename_i hundef
            split at h
            · cases h
            · rename_i node hnode
              have htid : tid = NodeId.UNDEFINED := by
                simpa [NodeId.is_undefined, beq_iff_eq] using hundef
              subst htid
              have htask_lt : task < n := by
                have := get?_lt_length hmt
                rwa [hInv.len] at this
              have htask0 : task ≠ 0 := by
                intro hc
                rw [hc, hInv.zero] at hmt
                injection hmt with hmt
                exact absurd hmt (by decide)
              have htask1 : task ≠ 1 := by
                intro hc
                rw [hc, hInv.one] at hmt
                injection hmt with hmt
                exact absurd hmt (by decide)
              obtain ⟨U, hUiff, hUcard⟩ := hInv.count
              have htaskU : task ∈ U :=
                (hUiff task).mpr ⟨OOO.two_le_of_ne htask0 htask1,
                  htask_lt, hmt⟩
              have hcard1 : 1 ≤ U.card :=
                Finset.card_pos.mpr ⟨task, htaskU⟩
              have hUsub : U ⊆ Finset.Ico 2 n := fun i hi =>
                Finset.mem_Ico.mpr
                  ⟨((hUiff i).mp hi).1, ((hUiff i).mp hi).2.1⟩
              have hcard_le : U.card ≤ n - 2 := by
                have := Finset.card_le_card hUsub
                rwa [Nat.card_Ico] at this
              have hnf2 : 2 ≤ nf := by omega
              have hnf_lt : nf < n := by omega
              have hnfU : nf ≠ NodeId.UNDEFINED := by omega
              have hInv' : PreMapInv n (m.set task nf) (nf - 1) := by
                refine ⟨by simp [hInv.len], ?_, ?_, ?_, ?_, ?_⟩
                · rw [get?_set_ne _ _ _ _ htask0]
                  exact hInv.zero
                · rw [get?_set_ne _ _ _ _ htask1]
                  exact hInv.one
                · refine ⟨U.erase task, ?_, ?_⟩
                  · intro i
                    constructor
                    · intro hi
                      obtain ⟨hne_t, hiU⟩ := Finset.mem_erase.mp hi
                      obtain ⟨h2, hlt, hu⟩ := (hUiff i).mp hiU
                      refine ⟨h2, hlt, ?_⟩
                      rw [get?_set_ne _ _ _ _ (Ne.symm hne_t)]
                      exact hu
                    · rintro ⟨h2, hlt, hu⟩
                      have hne_t : i ≠ task := by
                        intro hc
                        subst hc
                        rw [get?_set_self _ _ _
                          (by rw [hInv.len]; exact htask_lt)] at hu
                        injection hu with hu
                        exact hnfU hu
                      refine Finset.mem_erase.mpr ⟨hne_t, ?_⟩
                      refine (hUiff i).mpr ⟨h2, hlt, ?_⟩
                      rwa [get?_set_ne _ _ _ _ (Ne.symm hne_t)] at hu
                  · rw [Finset.card_erase_of_mem htaskU]
                    omega
                · intro i v h2 hget hne
                  by_cases hit : i = task
                  · subst hit
                    rw [get?_set_self _ _ _
                      (by rw [hInv.len]; exact htask_lt)] at hget
                    injection hget with hget
                    subst hget
                    omega
                  · rw [get?_set_ne _ _ _ _ (Ne.symm hit)] at hget
                    have := hInv.values i v h2 hget hne
                    omega
                · intro i j vi vj hgi hgj hne heq
                  by_cases hit : i = task <;> by_cases hjt : j = task
                  · rw [hit, hjt]
                  · exfalso
                    rw [hit] at hgi
                    rw [get?_set_self _ _ _
                      (by rw [hInv.len]; exact htask_lt)] at hgi
                    injection hgi with hgi
                    have hvj : vj = nf := by rw [← heq, ← hgi]
                    rw [get?_set_ne _ _ _ _ (Ne.symm hjt)] at hgj
                    rw [hvj] at hgj
                    by_cases h2j : 2 ≤ j
                    · have hb := nLt (hInv.values j nf h2j hgj hnfU).1
                      omega
                    · have hj2 : j < 2 := by omega
                      interval_cases j
                      · rw [hInv.zero] at hgj
                        injection hgj with hgj
                        have := nEq hgj
                        omega
                      · rw [hInv.one] at hgj
                        injection hgj with hgj
                        have := nEq hgj
                        omega
                  · exfalso
                    rw [hjt] at hgj
                    rw [get?_set_self _ _ _
                      (by rw [hInv.len]; exact htask_lt)] at hgj
                    injection hgj with hgj
                    have hvi : vi = nf := by rw [heq, ← hgj]
                    rw [get?_set_ne _ _ _ _ (Ne.symm hit)] at hgi
                    rw [hvi] at hgi
                    by_cases h2i : 2 ≤ i
                    · have hb := nLt (hInv.values i nf h2i hgi hnfU).1
                      omega
                    · have hi2 : i < 2 := by omega
                      interval_cases i
                      · rw [hInv.zero] at hgi
                        injection hgi with hgi
                        have := nEq hgi
                        omega
                      · rw [hInv.one] at hgi
                        injection hgi with hgi
                        have := nEq hgi
                        omega
                  · rw [get?_set_ne _ _ _ _ (Ne.symm hit)] at hgi
                    rw [get?_set_ne _ _ _ _ (Ne.symm hjt)] at hgj
                    exact hInv.inj i j vi vj hgi hgj hne heq
              obtain ⟨hfin, hpers⟩ := ih _ _ _ _ _ hInv' h
              refine ⟨hfin, ?_⟩
              intro i v hv hvne
              have hit : i ≠ task := by
                intro hc
                subst hc
                rw [hmt] at hv
                injection hv with hv
                exact hvne hv.symm
              refine hpers i v ?_ hvne
              rw [get?_set_ne _ _ _ _ (Ne.symm hit)]
              exact hv
          · exact ih _ _ _ _ _ hInv h

theorem postmap_init {n : Nat} (hn : 2 < n) :
    PostMapInv n (((List.replicate n NodeId.UNDEFINED).set 0
      NodeId.ZERO).set 1 NodeId.ONE) 2 := by
  refine ⟨by simp, ?_, ?_, ?_, ?_, ?_⟩
  · rw [initMap_get (by omega)]
    norm_num
  · rw [initMap_get (by omega)]
    norm_num
  · refine ⟨Finset.Ico 2 n, ?_, ?_⟩
    · intro i
      constructor
      · intro hi
        obtain ⟨h2, hlt⟩ := Finset.mem_Ico.mp hi
        refine ⟨h2, hlt, ?_⟩
        rw [initMap_get hlt, if_neg (by omega), if_neg (by omega)]
      · rintro ⟨h2, hlt, -⟩
        exact Finset.mem_Ico.mpr ⟨h2, hlt⟩
    · rw [Nat.card_Ico]
      omega
  · intro i v h2 hget hne
    have hi : i < n := by simpa using get?_lt_length hget
    rw [initMap_get hi, if_neg (by omega), if_neg (by omega)] at hget
    injection hget with hget
    exact absurd hget.symm hne
  · intro i j vi vj hgi hgj hne heq
    have hi : i < n := by simpa using get?_lt_length hgi
    have hj : j < n := by simpa using get?_lt_length hgj
    rw [initMap_get hi] at hgi
    rw [initMap_get hj] at hgj
    injection hgi with hgi
    injection hgj with hgj
    by_cases h2i : 2 ≤ i
    · rw [if_neg (by omega), if_neg (by omega)] at hgi
      exact absurd hgi.symm hne
    · by_cases h2j : 2 ≤ j
      · rw [if_neg (by omega), if_neg (by omega)] at hgj
        rw [← heq] at hgj
        exact absurd hgj.symm hne
      · interval_cases i <;> interval_cases j <;> simp_all

set_option maxHeartbeats 1600000 in
theorem postorderLoop_inv {b : Bdd} {n : Nat} (hb : b.wfbCore = true)
    (hn : b.nodes.length = n) (hns : n < NodeId.UNDEFINED) :
    ∀ fuel stack m nf mf nff, PostMapInv n m nf → PostStackInv b m stack →
      postorderLoop b fuel stack m nf = some (mf, nff) →
      PostMapInv n mf nff ∧
        ∀ i v, m.get? i = some v → v ≠ NodeId.UNDEFINED →
          mf.get? i = some v := by
  intro fuel
  induction fuel with
  | zero =>
      intro stack m nf mf nff hInv hEI h
      simp only [postorderLoop] at h
      split at h
      · injection h with h
        injection h with h1 h2
        subst h1
        subst h2
        exact ⟨hInv, fun i v hv _ => hv⟩
      · cases h
  | succ f ih =>
      intro stack m nf mf nff hInv hEI h
      simp only [postorderLoop] at h
      split at h
      · injection h with h
        injection h with h1 h2
        subst h1
        subst h2
        exact ⟨hInv, fun i v hv _ => hv⟩
      · rename_i task expended rest
        split at h
        · cases h
        · rename_i tid hmt
          split at h
          · -- expended: assign the post-order id
            rename_i hexp
            have hEItop := hEI [] task rest (by rw [hexp]; rfl)
            have hmtU : m.get? task = some NodeId.UNDEFINED := hEItop.1
            have htask_lt : task < n := by
              have := get?_lt_length hmtU
              rwa [hInv.len] at this
            have htask0 : task ≠ 0 := by
              intro hc
              rw [hc, hInv.zero] at hmtU
              injection hmtU with hmtU
              exact absurd hmtU (by decide)
            have htask1 : task ≠ 1 := by
              intro hc
              rw [hc, hInv.one] at hmtU
              injection hmtU with hmtU
              exact absurd hmtU (by decide)
            obtain ⟨U, hUiff, hUcard⟩ := hInv.count
            have htaskU : task ∈ U :=
              (hUiff task).mpr ⟨OOO.two_le_of_ne htask0 htask1,
                htask_lt, hmtU⟩
            have hcard1 : 1 ≤ U.card :=
              Finset.card_pos.mpr ⟨task, htaskU⟩
            have hUsub : U ⊆ Finset.Ico 2 n := fun i hi =>
              Finset.mem_Ico.mpr
                ⟨((hUiff i).mp hi).1, ((hUiff i).mp hi).2.1⟩
            have hcard_le : U.card ≤ n - 2 := by
              have := Finset.card_le_card hUsub
              rwa [Nat.card_Ico] at this
            have hnf2 : 2 ≤ nf := by omega
            have hnf_le : nf < n := by omega
            have hnfU : nf ≠ NodeId.UNDEFINED := by omega
            have hInv' : PostMapInv n (m.set task nf) (nf + 1) := by
              refine ⟨by simp [hInv.len], ?_, ?_, ?_, ?_, ?_⟩
              · rw [get?_set_ne _ _ _ _ htask0]
                exact hInv.zero
              · rw [get?_set_ne _ _ _ _ htask1]
                exact hInv.one
              · refine ⟨U.erase task, ?_, ?_⟩
                · intro i
                  constructor
                  · intro hi
                    obtain ⟨hne_t, hiU⟩ := Finset.mem_erase.mp hi
                    obtain ⟨h2, hlt, hu⟩ := (hUiff i).mp hiU
                    refine ⟨h2, hlt, ?_⟩
                    rw [get?_set_ne _ _ _ _ (Ne.symm hne_t)]
                    exact hu
                  · rintro ⟨h2, hlt, hu⟩
                    have hne_t : i ≠ task := by
                      intro hc
                      subst hc
                      rw [get?_set_self _ _ _
                        (by rw [hInv.len]; exact htask_lt)] at hu
                      injection hu with hu
                      exact hnfU hu
                    refine Finset.mem_erase.mpr ⟨hne_t, ?_⟩
                    refine (hUiff i).mpr ⟨h2, hlt, ?_⟩
                    rwa [get?_set_ne _ _ _ _ (Ne.symm hne_t)] at hu
                · rw [Finset.card_erase_of_mem htaskU]
                  omega
              · intro i v h2 hget hne
                by_cases hit : i = task
                · rw [hit] at hget
                  rw [get?_set_self _ _ _
                    (by rw [hInv.len]; exact htask_lt)] at hget
                  injection hget with hget
                  have := nEq hget
                  omega
                · rw [get?_set_ne _ _ _ _ (Ne.symm hit)] at hget
                  have h1 := nLt (hInv.values i v h2 hget hne).2
                  have h0 := (hInv.values i v h2 hget hne).1
                  have h0' := nEq (rfl : v = v)
                  refine ⟨(hInv.values i v h2 hget hne).1, ?_⟩
                  omega
              · intro i j vi vj hgi hgj hne heq
                by_cases hit : i = task <;> by_cases hjt : j = task
                · rw [hit, hjt]
                · exfalso
                  rw [hit] at hgi
                  rw [get?_set_self _ _ _
                    (by rw [hInv.len]; exact htask_lt)] at hgi
                  injection hgi with hgi
                  have hvj : vj = nf := by rw [← heq, ← hgi]
                  rw [get?_set_ne _ _ _ _ (Ne.symm hjt)] at hgj
                  rw [hvj] at hgj
                  by_cases h2j : 2 ≤ j
                  · have hb2 := nLt (hInv.values j nf h2j hgj hnfU).2
                    omega
                  · have hj2 : j < 2 := by omega
                    interval_cases j
                    · rw [hInv.zero] at hgj
                      injection hgj with hgj
                      have := nEq hgj
                      omega
                    · rw [hInv.one] at hgj
                      injection hgj with hgj
                      have := nEq hgj
                      omega
                · exfalso
                  rw [hjt] at hgj
                  rw [get?_set_self _ _ _
                    (by rw [hInv.len]; exact htask_lt)] at hgj
                  injection hgj with hgj
                  have hvi : vi = nf := by rw [heq, ← hgj]
                  rw [get?_set_ne _ _ _ _ (Ne.symm hit)] at hgi
                  rw [hvi] at hgi
                  by_cases h2i : 2 ≤ i
                  · have hb2 := nLt (hInv.values i nf h2i hgi hnfU).2
                    omega
                  · have hi2 : i < 2 := by omega
                    interval_cases i
                    · rw [hInv.zero] at hgi
                      injection hgi with hgi
                      have := nEq hgi
                      omega
                    · rw [hInv.one] at hgi
                      injection hgi with hgi
                      have := nEq hgi
                      omega
                · rw [get?_set_ne _ _ _ _ (Ne.symm hit)] at hgi
                  rw [get?_set_ne _ _ _ _ (Ne.symm hjt)] at hgj
                  exact hInv.inj i j vi vj hgi hgj hne heq
            have hEI' : PostStackInv b (m.set task nf) rest := by
              intro pre t post hdec
              have horig := hEI ((task, expended) :: pre) t post
                (by rw [hdec]; rfl)
              obtain ⟨hU', hvars⟩ := horig
              have htt : t ≠ task := by
                intro hc
                have hv := hvars (task, expended) (List.mem_cons_self _ _)
                rw [hc] at hv
                exact absurd hv (lt_irrefl _)
              refine ⟨?_, ?_⟩
              · rw [get?_set_ne _ _ _ _ (Ne.symm htt)]
                exact hU'
              · intro q hq
                exact hvars q (List.mem_cons_of_mem _ hq)
            obtain ⟨hfin, hpers⟩ := ih _ _ _ _ _ hInv' hEI' h
            refine ⟨hfin, ?_⟩
            intro i v hv hvne
            have hit : i ≠ task := by
              intro hc
              rw [hc, hmtU] at hv
              injection hv with hv
              exact hvne hv.symm
            refine hpers i v ?_ hvne
            rw [get?_set_ne _ _ _ _ (Ne.symm hit)]
            exact hv
          · rename_i hexp
            split at h
            · -- not yet visited: push the children and an expended entry
              rename_i hundef
              split at h
              · cases h
              · rename_i node hnode
                have htid : tid = NodeId.UNDEFINED := by
                  simpa [NodeId.is_undefined, beq_iff_eq] using hundef
                subst htid
                have hexp' : expended = false := by
                  cases expended
                  · rfl
                  · exact absurd rfl hexp
                subst hexp'
                have htask_lt : task < n := by
                  have := get?_lt_length hmt
                  rwa [hInv.len] at this
                have htask0 : task ≠ 0 := by
                  intro hc
                  rw [hc, hInv.zero] at hmt
                  injection hmt with hmt
                  exact absurd hmt (by decide)
                have htask1 : task ≠ 1 := by
                  intro hc
                  rw [hc, hInv.one] at hmt
                  injection hmt with hmt
                  exact absurd hmt (by decide)
                obtain ⟨-, -, -, hwf⟩ := wfbCore_spec hb
                obtain ⟨-, -, -, -, -, hvl, hvh⟩ :=
                  hwf task node (OOO.two_le_of_ne htask0 htask1) hnode
                have hvt : varP b task = node.get_variable := varP_eq hnode
                have hEI' : PostStackInv b m
                    ((node.get_low_link, false) ::
                      (node.get_high_link, false) :: (task, true) :: rest)
                    := by
                  intro pre t post hdec
                  cases pre with
                  | nil =>
                      injection hdec with hd1 hd2
                      injection hd1 with hd1a hd1b
                      exact absurd hd1b.symm (by decide)
                  | cons a pre2 =>
                      injection hdec with hd1 hd2
                      cases pre2 with
                      | nil =>
                          injection hd2 with hd2a hd2b
                          injection hd2a with hd2c hd2d
                          exact absurd hd2d.symm (by decide)
                      | cons a2 pre3 =>
                          injection hd2 with hd2a hd2b
                          cases pre3 with
                          | nil =>
                              injection hd2b with hd3a hd3b
                              injection hd3a with hd3c hd3d
                              refine ⟨?_, ?_⟩
                              · rw [← hd3c]
                                exact hmt
                              · intro q hq
                                rw [← hd3c, hvt]
                                rcases List.mem_pair.mp
                                    (by rw [← hd1, ← hd2a] at hq; exact hq)
                                  with hq' | hq'
                                · rw [hq']
                                  exact hvl
                                · rw [hq']
                                  exact hvh
                          | cons a3 pre4 =>
                              injection hd2b with hd3a hd3b
                              have horig := hEI ((task, false) :: pre4) t
                                post (by rw [hd3b]; rfl)
                              obtain ⟨hU', hvars⟩ := horig
                              have hvt' : varP b t < varP b task :=
                                hvars (task, false)
                                  (List.mem_cons_self _ _)
                              refine ⟨hU', ?_⟩
                              intro q hq
                              rw [← hd1, ← hd2a, ← hd3a] at hq
                              rcases List.mem_cons.mp hq with hq' | hq'
                              · rw [hq']
                                calc varP b t < varP b task := hvt'
                                  _ = node.get_variable := hvt
                                  _ < varP b node.get_low_link := hvl
                              · rcases List.mem_cons.mp hq' with hq'' | hq''
                                · rw [hq'']
                                  calc varP b t < varP b task := hvt'
                                    _ = node.get_variable := hvt
                                    _ < varP b node.get_high_link := hvh
                                · rcases List.mem_cons.mp hq'' with h3 | h3
                                  · rw [h3]
                                    exact hvt'
                                  · exact hvars q
                                      (List.mem_cons_of_mem _ h3)
                obtain ⟨hfin, hpers⟩ := ih _ _ _ _ _ hInv hEI' h
                exact ⟨hfin, hpers⟩
            · -- already visited: skip
              have hEI' : PostStackInv b m rest := by
                intro pre t post hdec
                have horig := hEI ((task, expended) :: pre) t post
                  (by rw [hdec]; rfl)
                obtain ⟨hU', hvars⟩ := horig
                exact ⟨hU', fun q hq =>
                  hvars q (List.mem_cons_of_mem _ hq)⟩
              exact ih _ _ _ _ _ hInv hEI' h

set_option maxHeartbeats 1600000 in
theorem preorderLoop_bisim {b1 b2 : Bdd} {σ : List NodeId}
    (hP : SortPerm b1 b2 σ) (hn3 : 2 < b1.nodes.length) :
    ∀ fuel S1 S2 m1 m2 nf mf1 nff,
      List.Forall₂ (fun a c => σ.get? a = some c) S1 S2 →
      m1.length = b1.nodes.length → m2.length = b1.nodes.length →
      (∀ (i v : Nat), σ.get? i = some v → m1.get? i = m2.get? v) →
      preorderLoop b1 fuel S1 m1 nf = some (mf1, nff) →
      ∃ mf2, preorderLoop b2 fuel S2 m2 nf = some (mf2, nff) ∧
        mf1.length = b1.nodes.length ∧
        mf2.length = b1.nodes.length ∧
        (∀ (i v : Nat), σ.get? i = some v → mf1.get? i = mf2.get? v) := by
  intro fuel
  induction fuel with
  | zero =>
      intro S1 S2 m1 m2 nf mf1 nff hF hl1 hl2 hrel h
      simp only [preorderLoop] at h
      split at h
      · injection h with h
        injection h with h1 h2
        subst h1
        subst h2
        cases hF
        exact ⟨m2, rfl, hl1, hl2, hrel⟩
      · cases h
  | succ f ih =>
      intro S1 S2 m1 m2 nf mf1 nff hF hl1 hl2 hrel h
      simp only [preorderLoop] at h
      split at h
      · injection h with h
        injection h with h1 h2
        subst h1
        subst h2
        cases hF
        exact ⟨m2, rfl, hl1, hl2, hrel⟩
      · rename_i task rest
        cases hF with
        | @cons a c l1 r2 hσt hFr =>
          split at h
          · cases h
          · rename_i tid hm1t
            have hm2c : m2.get? c = some tid := by
              rw [← hrel task c hσt]
              exact hm1t
            split at h
            · rename_i hu
              split at h
              · cases h
              · rename_i node hnode
                obtain ⟨v, lv, hv, hσt', hσl, hσh, hb2⟩ := hP.rel task node
                  hnode
                have hvc : c = v := by
                  rw [hσt] at hσt'
                  exact Option.some_injective _ hσt'
                subst hvc
                have htask_len : task < m1.length := get?_lt_length hm1t
                have hc_lt : c < b1.nodes.length :=
                  shuffle_bound hP.ok (by omega) (by omega) hσt
                have hrel' : ∀ (i w : Nat), σ.get? i = some w →
                    (m1.set task nf).get? i = (m2.set c nf).get? w := by
                  intro i w hσi
                  by_cases hit : i = task
                  · subst hit
                    have hwc : w = c := by
                      rw [hσt] at hσi
                      exact (Option.some_injective _ hσi).symm
                    subst hwc
                    rw [get?_set_self _ _ _ htask_len,
                      get?_set_self _ _ _ (by rw [hl2]; exact hc_lt)]
                  · have hwc : w ≠ c := by
                      intro hc
                      subst hc
                      exact hit (hP.ok.inj i task w w hσi hσt rfl)
                    rw [get?_set_ne _ _ _ _ (Ne.symm hit),
                      get?_set_ne _ _ _ _ (Ne.symm hwc)]
                    exact hrel i w hσi
                obtain ⟨mf2, hrec2, hlf1, hlf2, hrelf⟩ :=
                  ih _ _ _ _ _ _ _
                    (List.Forall₂.cons hσl (List.Forall₂.cons hσh hFr))
                    (by simpa using hl1) (by simpa using hl2) hrel' h
                refine ⟨mf2, ?_, hlf1, hlf2, hrelf⟩
                show preorderLoop b2 (f + 1) (c :: r2) m2 nf
                  = some (mf2, nff)
                simp only [preorderLoop, hm2c]
                rw [if_pos hu]
                simp only [Bdd.get_node_unchecked] at hnode ⊢
                simp only [hb2]
                exact hrec2
            · rename_i hu
              obtain ⟨mf2, hrec2, hlf1, hlf2, hrelf⟩ :=
                ih _ _ _ _ _ _ _ hFr hl1 hl2 hrel h
              refine ⟨mf2, ?_, hlf1, hlf2, hrelf⟩
              show preorderLoop b2 (f + 1) (c :: r2) m2 nf
                = some (mf2, nff)
              simp only [preorderLoop, hm2c]
              rw [if_neg hu]
              exact hrec2

set_option maxHeartbeats 1600000 in
theorem postorderLoop_bisim {b1 b2 : Bdd} {σ : List NodeId}
    (hP : SortPerm b1 b2 σ) (hn3 : 2 < b1.nodes.length) :
    ∀ fuel S1 S2 m1 m2 nf mf1 nff,
      List.Forall₂ (fun p q => σ.get? p.1 = some q.1 ∧ p.2 = q.2) S1 S2 →
      m1.length = b1.nodes.length → m2.length = b1.nodes.length →
      (∀ (i v : Nat), σ.get? i = some v → m1.get? i = m2.get? v) →
      postorderLoop b1 fuel S1 m1 nf = some (mf1, nff) →
      ∃ mf2, postorderLoop b2 fuel S2 m2 nf = some (mf2, nff) ∧
        mf1.length = b1.nodes.length ∧
        mf2.length = b1.nodes.length ∧
        (∀ (i v : Nat), σ.get? i = some v → mf1.get? i = mf2.get? v) := by
  intro fuel
  induction fuel with
  | zero =>
      intro S1 S2 m1 m2 nf mf1 nff hF hl1 hl2 hrel h
      simp only [postorderLoop] at h
      split at h
      · injection h with h
        injection h with h1 h2
        subst h1
        subst h2
        cases hF
        exact ⟨m2, rfl, hl1, hl2, hrel⟩
      · cases h
  | succ f ih =>
      intro S1 S2 m1 m2 nf mf1 nff hF hl1 hl2 hrel h
      simp only [postorderLoop] at h
      split at h
      · injection h with h
        injection h with h1 h2
        subst h1
        subst h2
        cases hF
        exact ⟨m2, rfl, hl1, hl2, hrel⟩
      · rename_i task expended rest
        cases hF with
        | @cons p q l1 r2 hpq hFr =>
          obtain ⟨c, e2⟩ := q
          obtain ⟨hσt, hee⟩ := hpq
          have hσt : σ.get? task = some c := hσt
          have hee : expended = e2 := hee
          split at h
          · cases h
          · rename_i tid hm1t
            have hm2c : m2.get? c = some tid := by
              rw [← hrel task c hσt]
              exact hm1t
            have htask_len : task < m1.length := get?_lt_length hm1t
            have hc_lt : c < b1.nodes.length :=
              shuffle_bound hP.ok (by omega) (by omega) hσt
            split at h
            · -- expended: both sides assign the same fresh id
              rename_i hexp
              have hrel' : ∀ (i w : Nat), σ.get? i = some w →
                  (m1.set task nf).get? i = (m2.set c nf).get? w := by
                intro i w hσi
                by_cases hit : i = task
                · subst hit
                  have hwc : w = c := by
                    rw [hσt] at hσi
                    exact (Option.some_injective _ hσi).symm
                  subst hwc
                  rw [get?_set_self _ _ _ htask_len,
                    get?_set_self _ _ _ (by rw [hl2]; exact hc_lt)]
                · have hwc : w ≠ c := by
                    intro hc
                    subst hc
                    exact hit (hP.ok.inj i task w w hσi hσt rfl)
                  rw [get?_set_ne _ _ _ _ (Ne.symm hit),
                    get?_set_ne _ _ _ _ (Ne.symm hwc)]
                  exact hrel i w hσi
              obtain ⟨mf2, hrec2, hlf1, hlf2, hrelf⟩ :=
                ih _ _ _ _ _ _ _ hFr (by simpa using hl1)
                  (by simpa using hl2) hrel' h
              refine ⟨mf2, ?_, hlf1, hlf2, hrelf⟩
              show postorderLoop b2 (f + 1) ((c, e2) :: r2) m2 nf
                = some (mf2, nff)
              simp only [postorderLoop, hm2c]
              rw [if_pos (by rw [← hee]; exact hexp)]
              exact hrec2
            · rename_i hexp
              split at h
              · -- not yet visited: both sides expand the node
                rename_i hu
                split at h
                · cases h
                · rename_i node hnode
                  obtain ⟨v, lv, hv, hσt', hσl, hσh, hb2⟩ :=
                    hP.rel task node hnode
                  have hvc : c = v := by
                    rw [hσt] at hσt'
                    exact Option.some_injective _ hσt'
                  subst hvc
                  have hF' : List.Forall₂
                      (fun p q => σ.get? p.1 = some q.1 ∧ p.2 = q.2)
                      ((node.get_low_link, false) ::
                        (node.get_high_link, false) :: (task, true) :: rest)
                      ((lv, false) :: (hv, false) :: (c, true) :: r2) :=
                    List.Forall₂.cons ⟨hσl, rfl⟩
                      (List.Forall₂.cons ⟨hσh, rfl⟩
                        (List.Forall₂.cons ⟨hσt, rfl⟩ hFr))
                  obtain ⟨mf2, hrec2, hlf1, hlf2, hrelf⟩ :=
                    ih _ _ _ _ _ _ _ hF' hl1 hl2 hrel h
                  refine ⟨mf2, ?_, hlf1, hlf2, hrelf⟩
                  show postorderLoop b2 (f + 1) ((c, e2) :: r2) m2 nf
                    = some (mf2, nff)
                  simp only [postorderLoop, hm2c]
                  rw [if_neg (by rw [← hee]; exact hexp), if_pos hu]
                  simp only [Bdd.get_node_unchecked] at hnode ⊢
                  simp only [hb2]
                  exact hrec2
              · -- already visited: both sides skip
                rename_i hu
                obtain ⟨mf2, hrec2, hlf1, hlf2, hrelf⟩ :=
                  ih _ _ _ _ _ _ _ hFr hl1 hl2 hrel h
                refine ⟨mf2, ?_, hlf1, hlf2, hrelf⟩
                show postorderLoop b2 (f + 1) ((c, e2) :: r2) m2 nf
                  = some (mf2, nff)
                simp only [postorderLoop, hm2c]
                rw [if_neg (by rw [← hee]; exact hexp), if_neg hu]
                exact hrec2

theorem shuffle_surj {n : Nat} {σ : List NodeId} (hOK : ShuffleOK n σ)
    (hn : 2 < n) : ∀ v, v < n → ∃ i, i < n ∧ σ.get? i = some v := by
  have htot : ∀ i : Fin n, ∃ w, σ.get? i.1 = some w ∧ w < n := by
    intro i
    obtain ⟨w, hw⟩ := get?_total (l := σ) (by rw [hOK.len]; exact i.2)
    exact ⟨w, hw, shuffle_bound hOK (by omega) (by omega) hw⟩
  choose g hg hglt using htot
  have hinj : Function.Injective (fun i : Fin n => (⟨g i, hglt i⟩ : Fin n))
    := by
    intro a b hab
    have hv : g a = g b := congrArg Fin.val hab
    exact Fin.ext (hOK.inj a.1 b.1 _ _ (hg a) (hg b) hv)
  intro v hv
  obtain ⟨i, hfi⟩ := Finite.injective_iff_surjective.mp hinj ⟨v, hv⟩
  refine ⟨i.1, i.2, ?_⟩
  rw [hg i]
  exact congrArg some (congrArg Fin.val hfi)

end V3

namespace V4

theorem applyInit_parts {L R : Bdd} {st : ApplyState}
    (h : applyInit L R = some st) :
    ∃ ncache,
      NodeCache.new (3 * L.get_size) = some ncache ∧
      st = { task_cache := TaskCache.new L.get_size, node_cache := ncache,
             task_count := 0,
             stack := [ApplyTask.new 0 (L.get_root_index, R.get_root_index)],
             stack_capacity :=
               2 * ((L.get_height + R.get_height) % W32) } := by
  unfold applyInit at h
  simp only [bind, Option.bind_eq_some] at h
  obtain ⟨ncache, hnc, heq⟩ := h
  exact ⟨ncache, hnc, (Option.some_injective _ heq).symm⟩

theorem task_cache_new_spec (c : Nat) :
    (TaskCache.new c).capacity = c ∧
      (TaskCache.new c).items.length = c + 2 ^ 13 ∧
      (TaskCache.new c).bit_extension = 0 := by
  refine ⟨rfl, ?_, rfl⟩
  simp [TaskCache.new, TaskCache.HASH_BLOCK]

theorem recompute_height_nodes {b b' : Bdd}
    (h : b.recompute_height = some b') : b'.nodes = b.nodes := by
  unfold Bdd.recompute_height at h
  simp only [bind, Option.bind_eq_some] at h
  obtain ⟨c, -, h⟩ := h
  split at h
  · cases h
    rfl
  · split at h
    · exact absurd h (by simp)
    · cases h
      rfl

theorem hashed_index_lt {tc : TaskCache} (t : NodeIndex × NodeIndex)
    (hbe : tc.bit_extension = 0) (hcap : t.1 < tc.capacity)
    (hlen : tc.items.length = tc.capacity + 2 ^ 13)
    (hw : tc.capacity + 2 ^ 13 ≤ W64) :
    tc.hashed_index t < tc.items.length := by
  have hoff : t.2 * SEED % W64 % TaskCache.HASH_BLOCK < 2 ^ 13 :=
    Nat.mod_lt _ (by decide)
  have hlt : t.1 < W64 :=
    lt_of_lt_of_le hcap (le_trans (Nat.le_add_right _ _) hw)
  have hz : 64 - leadingZeros64 0 = 0 := by simp [leadingZeros64]
  have hsum : t.1 + t.2 * SEED % W64 % TaskCache.HASH_BLOCK < W64 :=
    lt_of_lt_of_le (Nat.add_lt_add hcap hoff) hw
  simp only [TaskCache.hashed_index, hbe, hz, Nat.shiftLeft_zero,
    Nat.and_zero, Nat.or_zero, Nat.mod_eq_of_lt hlt, Nat.mod_eq_of_lt hsum,
    hlen]
  exact Nat.add_lt_add hcap hoff

theorem wfb_spec {b : Bdd} (h : b.wfb = true) :
    0 < b.nodes.length ∧
    b.nodes.get? 0 = some Node.ZERO ∧
    (2 ≤ b.nodes.length → b.nodes.get? 1 = some Node.ONE) ∧
    (∀ i node, 2 ≤ i → b.nodes.get? i = some node →
      (node.get_variable : Nat) ≠ Variable.UNDEFINED ∧
      (node.get_variable : Nat) < W32 ∧
      (node.get_low_link : Nat) < b.nodes.length ∧
      (node.get_high_link : Nat) < b.nodes.length ∧
      (node.get_low_link : Nat) ≠ (node.get_high_link : Nat) ∧
      (node.get_variable : Nat) < varD b node.get_low_link ∧
      (node.get_variable : Nat) < varD b node.get_high_link) := by
  unfold Bdd.wfb at h
  simp only [Bool.and_eq_true, decide_eq_true_eq, beq_iff_eq,
    Bool.or_eq_true, List.all_eq_true, List.mem_range] at h
  obtain ⟨⟨⟨hlen, h0⟩, h1⟩, hall⟩ := h
  refine ⟨hlen, ?_, ?_, ?_⟩
  · rw [List.get?_eq_getElem?, List.getElem?_eq_getElem hlen]
    rw [← List.getD_eq_getElem b.nodes Node.ONE hlen]
    exact congrArg some h0
  · intro h2
    have h1' : b.nodes.getD 1 Node.ZERO = Node.ONE := by
      rcases h1 with h1 | h1
      · omega
      · exact h1
    rw [List.get?_eq_getElem?, List.getElem?_eq_getElem (by omega)]
    rw [← List.getD_eq_getElem b.nodes Node.ZERO (by omega)]
    exact congrArg some h1'
  · intro i node h2 hg
    have hi : i < b.nodes.length := (List.get?_eq_some.mp hg).1
    have hD : b.nodes.getD i Node.ZERO = node := by
      rw [List.getD_eq_getElem b.nodes Node.ZERO hi]
      have := List.getElem?_eq_getElem hi
      rw [← List.get?_eq_getElem?] at this
      rw [hg] at this
      exact (Option.some_injective _ this.symm)
    have := hall i hi
    rw [if_neg (by omega)] at this
    simp only [Bool.and_eq_true, decide_eq_true_eq, bne_iff_ne,
      Bool.not_eq_true', hD] at this
    obtain ⟨⟨⟨⟨⟨⟨hu, hvw⟩, hlo⟩, hhi⟩, hne⟩, hvl⟩, hvh⟩ := this
    refine ⟨?_, hvw, hlo, hhi, hne, hvl, hvh⟩
    intro hcontra
    rw [Variable.is_undefined, hcontra] at hu
    simp at hu

theorem varD_eq {b : Bdd} {i : Nat} {node : Node}
    (hg : b.nodes.get? i = some node) :
    varD b i = (node.get_variable : Nat) := by
  unfold varD
  have hi : i < b.nodes.length := (List.get?_eq_some.mp hg).1
  rw [List.getD_eq_getElem b.nodes Node.ZERO hi]
  have := List.getElem?_eq_getElem hi
  rw [← List.get?_eq_getElem?] at this
  rw [hg] at this
  exact congrArg Node.get_variable (Option.some_injective _ this.symm)

theorem node_terminal_iff (n : Node) :
    n.is_terminal = true ↔ (n.get_variable : Nat) = W32 - 1 := by
  unfold Node.is_terminal Variable.is_undefined Variable.UNDEFINED
  simp [Node.get_variable]

theorem node_at_lt2 {b : Bdd} (hwf : b.wfb = true) {i : Nat} {node : Node}
    (hg : b.nodes.get? i = some node) (hi : i < 2) :
    node.is_terminal = true := by
  obtain ⟨hlen, h0, h1, -⟩ := wfb_spec hwf
  interval_cases i
  · rw [h0] at hg
    cases hg
    rfl
  · have h2 : 2 ≤ b.nodes.length := (List.get?_eq_some.mp hg).1
    rw [h1 h2] at hg
    cases hg
    rfl

theorem varD_le {b : Bdd} (hwf : b.wfb = true) (i : Nat) :
    varD b i ≤ W32 - 1 := by
  cases hg : b.nodes.get? i with
  | none =>
      unfold varD
      rw [List.getD_eq_getElem?_getD, ← List.get?_eq_getElem?, hg]
      simp [Node.ZERO, Node.get_variable, Variable.UNDEFINED]
  | some node =>
      rw [varD_eq hg]
      by_cases h2 : 2 ≤ i
      · obtain ⟨-, hvw, -⟩ := (wfb_spec hwf).2.2.2 i node h2 hg
        exact Nat.le_pred_of_lt hvw
      · have := node_at_lt2 hwf hg (by omega)
        rw [node_terminal_iff] at this
        exact le_of_eq this

theorem gap_pos {b : Bdd} (hwf : b.wfb = true) (i : Nat) : 1 ≤ gap b i := by
  have := varD_le hwf i
  unfold gap
  have hW : (1:Nat) ≤ W32 := by norm_num [W32]
  omega

theorem node_nonterminal_ge2 {b : Bdd} (hwf : b.wfb = true) {i : Nat}
    {node : Node} (hg : b.nodes.get? i = some node)
    (hnt : node.is_terminal = false) : 2 ≤ i := by
  by_contra hlt
  have := node_at_lt2 hwf hg (by omega)
  rw [this] at hnt
  cases hnt

theorem gap_child_lt {b : Bdd} (hwf : b.wfb = true) {i : Nat} {node : Node}
    (hg : b.nodes.get? i = some node) (hnt : node.is_terminal = false) :
    gap b node.get_low_link < gap b i ∧
      gap b node.get_high_link < gap b i := by
  have h2 := node_nonterminal_ge2 hwf hg hnt
  obtain ⟨-, hvw, -, -, -, hvl, hvh⟩ := (wfb_spec hwf).2.2.2 i node h2 hg
  have hll := varD_le hwf node.get_low_link
  have hhl := varD_le hwf node.get_high_link
  have hvi := varD_eq hg
  have hvl' : varD b i < varD b node.get_low_link := by rw [hvi]; exact hvl
  have hvh' : varD b i < varD b node.get_high_link := by rw [hvi]; exact hvh
  unfold gap
  have hW : (1:Nat) ≤ W32 := by norm_num [W32]
  omega

theorem eAux_stable {b : Bdd} (hwf : b.wfb = true) :
    ∀ g i, gap b i ≤ g → ∀ f₁ f₂, gap b i ≤ f₁ → gap b i ≤ f₂ →
      eheightAux b.nodes f₁ i = eheightAux b.nodes f₂ i := by
  intro g
  induction g with
  | zero =>
      intro i hgi
      have := gap_pos hwf i
      omega
  | succ g ih =>
      intro i hgi f₁ f₂ h1 h2
      have hgp := gap_pos hwf i
      obtain ⟨a, rfl⟩ : ∃ a, f₁ = a + 1 := ⟨f₁ - 1, by omega⟩
      obtain ⟨c, rfl⟩ : ∃ c, f₂ = c + 1 := ⟨f₂ - 1, by omega⟩
      simp only [eheightAux]
      cases hg : b.nodes.get? i with
      | none => rfl
      | some node =>
          by_cases hnt : node.is_terminal
          · simp [hnt]
          · simp only [hnt, if_false, Bool.false_eq_true]
            have hch := gap_child_lt hwf hg (by simpa using hnt)
            have e1 : eheightAux b.nodes a node.get_low_link =
                eheightAux b.nodes c node.get_low_link :=
              ih node.get_low_link (by omega) a c (by omega) (by omega)
            have e2 : eheightAux b.nodes a node.get_high_link =
                eheightAux b.nodes c node.get_high_link :=
              ih node.get_high_link (by omega) a c (by omega) (by omega)
            rw [e1, e2]

theorem gap_le_W32 (b : Bdd) (i : Nat) : gap b i ≤ W32 := by
  unfold gap
  omega

theorem eheightAux_succ (nodes : List Node) (fuel i : Nat) :
    eheightAux nodes (fuel + 1) i =
      match nodes.get? i with
      | none => 0
      | some node =>
          if node.is_terminal then 0
          else
            1 + max (eheightAux nodes fuel node.get_low_link)
                (eheightAux nodes fuel node.get_high_link) := rfl

theorem eAt_unfold {b : Bdd} (hwf : b.wfb = true) {i : Nat} {node : Node}
    (hg : b.nodes.get? i = some node) (hnt : node.is_terminal = false) :
    eAt b i =
      1 + max (eAt b node.get_low_link) (eAt b node.get_high_link) := by
  have e1 : eheightAux b.nodes W32 node.get_low_link =
      eheightAux b.nodes (W32 + 1) node.get_low_link :=
    eAux_stable hwf (gap b node.get_low_link) node.get_low_link le_rfl W32
      (W32 + 1) (gap_le_W32 b _) (le_trans (gap_le_W32 b _) (by omega))
  have e2 : eheightAux b.nodes W32 node.get_high_link =
      eheightAux b.nodes (W32 + 1) node.get_high_link :=
    eAux_stable hwf (gap b node.get_high_link) node.get_high_link le_rfl W32
      (W32 + 1) (gap_le_W32 b _) (le_trans (gap_le_W32 b _) (by omega))
  unfold eAt
  rw [eheightAux_succ, hg]
  simp only [hnt, if_false, Bool.false_eq_true]
  rw [e1, e2]

theorem eAt_pos {b : Bdd} (hwf : b.wfb = true) {i : Nat} {node : Node}
    (hg : b.nodes.get? i = some node) (hnt : node.is_terminal = false) :
    1 ≤ eAt b i := by
  rw [eAt_unfold hwf hg hnt]
  omega

theorem eAt_child_lt {b : Bdd} (hwf : b.wfb = true) {i : Nat} {node : Node}
    (hg : b.nodes.get? i = some node) (hnt : node.is_terminal = false) :
    eAt b node.get_low_link < eAt b i ∧
      eAt b node.get_high_link < eAt b i := by
  rw [eAt_unfold hwf hg hnt]
  constructor <;> omega

theorem is_not_decoded_mark (t : ApplyTask) :
    t.mark_as_decoded.is_not_decoded = false := by
  simp [ApplyTask.mark_as_decoded, ApplyTask.is_not_decoded,
    Nat.and_one_is_mod]

theorem toNat_eq {a b : Nat} (h : a = b) : a = b := h

theorem toNat_ne {a b : Nat} (h : a ≠ b) : a ≠ b := h

theorem toNat_lt {a b : Nat} (h : a < b) : a < b := h

theorem toNat_not_lt {a b : Nat} (h : ¬a < b) : ¬a < b := h

theorem not_is_one {a : Nat} (h : NodeIndex.is_one a = false) : a ≠ 1 := by
  simp only [NodeIndex.is_one, NodeIndex.ONE, beq_eq_false_iff_ne, ne_eq] at h
  exact h

theorem not_is_zero {a : Nat} (h : NodeIndex.is_zero a = false) : a ≠ 0 := by
  simp only [NodeIndex.is_zero, NodeIndex.ZERO, beq_eq_false_iff_ne,
    ne_eq] at h
  exact h

theorem terminal_lt2 {b : Bdd} (hwf : b.wfb = true) {i : Nat} {node : Node}
    (hg : b.nodes.get? i = some node) (ht : node.is_terminal = true) :
    i < 2 := by
  by_contra hge
  obtain ⟨hvu, -⟩ := (wfb_spec hwf).2.2.2 i node (by omega) hg
  exact hvu ((node_terminal_iff node).mp ht)

theorem projs_set : ∀ (l : List ApplyTask) (k : Nat) (b : ApplyTask),
    (∀ a, l.get? k = some a → projF b = projF a) →
    (l.set k b).map projF = l.map projF := by
  intro l
  induction l with
  | nil => intro k b _; rfl
  | cons x xs ih =>
      intro k b hp
      cases k with
      | zero =>
          simp only [List.set_cons_zero, List.map_cons]
          rw [hp x rfl]
      | succ k =>
          simp only [List.set_cons_succ, List.map_cons]
          rw [ih k b (fun a ha => hp a ha)]

theorem finishStep_spec {s : ApplyState} {t : Nat} {rest : List ApplyTask}
    {r : NodeIndex} {s' : ApplyState}
    (h : finishStep s t rest r = some s') :
    s'.stack.map projF = rest.map projF ∧
      s'.stack_capacity = s.stack_capacity ∧
      ∀ f ∈ s'.stack, ∃ g ∈ rest, f.task = g.task := by
  cases rest with
  | nil =>
      unfold finishStep at h
      injection h with h
      subst h
      exact ⟨rfl, rfl, fun f hf => absurd hf (by simp)⟩
  | cons x xs =>
      unfold finishStep at h
      by_cases ht : t = 0
      · rw [if_pos ht] at h
        cases h
      · rw [if_neg ht] at h
        cases hget : (x :: xs).get? (t - 1) with
        | none =>
            rw [hget] at h
            cases h
        | some parent =>
            rw [hget] at h
            injection h with h
            subst h
            refine ⟨projs_set _ _ _ ?_, rfl, ?_⟩
            · intro a ha
              rw [hget] at ha
              injection ha with ha
              subst ha
              by_cases h1 : t = 1
              · rw [if_pos h1]
                rfl
              · rw [if_neg h1]
                rfl
            · intro f hf
              rcases List.mem_or_eq_of_mem_set hf with hmem | rfl
              · exact ⟨f, hmem, rfl⟩
              · refine ⟨parent, List.get?_mem hget, ?_⟩
                by_cases h1 : t = 1
                · rw [if_pos h1]
                · rw [if_neg h1]

theorem cb_sinv {L R : Bdd} {S0 v : Nat}
    {xs : List (Bool × (NodeIndex × NodeIndex))} (h : CB L R S0 v xs) :
    SInv L R S0 xs := by
  cases h with
  | nil => exact SInv.empty
  | seg pre d s v hpre hmem hd hv hS hcb =>
      exact SInv.chain pre d s (le_trans hpre (by omega)) hmem hd (by omega)
        hS hcb

theorem sinv_inv {L R : Bdd} {S0 : Nat}
    {xs : List (Bool × (NodeIndex × NodeIndex))} (h : SInv L R S0 xs) :
    xs = [] ∨
    (∃ f, xs = [f] ∧ f.1 = true ∧ taskMu L R f.2 ≤ S0) ∨
    (∃ pre d s, xs = pre ++ d :: s ∧ pre.length ≤ 2 ∧
      (∀ f ∈ pre, f.1 = true ∧ taskMu L R f.2 < taskMu L R d.2) ∧
      d.1 = false ∧ 1 ≤ taskMu L R d.2 ∧ taskMu L R d.2 ≤ S0 ∧
      CB L R S0 (taskMu L R d.2) s) := by
  cases h with
  | empty => exact Or.inl rfl
  | lone f hf hS => exact Or.inr (Or.inl ⟨f, rfl, hf, hS⟩)
  | chain pre d s hpre hmem hd h1 hS hcb =>
      exact Or.inr (Or.inr ⟨pre, d, s, rfl, hpre, hmem, hd, h1, hS, hcb⟩)

theorem sinv_pop {L R : Bdd} {S0 : Nat} {f : Bool × (NodeIndex × NodeIndex)}
    {xs : List (Bool × (NodeIndex × NodeIndex))}
    (h : SInv L R S0 (f :: xs)) : SInv L R S0 xs := by
  rcases sinv_inv h with he | ⟨g, hge, -, -⟩ |
    ⟨pre, d, ss, hxe, hpre, hmem, hd, h1d, hSd, hcb⟩
  · exact List.noConfusion he
  · injection hge with h1 h2
    rw [h2]
    exact SInv.empty
  · cases pre with
    | nil =>
        simp only [List.nil_append] at hxe
        injection hxe with h1 h2
        rw [h2]
        exact cb_sinv hcb
    | cons p pre' =>
        simp only [List.cons_append] at hxe
        injection hxe with h1 h2
        rw [h2]
        refine SInv.chain pre' d ss ?_ ?_ hd h1d hSd hcb
        · simp only [List.length_cons] at hpre
          omega
        · exact fun g hg => hmem g (List.mem_cons_of_mem _ hg)

theorem cb_length {L R : Bdd} {S0 : Nat} :
    ∀ {v : Nat} {xs : List (Bool × (NodeIndex × NodeIndex))},
      CB L R S0 v xs → xs.length ≤ 2 * (S0 - v) := by
  intro v xs h
  induction h with
  | nil => simp
  | seg pre d s v hpre hmem hd hv hS hcb ih =>
      simp only [List.length_append, List.length_cons]
      omega

theorem sinv_length {L R : Bdd} {S0 : Nat}
    {xs : List (Bool × (NodeIndex × NodeIndex))} (h : SInv L R S0 xs) :
    xs.length ≤ 2 * S0 + 1 := by
  cases h with
  | empty => simp
  | lone f hf hS => simp
  | chain pre d s hpre hmem hd h1 hS hcb =>
      have := cb_length hcb
      simp only [List.length_append, List.length_cons]
      omega

theorem step_preserves {L R : Bdd} (hL : L.wfb = true) (hR : R.wfb = true)
    {S0 : Nat} {s s' : ApplyState}
    (hs : SInv L R S0 (s.stack.map projF)) (hok : StackOk L R s.stack)
    (h : step L R s = some s') :
    SInv L R S0 (s'.stack.map projF) ∧ StackOk L R s'.stack ∧
      s'.stack_capacity = s.stack_capacity := by
  obtain ⟨tc, nc, cnt, stack, cap⟩ := s
  cases stack with
  | nil => exact Option.noConfusion h
  | cons top rest =>
      have hs' : SInv L R S0 (projF top :: rest.map projF) := hs
      have hok' : StackOk L R (top :: rest) := hok
      have pop : ∀ {s₁ : ApplyState} {t : Nat} {r : NodeIndex},
          finishStep s₁ t rest r = some s' → s₁.stack_capacity = cap →
          SInv L R S0 (s'.stack.map projF) ∧ StackOk L R s'.stack ∧
            s'.stack_capacity = cap := by
        intro s₁ t r hf hc
        obtain ⟨hmap, hcap, hmem⟩ := finishStep_spec hf
        refine ⟨?_, ?_, hcap.trans hc⟩
        · rw [hmap]
          exact sinv_pop hs'
        · intro f hfm
          obtain ⟨g, hg, hfg⟩ := hmem f hfm
          rw [hfg]
          exact hok' g (List.mem_cons_of_mem _ hg)
      simp only [step, ApplyTask.mark_as_decoded] at h
      split at h
      · -- the top frame is not yet decoded
        rename_i hnd
        have hptop : projF top = (true, top.task) := by
          unfold projF
          rw [hnd]
        have build : ∀ (ta tb : NodeIndex × NodeIndex) (mid : ApplyTask),
            mid.is_not_decoded = false → mid.task = top.task →
            taskMu L R ta < taskMu L R top.task →
            taskMu L R tb < taskMu L R top.task →
            1 ≤ taskMu L R top.task →
            ta.1 < L.nodes.length → ta.2 < R.nodes.length →
            tb.1 < L.nodes.length → tb.2 < R.nodes.length →
            SInv L R S0 ((ApplyTask.new 2 ta :: ApplyTask.new 1 tb ::
                mid :: rest).map projF) ∧
              StackOk L R
                (ApplyTask.new 2 ta :: ApplyTask.new 1 tb :: mid :: rest) := by
          intro ta tb mid hmd hmt hma hmb hm1 hba1 hba2 hbb1 hbb2
          constructor
          · simp only [List.map_cons]
            have hpa : projF (ApplyTask.new 2 ta) = (true, ta) := by
              simp [projF, ApplyTask.new, ApplyTask.is_not_decoded]
            have hpb : projF (ApplyTask.new 1 tb) = (true, tb) := by
              simp [projF, ApplyTask.new, ApplyTask.is_not_decoded]
            have hpm : projF mid = (false, top.task) := by
              unfold projF
              rw [hmd, hmt]
            rw [hpa, hpb, hpm]
            rw [hptop] at hs'
            rcases sinv_inv hs' with he | ⟨f, hfe, hf1, hfS⟩ |
              ⟨pre, d, ss, hxe, hpre, hmem, hd, h1d, hSd, hcb⟩
            · exact List.noConfusion he
            · injection hfe with h1 h2
              rw [h2]
              subst h1
              refine SInv.chain [(true, ta), (true, tb)] (false, top.task) []
                (by simp) ?_ rfl hm1 ?_ (CB.nil _)
              · intro g hg
                simp only [List.mem_cons, List.not_mem_nil, or_false] at hg
                rcases hg with rfl | rfl
                · exact ⟨rfl, hma⟩
                · exact ⟨rfl, hmb⟩
              · exact hfS
            · cases pre with
              | nil =>
                  simp only [List.nil_append] at hxe
                  injection hxe with h1 h2
                  rw [← h1] at hd
                  exact Bool.noConfusion hd
              | cons p pre' =>
                  simp only [List.cons_append] at hxe
                  injection hxe with h1 h2
                  subst h1
                  have hmtop := (hmem _ (List.mem_cons_self _ _)).2
                  rw [h2]
                  refine SInv.chain [(true, ta), (true, tb)] (false, top.task)
                    (pre' ++ d :: ss) (by simp) ?_ rfl hm1 ?_ ?_
                  · intro g hg
                    simp only [List.mem_cons, List.not_mem_nil, or_false] at hg
                    rcases hg with rfl | rfl
                    · exact ⟨rfl, hma⟩
                    · exact ⟨rfl, hmb⟩
                  · exact le_of_lt (lt_of_lt_of_le hmtop hSd)
                  · refine CB.seg pre' d ss (taskMu L R top.task) ?_ ?_ hd
                      hmtop hSd hcb
                    · simp only [List.length_cons] at hpre
                      omega
                    · exact fun g hg => hmem g (List.mem_cons_of_mem _ hg)
          · intro f hf
            simp only [List.mem_cons] at hf
            rcases hf with rfl | rfl | rfl | hf
            · exact ⟨hba1, hba2⟩
            · exact ⟨hbb1, hbb2⟩
            · rw [hmt]
              exact hok' top (List.mem_cons_self _ _)
            · exact hok' f (List.mem_cons_of_mem _ hf)
        split at h
        · -- terminal shortcut to ONE
          exact pop h rfl
        · split at h
          · -- terminal shortcut to ZERO
            exact pop h rfl
          · split at h
            · -- task cache hit
              exact pop h rfl
            · -- cache miss: decode the operand nodes and expand
              rename_i hc1 hc0 hcm
              split at h
              · rename_i ln rn heq1 heq2
                injection h with h
                subst h
                have hln : L.nodes.get? top.task.1 = some ln := heq1
                have hrn : R.nodes.get? top.task.2 = some rn := heq2
                rw [Bool.not_eq_true, Bool.or_eq_false_iff] at hc1
                obtain ⟨hc1l, hc1r⟩ := hc1
                have h1L := not_is_one hc1l
                have h1R := not_is_one hc1r
                rw [Bool.not_eq_true, Bool.and_eq_false_iff] at hc0
                have h0or := hc0.imp not_is_zero not_is_zero
                by_cases hvv : ln.get_variable = rn.get_variable
                · rw [if_pos hvv]
                  have hvvN := toNat_eq hvv
                  have hlnt : ln.is_terminal = false := by
                    by_contra htc
                    rw [Bool.not_eq_false] at htc
                    have hl2 := terminal_lt2 hL hln htc
                    have hrt : rn.is_terminal = true := by
                      rw [node_terminal_iff, ← hvvN]
                      exact (node_terminal_iff ln).mp htc
                    have hr2 := terminal_lt2 hR hrn hrt
                    omega
                  have hrnt : rn.is_terminal = false := by
                    by_contra htc
                    rw [Bool.not_eq_false] at htc
                    have hlt' : ln.is_terminal = true := by
                      rw [node_terminal_iff, hvvN]
                      exact (node_terminal_iff rn).mp htc
                    rw [hlt'] at hlnt
                    exact Bool.noConfusion hlnt
                  have hma : taskMu L R (ln.get_low_link, rn.get_low_link) <
                      taskMu L R top.task := by
                    unfold taskMu
                    exact Nat.add_lt_add (eAt_child_lt hL hln hlnt).1
                      (eAt_child_lt hR hrn hrnt).1
                  have hmb : taskMu L R (ln.get_high_link, rn.get_high_link) <
                      taskMu L R top.task := by
                    unfold taskMu
                    exact Nat.add_lt_add (eAt_child_lt hL hln hlnt).2
                      (eAt_child_lt hR hrn hrnt).2
                  have hm1 : 1 ≤ taskMu L R top.task :=
                    le_trans (eAt_pos hL hln hlnt) (Nat.le_add_right _ _)
                  obtain ⟨-, -, hll, hlh, -, -, -⟩ := (wfb_spec hL).2.2.2 _ ln
                    (node_nonterminal_ge2 hL hln hlnt) hln
                  obtain ⟨-, -, hrl, hrh, -, -, -⟩ := (wfb_spec hR).2.2.2 _ rn
                    (node_nonterminal_ge2 hR hrn hrnt) hrn
                  obtain ⟨hSI, hSO⟩ := build
                    (ln.get_low_link, rn.get_low_link)
                    (ln.get_high_link, rn.get_high_link)
                    { top.mark_as_decoded with
                        task_cache_slot := (tc.read top.task).2,
                        var := ln.get_variable }
                    (is_not_decoded_mark top) rfl hma hmb hm1 hll hrl hlh hrh
                  exact ⟨hSI, hSO, rfl⟩
                · by_cases hlt : ln.get_variable < rn.get_variable
                  · rw [if_neg hvv, if_pos hlt]
                    have hltN := toNat_lt hlt
                    have hrle := varD_le hR (top.task.2 : Nat)
                    rw [varD_eq hrn] at hrle
                    have hlnt : ln.is_terminal = false := by
                      by_contra htc
                      rw [Bool.not_eq_false] at htc
                      have := toNat_eq ((node_terminal_iff ln).mp htc)
                      omega
                    have hma : taskMu L R (ln.get_low_link, top.task.2) <
                        taskMu L R top.task := by
                      unfold taskMu
                      exact Nat.add_lt_add_right (eAt_child_lt hL hln hlnt).1 _
                    have hmb : taskMu L R (ln.get_high_link, top.task.2) <
                        taskMu L R top.task := by
                      unfold taskMu
                      exact Nat.add_lt_add_right (eAt_child_lt hL hln hlnt).2 _
                    have hm1 : 1 ≤ taskMu L R top.task :=
                      le_trans (eAt_pos hL hln hlnt) (Nat.le_add_right _ _)
                    obtain ⟨-, -, hll, hlh, -, -, -⟩ := (wfb_spec hL).2.2.2 _ ln
                      (node_nonterminal_ge2 hL hln hlnt) hln
                    have hrb := (hok' top (List.mem_cons_self _ _)).2
                    obtain ⟨hSI, hSO⟩ := build
                      (ln.get_low_link, top.task.2)
                      (ln.get_high_link, top.task.2)
                      { top.mark_as_decoded with
                          task_cache_slot := (tc.read top.task).2,
                          var := ln.get_variable }
                      (is_not_decoded_mark top) rfl hma hmb hm1 hll hrb hlh hrb
                    exact ⟨hSI, hSO, rfl⟩
                  · rw [if_neg hvv, if_neg hlt]
                    have hneN := toNat_ne hvv
                    have hnltN := toNat_not_lt hlt
                    have hgtN := Nat.lt_of_le_of_ne (Nat.le_of_not_lt hnltN)
                      (fun hh => hneN hh.symm)
                    have hlle := varD_le hL (top.task.1 : Nat)
                    rw [varD_eq hln] at hlle
                    have hrnt : rn.is_terminal = false := by
                      by_contra htc
                      rw [Bool.not_eq_false] at htc
                      have := toNat_eq ((node_terminal_iff rn).mp htc)
                      omega
                    have hma : taskMu L R (top.task.1, rn.get_low_link) <
                        taskMu L R top.task := by
                      unfold taskMu
                      exact Nat.add_lt_add_left (eAt_child_lt hR hrn hrnt).1 _
                    have hmb : taskMu L R (top.task.1, rn.get_high_link) <
                        taskMu L R top.task := by
                      unfold taskMu
                      exact Nat.add_lt_add_left (eAt_child_lt hR hrn hrnt).2 _
                    have hm1 : 1 ≤ taskMu L R top.task :=
                      le_trans (eAt_pos hR hrn hrnt) (Nat.le_add_left _ _)
                    obtain ⟨-, -, hrl, hrh, -, -, -⟩ := (wfb_spec hR).2.2.2 _ rn
                      (node_nonterminal_ge2 hR hrn hrnt) hrn
                    have hlb := (hok' top (List.mem_cons_self _ _)).1
                    obtain ⟨hSI, hSO⟩ := build
                      (top.task.1, rn.get_low_link)
                      (top.task.1, rn.get_high_link)
                      { top.mark_as_decoded with
                          task_cache_slot := (tc.read top.task).2,
                          var := rn.get_variable }
                      (is_not_decoded_mark top) rfl hma hmb hm1 hlb hrl hlb hrh
                    exact ⟨hSI, hSO, rfl⟩
              · -- out-of-bounds operand decode: undefined behaviour
                exact Option.noConfusion h
      · -- the top frame is decoded: emit a result
        split at h
        · exact pop h rfl
        · split at h
          · exact Option.noConfusion h
          · exact pop h rfl

theorem get_root_index_lt {b : Bdd} (h0 : 0 < b.nodes.length)
    (hlt : b.nodes.length < W64) :
    @LT.lt Nat instLTNat b.get_root_index b.nodes.length := by
  show (b.nodes.length + (W64 - 1)) % W64 < b.nodes.length
  unfold W64 at hlt ⊢
  omega

theorem applyInit_inv {L R : Bdd} (hL : L.wfb = true) (hR : R.wfb = true)
    (hLl : L.nodes.length < W64) (hRl : R.nodes.length < W64)
    {s0 : ApplyState} (h : applyInit L R = some s0) :
    SInv L R (L.eheight + R.eheight) (s0.stack.map projF) ∧
      StackOk L R s0.stack ∧
      s0.stack_capacity = 2 * ((L.get_height + R.get_height) % W32) := by
  obtain ⟨nc, -, rfl⟩ := applyInit_parts h
  refine ⟨?_, ?_, rfl⟩
  · have hp : projF (ApplyTask.new 0 (L.get_root_index, R.get_root_index)) =
        (true, (L.get_root_index, R.get_root_index)) := by
      simp [projF, ApplyTask.new, ApplyTask.is_not_decoded]
    simp only [List.map_cons, List.map_nil, hp]
    exact SInv.lone _ rfl le_rfl
  · intro f hf
    simp only [List.mem_singleton] at hf
    subst hf
    exact ⟨get_root_index_lt (wfb_spec hL).1 hLl,
      get_root_index_lt (wfb_spec hR).1 hRl⟩

theorem stepN_inv {L R : Bdd} (hL : L.wfb = true) (hR : R.wfb = true)
    {S0 : Nat} :
    ∀ (k : Nat) {s s' : ApplyState}, SInv L R S0 (s.stack.map projF) →
      StackOk L R s.stack → stepN L R k s = some s' →
      SInv L R S0 (s'.stack.map projF) ∧ StackOk L R s'.stack ∧
        s'.stack_capacity = s.stack_capacity := by
  intro k
  induction k with
  | zero =>
      intro s s' h1 h2 h
      injection h with h
      subst h
      exact ⟨h1, h2, rfl⟩
  | succ k ih =>
      intro s s' h1 h2 h
      unfold stepN at h
      by_cases he : s.stack.isEmpty
      · rw [if_pos he] at h
        injection h with h
        subst h
        exact ⟨h1, h2, rfl⟩
      · rw [if_neg he] at h
        obtain ⟨s₁, hstep, hrest⟩ := Option.bind_eq_some.mp h
        obtain ⟨a1, a2, a3⟩ := step_preserves hL hR h1 h2 hstep
        obtain ⟨b1, b2, b3⟩ := ih a1 a2 hrest
        exact ⟨b1, b2, b3.trans a3⟩

end V4

/-! ## Claim theorems -/

/-- C5 (counterexample): the claim fixes `UNDEFINED = 2^48 - 1`, but the
`NodeId`/`NodeIndex` types of `v3/core/node_id.rs` and
`v4/core/_node_index.rs` cited by the claim reserve `u64::MAX = 2^64 - 1`
as their undefined value. -/
theorem c5_counterexample :
    V3.NodeId.UNDEFINED ≠ 2 ^ 48 - 1 ∧ V4.NodeIndex.UNDEFINED ≠ 2 ^ 48 - 1 := by
  constructor <;> decide

/-- C5 (amended): `v3::NodeId` and `v4::NodeIndex` are 64-bit values with
`ZERO = 0`, `ONE = 1` and `UNDEFINED = 2^64 - 1`; the `2^48 - 1` undefined
sentinel and the 48-bit address ceiling belong to the `machine` layer's
`NodeId` (machine/node_id.rs), whose masked conversion always produces an
address below `2^48`. -/
theorem c5_node_id_sentinels :
    V3.NodeId.ZERO = 0 ∧ V3.NodeId.ONE = 1 ∧
    V3.NodeId.UNDEFINED = 2 ^ 64 - 1 ∧
    V4.NodeIndex.ZERO = 0 ∧ V4.NodeIndex.ONE = 1 ∧
    V4.NodeIndex.UNDEFINED = 2 ^ 64 - 1 ∧
    Machine.NodeId.ZERO = 0 ∧ Machine.NodeId.ONE = 1 ∧
    Machine.NodeId.UNDEFINED = 2 ^ 48 - 1 ∧
    ∀ x : Nat, Machine.NodeId.from_u48 x < 2 ^ 48 := by
  refine ⟨rfl, rfl, by decide, rfl, rfl, by decide, rfl, rfl, by decide, ?_⟩
  intro x
  have h : Machine.NodeId.BIT_MASK < 2 ^ 48 := by decide
  exact lt_of_le_of_lt Nat.and_le_right h

/-- C6 (counterexample): on the inputs `x0` and `¬x0` (stored heights `2`
and `2`), the reorder buffer allocated by `v3::core::ooo::apply` has `4`
slots, not the claimed `2·(height(L)+height(R)) = 8`. -/
theorem c6_counterexample :
    (V3.OOO.applyInit V3.xZero V3.notXZero).map
        (fun st => st.rob.buffer.length) = some 4 ∧
    (4 : Nat) ≠ 2 * (V3.xZero.get_height + V3.notXZero.get_height) := by
  exact ⟨rfl, by decide⟩

/-- C6 (amended): the out-of-order apply allocates its reorder buffer with
capacity exactly `height(L) + height(R)` slots for every pair of input
Bdds. -/
theorem c6_rob_capacity :
    ∀ (L R : V3.Bdd) (st : V3.OOO.ApplyState),
      V3.OOO.applyInit L R = some st →
      st.rob.buffer.length = L.get_height + R.get_height := by
  intro L R st h
  obtain ⟨rob, tcache, ncache, stack, hrob, -, -, -, rfl⟩ :=
    V3.OOO.ooo_applyInit_parts h
  exact V3.OOO.rob_new_length hrob

/-- C6 (witness): the amended capacity statement evaluated on `x0`, `¬x0`. -/
theorem c6_rob_capacity_witness :
    (V3.OOO.applyInit V3.xZero V3.notXZero).map
        (fun st => st.rob.buffer.length) =
      some (V3.xZero.get_height + V3.notXZero.get_height) := by
  cases h : V3.OOO.applyInit V3.xZero V3.notXZero with
  | none => exact absurd h (by decide)
  | some st =>
      simp only [Option.map_some']
      rw [c6_rob_capacity V3.xZero V3.notXZero st h]

/-- C7 (counterexample): at v4 apply entry the task cache capacity is
`size(L)`, not `max(size(L), size(R))`: with `L` the constant-zero BDD
(1 node) and `R` the constant-one BDD (2 nodes) the capacity is `1 ≠ 2`. -/
theorem c7_counterexample :
    (V4.applyInit V4.Bdd.new_zero V4.Bdd.new_one).map
        (fun st => st.task_cache.capacity) = some 1 ∧
    max V4.Bdd.new_zero.get_size V4.Bdd.new_one.get_size = 2 ∧
    (1 : Nat) ≠ 2 := by
  exact ⟨rfl, rfl, by decide⟩

/-- C7 (amended): at v4 apply entry the task cache capacity is `size(L)`
and its backing table has `capacity + B` slots (`B = 2^13`), so the hashed
index `block_base + block_offset` stays inside the table without a modulo
whenever `block_base ≤ capacity - 1`; the v3 out-of-order task cache instead
uses capacity `max(size(L), size(R))` with a table of exactly `capacity`
slots and a modulo reduction. -/
theorem c7_task_cache_layout :
    (∀ (L R : V4.Bdd) (st : V4.ApplyState),
      V4.applyInit L R = some st →
      st.task_cache.capacity = L.get_size ∧
      st.task_cache.items.length = L.get_size + 2 ^ 13 ∧
      (L.get_size + 2 ^ 13 ≤ W64 →
        ∀ t : V4.NodeIndex × V4.NodeIndex, t.1 < L.get_size →
          st.task_cache.hashed_index t < st.task_cache.items.length)) ∧
    (∀ (l r : Nat) (tc : V3.OOO.TaskCache),
      V3.OOO.TaskCache.new l r = some tc →
      tc.capacity = max l r ∧ tc.table.length = max l r) := by
  constructor
  · intro L R st h
    obtain ⟨ncache, hnc, rfl⟩ := V4.applyInit_parts h
    obtain ⟨hcap, hlen, hbe⟩ := V4.task_cache_new_spec L.get_size
    refine ⟨hcap, hlen, ?_⟩
    intro hw t ht
    exact V4.hashed_index_lt t hbe (by rw [hcap]; exact ht)
      (by rw [hlen, hcap]) (by rw [hcap]; exact hw)
  · intro l r tc h
    obtain ⟨h1, h2, -⟩ := V3.OOO.task_cache_new_table h
    exact ⟨h1, h2⟩

/-- C7 (witness): the amended layout statement evaluated on the
constant-zero and constant-one v4 BDDs. -/
theorem c7_task_cache_layout_witness :
    (V4.applyInit V4.Bdd.new_zero V4.Bdd.new_one).map
        (fun st => (st.task_cache.capacity, st.task_cache.items.length)) =
      some (V4.Bdd.new_zero.get_size, V4.Bdd.new_zero.get_size + 2 ^ 13) := by
  cases h : V4.applyInit V4.Bdd.new_zero V4.Bdd.new_one with
  | none => exact absurd h (by decide)
  | some st =>
      obtain ⟨h1, h2, -⟩ := c7_task_cache_layout.1 V4.Bdd.new_zero
        V4.Bdd.new_one st h
      simp only [Option.map_some']
      rw [h1, h2]

/-- C9 (counterexample): the v3 parser accepts the structurally invalid
input `"0,0,0|0,1,1|0,5,9"` — both links of the third node point out of
bounds (the array has 3 nodes), yet `try_from` returns `Ok` because
`v3/core/bdd.rs` performs no structural validation (the source carries an
explicit `TODO` to that effect). -/
theorem c9_counterexample :
    V3.tryFromStr "0,0,0|0,1,1|0,5,9" =
      some (Except.ok
        { height := 0,
          nodes := [V3.PackedBddNode.ZERO, V3.PackedBddNode.ONE,
            V3.PackedBddNode.pack 0 5 9] }) ∧
    ¬((V3.PackedBddNode.pack 0 5 9).get_low_link < 3) := by
  exact ⟨rfl, by decide⟩

/-- C9 (amended): the v4 parser (`v4/core/_bdd.rs`) returns a Bdd only
after the loaded node array passes `check_consistency_errors` (links in
bounds, variable order on both edges, self-loops exactly on terminals,
terminals at the front), and any structural violation surfaces as an error
from parse; the v3 parser performs no structural validation. -/
theorem c9_parse_validates :
    (∀ (s : String) (bdd : V4.Bdd),
      V4.tryFromStr s = some (Except.ok bdd) →
      V4.check_consistency_errors bdd.nodes = none) ∧
    (∀ (s : String) (ns : List V4.Node) (e : V4.ConsistencyError),
      ((V4.splitOnChar '|' s.data).filter
          (fun p => ¬p.isEmpty)).mapM V4.parseNodeStr = Except.ok ns →
      V4.check_consistency_errors (V4.patchTerminals ns) = some e →
      V4.tryFromStr s =
        some (Except.error (V4.ParseError.consistency e))) := by
  constructor
  · intro s bdd h
    unfold V4.tryFromStr at h
    split at h
    · exact absurd h (by simp)
    · rename_i ns hns
      split at h
      · exact absurd h (by simp)
      · rename_i hchk
        split at h
        · exact absurd h (by simp)
        · rename_i bdd' hrec
          cases h
          rw [V4.recompute_height_nodes hrec]
          exact hchk
  · intro s ns e hns hchk
    unfold V4.tryFromStr
    rw [hns]
    dsimp only
    rw [hchk]

/-- C9 (witness): the v4 parser accepts a well-formed two-variable chain
and its node array indeed passes the validator. -/
theorem c9_parse_validates_witness :
    V4.check_consistency_errors
      [V4.Node.ZERO, V4.Node.ONE, V4.Node.pack 1 0 1, V4.Node.pack 0 0 2] =
      none :=
  c9_parse_validates.1 "0,0,0|0,1,1|1,0,1|0,0,2"
    { height := 4,
      nodes :=
        [V4.Node.ZERO, V4.Node.ONE, V4.Node.pack 1 0 1,
          V4.Node.pack 0 0 2] }
    rfl

/-- C10: the reorder buffer free list is LIFO — freeing an in-range slot
`s` makes the buffer non-full, and the next `allocate_slot` returns `s`
again (v3/core/ooo/reorder_buffer.rs). -/
theorem c10_rob_freelist_lifo :
    ∀ (rb : V3.OOO.ReorderBuffer) (s : V3.OOO.RobSlot)
      (rb' : V3.OOO.ReorderBuffer),
      s < rb.buffer.length → rb.buffer.length ≤ W32 - 1 →
      rb.free_slot s = some rb' →
      rb'.is_full = false ∧ rb'.allocate_slot.map Prod.fst = some s := by
  intro rb s rb' hs hlen hfree
  unfold V3.OOO.ReorderBuffer.free_slot at hfree
  cases hg : rb.buffer.get? s with
  | none =>
      rw [hg] at hfree
      exact absurd hfree (by simp)
  | some v =>
      rw [hg] at hfree
      cases hfree
      have hne : s ≠ V3.OOO.RobSlot.UNDEFINED :=
        Nat.ne_of_lt (lt_of_lt_of_le hs hlen)
      constructor
      · simp [V3.OOO.ReorderBuffer.is_full, hne]
      · unfold V3.OOO.ReorderBuffer.allocate_slot
        have hget : (rb.buffer.set s rb.next_free).get? s = some rb.next_free := by
          rw [List.get?_eq_getElem?]
          rw [List.getElem?_set_self (by simpa using hs)]
        simp only [hget]
        rfl

/-- C10 (witness): freeing slot 1 of a full three-slot buffer makes it
non-full and re-allocating returns slot 1. -/
theorem c10_rob_freelist_lifo_witness :
    (V3.OOO.ReorderBuffer.free_slot
        { buffer := [5, 6, 7], next_free := V3.OOO.RobSlot.UNDEFINED } 1).map
        (fun rb' => (rb'.is_full, rb'.allocate_slot.map Prod.fst)) =
      some (false, some 1) := by
  cases h : V3.OOO.ReorderBuffer.free_slot
      { buffer := [5, 6, 7], next_free := V3.OOO.RobSlot.UNDEFINED } 1 with
  | none => exact absurd h (by decide)
  | some rb' =>
      obtain ⟨h1, h2⟩ := c10_rob_freelist_lifo _ 1 rb' (by decide) (by decide) h
      simp only [Option.map_some']
      rw [h1, h2]

/-- C4 (counterexample): three failures of the original claim.  (1) For
`L = R =` the constant-zero v4 BDD, the stored heights (`0`) are valid
upper bounds on the longest root-to-terminal path (`0` edges), yet already
the initial state of the apply run holds one stack frame while the
capacity allocated at entry is `2·(0+0) = 0` — the unchecked root push is
out of bounds.  (2) The `u32` height addition at the v4 apply entry wraps:
for two `x0` BDDs with the valid stored height bound `2^31` the allocated
capacity is `0`, not `2·(2^31+2^31) = 2^33`.  (3) The cited v3 task stack
allocates only `height(L) + height(R)` slots — not `2·(…)` — and the
coupled DFS genuinely exceeds it: on `x0`/`x1` with tight valid height
bounds `2` the run aborts with an out-of-bounds unchecked push. -/
theorem c4_counterexample :
    V4.Bdd.new_zero.get_height = 0 ∧
    V4.Bdd.new_zero.eheight = 0 ∧
    (V4.applyInit V4.Bdd.new_zero V4.Bdd.new_zero).map
        (fun st => (st.stack.length, st.stack_capacity)) = some (1, 0) ∧
    (1 : Nat) > 2 * (V4.Bdd.new_zero.get_height + V4.Bdd.new_zero.get_height) ∧
    V4.xZeroWideV4.eheight + 1 ≤ V4.xZeroWideV4.get_height ∧
    (V4.applyInit V4.xZeroWideV4 V4.xZeroWideV4).map
        (fun st => st.stack_capacity) = some 0 ∧
    2 * (V4.xZeroWideV4.get_height + V4.xZeroWideV4.get_height) = 2 ^ 33 ∧
    (V3.OOO.TaskStack.new V3.xZero.get_height
        V3.xOneVar.get_height).items.length =
      V3.xZero.get_height + V3.xOneVar.get_height ∧
    (V3.OOO.applyInit V3.xZero V3.xOneVar).isSome = true ∧
    ((V3.OOO.applyInit V3.xZero V3.xOneVar).bind
        (V3.OOO.stepN V3.xZero V3.xOneVar 3)) = none := by
  refine ⟨rfl, ?_, rfl, by decide, ?_, rfl, by decide, rfl, rfl, ?_⟩
  · rfl
  · have h1 : V4.xZeroWideV4.eheight = 1 := rfl
    rw [h1]
    show 2 ≤ 2 ^ 31
    norm_num
  · rfl

/-- C4 (amended): for well-formed inputs whose stored heights bound the
number of NODES on the longest root-to-terminal path (edge length + 1) and
whose height sum does not wrap the `u32` addition at the apply entry, the
v4 apply task stack never holds more than `2·(height(L)+height(R))` frames
— the capacity `UnsafeStack::new` allocates at entry — in any state
reachable by the loop.  (The cited v3 task stack allocates only
`height(L)+height(R)` slots, which the coupled DFS can genuinely exceed —
see the counterexample.) -/
theorem c4_stack_bound {L R : V4.Bdd} (hL : L.wfb = true)
    (hR : R.wfb = true) (hLl : L.nodes.length < W64)
    (hRl : R.nodes.length < W64) (hhL : L.eheight + 1 ≤ L.get_height)
    (hhR : R.eheight + 1 ≤ R.get_height)
    (hw : L.get_height + R.get_height < W32) {s0 s : V4.ApplyState}
    (h0 : V4.applyInit L R = some s0) {k : Nat}
    (hk : V4.stepN L R k s0 = some s) :
    s.stack.length ≤ 2 * (L.get_height + R.get_height) ∧
      s.stack_capacity = 2 * (L.get_height + R.get_height) := by
  obtain ⟨hi, hok, hcap⟩ := V4.applyInit_inv hL hR hLl hRl h0
  rw [Nat.mod_eq_of_lt hw] at hcap
  obtain ⟨hi', hok', hcap'⟩ := V4.stepN_inv hL hR k hi hok hk
  have hlen := V4.sinv_length hi'
  rw [List.length_map] at hlen
  exact ⟨by omega, hcap'.trans hcap⟩

/-- C4 (witness): a concrete run on `L = R =` the BDD of `x0` (height 2):
the reachable state holds `1 ≤ 8 = 2·(2+2)` stack frames. -/
theorem c4_stack_bound_witness :
    ((V4.applyInit V4.xZeroV4 V4.xZeroV4).bind
        (V4.stepN V4.xZeroV4 V4.xZeroV4 0)).map
      (fun s => decide (s.stack.length ≤
          2 * (V4.xZeroV4.get_height + V4.xZeroV4.get_height) ∧
        s.stack_capacity =
          2 * (V4.xZeroV4.get_height + V4.xZeroV4.get_height))) =
      some true := by
  cases h0 : V4.applyInit V4.xZeroV4 V4.xZeroV4 with
  | none => exact absurd h0 (by decide)
  | some s0 =>
      cases hk : V4.stepN V4.xZeroV4 V4.xZeroV4 0 s0 with
      | none =>
          have hp : ((V4.applyInit V4.xZeroV4 V4.xZeroV4).bind
              (V4.stepN V4.xZeroV4 V4.xZeroV4 0)) = none := by
            rw [h0]
            exact hk
          exact absurd hp (by decide)
      | some s =>
          show ((V4.stepN V4.xZeroV4 V4.xZeroV4 0 s0).map _) = some true
          rw [hk]
          show some _ = some true
          refine congrArg some (decide_eq_true ?_)
          exact c4_stack_bound (by decide) (by decide) (by decide) (by decide)
            (by decide) (by decide) (by decide) h0 hk

/-- C1 (code-bug evidence): the apply functions cited by the claim take no
operator argument — `v3::core::ooo::apply` hard-codes the `or` terminal
rules (and `v4::apply::apply` returns only `(node count, task count)`).
Evaluated at `L = x0`, `R = ¬x0`: the returned BDD is the constant-true
BDD, whose truth table is the pointwise `or` of the inputs and differs from
the pointwise `and` (the claimed behaviour for `op = and`). -/
theorem c1_apply_or_evaluation :
    V3.OOO.apply V3.xZero V3.notXZero 50 =
      some { height := 0,
             nodes := [V3.PackedBddNode.ZERO, V3.PackedBddNode.ONE] } ∧
    (V3.OOO.apply V3.xZero V3.notXZero 50).map
        (fun b => (b.eval (fun _ => false), b.eval (fun _ => true))) =
      some (true, true) ∧
    (V3.xZero.eval (fun _ => false) || V3.notXZero.eval (fun _ => false))
      = true ∧
    (V3.xZero.eval (fun _ => true) || V3.notXZero.eval (fun _ => true))
      = true ∧
    (V3.xZero.eval (fun _ => false) && V3.notXZero.eval (fun _ => false))
      = false ∧
    (V3.xZero.eval (fun _ => true) && V3.notXZero.eval (fun _ => true))
      = false := by
  exact ⟨rfl, rfl, rfl, rfl, rfl, rfl⟩

/-- **C2**: in every `Bdd` returned by the (v3 out-of-order) `apply` on
well-formed inputs, any two distinct non-terminal node indices `i ≠ j`
(the terminals occupy indices `0` and `1`) carry different
`(variable, low, high)` triples, and every non-terminal node has
`low ≠ high`.  The hypotheses require the inputs to pass the structural
check `wfbCore` and the result-node arena (sized `2·size(L)`) to stay
below the `NodeCacheSlot::UNDEFINED` sentinel. -/
theorem c2_apply_uniqueness {L R B : V3.Bdd} {fuel : Nat}
    (hL : L.wfbCore = true) (hR : R.wfbCore = true)
    (hcap : 2 * L.node_count < V3.OOO.NodeCacheSlot.UNDEFINED)
    (h : V3.OOO.apply L R fuel = some B) :
    (∀ i j ni nj, 2 ≤ i → i < j →
        B.nodes.get? i = some ni → B.nodes.get? j = some nj →
        (ni.get_variable, ni.get_low_link, ni.get_high_link) ≠
          (nj.get_variable, nj.get_low_link, nj.get_high_link)) ∧
      ∀ k nk, 2 ≤ k → B.nodes.get? k = some nk →
        nk.get_low_link ≠ nk.get_high_link := by
  simp only [V3.OOO.apply] at h
  rw [Option.bind_eq_some] at h
  obtain ⟨s0, h0, h⟩ := h
  rw [Option.map_eq_some'] at h
  obtain ⟨s1, h1, hB⟩ := h
  subst hB
  have hI := V3.OOO.applyLoop_inv hL hR (V3.OOO.ooo_applyInit_inv hcap h0) h1
  rw [V3.from_raw_nodes_nodes]
  constructor
  · intro i j ni nj h2i hij hgi hgj
    obtain ⟨hic, ei, hei, hei1⟩ := V3.OOO.export_nodes_get hgi
    obtain ⟨hjc, ej, hej, hej1⟩ := V3.OOO.export_nodes_get hgj
    have hne := hI.ninv.distinct i j ei ej h2i hij hjc hei hej
    rw [hei1, hej1] at hne
    intro hc
    apply hne
    obtain ⟨v1, l1, hh1⟩ := ni
    obtain ⟨v2, l2, hh2⟩ := nj
    simp only [V3.PackedBddNode.get_variable, V3.PackedBddNode.get_low_link,
      V3.PackedBddNode.get_high_link, Prod.mk.injEq] at hc
    obtain ⟨ha, hb, hcc⟩ := hc
    subst ha
    subst hb
    subst hcc
    rfl
  · intro k nk h2k hgk
    obtain ⟨hkc, ek, hek, hek1⟩ := V3.OOO.export_nodes_get hgk
    have hg := (hI.ninv.good k ek h2k hkc hek).1
    rw [hek1] at hg
    exact hg

/-- C2 (witness): `apply` on the BDDs of `x0` and `x1` (stored height `4`)
returns the BDD of `x0 ∨ x1`, whose two non-terminal nodes carry distinct
triples and distinct children. -/
theorem c2_apply_uniqueness_witness :
    V3.xZeroTall.wfbCore = true ∧ V3.xOneTall.wfbCore = true ∧
    2 * V3.xZeroTall.node_count < V3.OOO.NodeCacheSlot.UNDEFINED ∧
    V3.OOO.apply V3.xZeroTall V3.xOneTall 20 =
      some { height := 1,
             nodes := [V3.PackedBddNode.ZERO, V3.PackedBddNode.ONE,
               V3.PackedBddNode.pack 1 0 1, V3.PackedBddNode.pack 0 2 1] } ∧
    ((V3.PackedBddNode.pack 1 0 1).get_variable,
      (V3.PackedBddNode.pack 1 0 1).get_low_link,
      (V3.PackedBddNode.pack 1 0 1).get_high_link) ≠
      ((V3.PackedBddNode.pack 0 2 1).get_variable,
        (V3.PackedBddNode.pack 0 2 1).get_low_link,
        (V3.PackedBddNode.pack 0 2 1).get_high_link) ∧
    (V3.PackedBddNode.pack 0 2 1).get_low_link ≠
      (V3.PackedBddNode.pack 0 2 1).get_high_link := by
  have happ : V3.OOO.apply V3.xZeroTall V3.xOneTall 20 =
      some { height := 1,
             nodes := [V3.PackedBddNode.ZERO, V3.PackedBddNode.ONE,
               V3.PackedBddNode.pack 1 0 1, V3.PackedBddNode.pack 0 2 1] } :=
    rfl
  refine ⟨by decide, by decide, by decide, happ, ?_, ?_⟩
  · exact (c2_apply_uniqueness (by decide) (by decide) (by decide) happ).1
      2 3 _ _ (by decide) (by decide) rfl rfl
  · exact (c2_apply_uniqueness (by decide) (by decide) (by decide) happ).2
      3 _ (by decide) rfl

/-- C8 (counterexample): the claim's "empty task-cache slots are marked by
the key sentinel `(ZERO, ZERO)`" does not hold for the cited v4 task cache:
`TaskCache::new` fills the table with `UNDEFINED_ENTRY`, whose key is
`(UNDEFINED, UNDEFINED)`, not `(ZERO, ZERO)`. -/
theorem c8_counterexample :
    V4.TaskCache.UNDEFINED_ENTRY.1 ≠
      (V4.NodeIndex.ZERO, V4.NodeIndex.ZERO) ∧
    ∀ e ∈ (V4.TaskCache.new 1).items, e = V4.TaskCache.UNDEFINED_ENTRY := by
  refine ⟨by decide, ?_⟩
  intro e he
  simp only [V4.TaskCache.new] at he
  exact List.eq_of_mem_replicate he

/-- **C8** (amended): the v3 out-of-order task cache marks empty slots with
the full sentinel entry `((ZERO, ZERO), ZERO)` at allocation, and
throughout every run of the v3 apply loop the terminal shortcuts resolve
the operand pair `(ZERO, ZERO)` before the task cache is consulted, so no
cache write ever stores the key `(ZERO, ZERO)`: in every state reachable
from the entry by `k` loop iterations (`stepN`), every table entry whose
key is `(ZERO, ZERO)` still carries the initial value `ZERO`.  (The cited
v4 cache instead marks empty slots with `UNDEFINED_ENTRY` — see the
counterexample.) -/
theorem c8_task_cache_sentinel {L R : V3.Bdd} {k : Nat}
    {s0 s : V3.OOO.ApplyState}
    (hL : L.wfbCore = true) (hR : R.wfbCore = true)
    (hcap : 2 * L.node_count < V3.OOO.NodeCacheSlot.UNDEFINED)
    (h0 : V3.OOO.applyInit L R = some s0)
    (hk : V3.OOO.stepN L R k s0 = some s) :
    (∀ e ∈ s0.task_cache.table,
        e = ((V3.NodeId.ZERO, V3.NodeId.ZERO), V3.NodeId.ZERO)) ∧
    ∀ e ∈ s.task_cache.table,
      e.1 = (V3.NodeId.ZERO, V3.NodeId.ZERO) → e.2 = V3.NodeId.ZERO := by
  constructor
  · obtain ⟨rob, tcache, ncache, stack, -, htc, -, -, hst⟩ :=
      V3.OOO.ooo_applyInit_parts h0
    subst hst
    exact (V3.OOO.task_cache_new_table htc).2.2
  · exact (V3.OOO.ooo_stepN_inv hL hR k
      (V3.OOO.ooo_applyInit_inv hcap h0) hk).tinv

/-- C8 (witness): a concrete reachable state of `apply` on the BDDs of
`x0` and `x1` (after `3` loop iterations, mid-run): every task-cache entry
keyed `(ZERO, ZERO)` still holds `ZERO`. -/
theorem c8_task_cache_sentinel_witness :
    V3.xZeroTall.wfbCore = true ∧ V3.xOneTall.wfbCore = true ∧
    2 * V3.xZeroTall.node_count < V3.OOO.NodeCacheSlot.UNDEFINED ∧
    ((V3.OOO.applyInit V3.xZeroTall V3.xOneTall).bind
        (fun s0 => (V3.OOO.stepN V3.xZeroTall V3.xOneTall 3 s0).map
          (fun s => decide (∀ e ∈ s.task_cache.table,
            e.1 = (V3.NodeId.ZERO, V3.NodeId.ZERO) →
              e.2 = V3.NodeId.ZERO)))) = some true := by
  refine ⟨by decide, by decide, by decide, ?_⟩
  cases h0 : V3.OOO.applyInit V3.xZeroTall V3.xOneTall with
  | none => exact absurd h0 (by decide)
  | some s0 =>
      cases hk : V3.OOO.stepN V3.xZeroTall V3.xOneTall 3 s0 with
      | none =>
          have hp : ((V3.OOO.applyInit V3.xZeroTall V3.xOneTall).bind
              (fun s0 => (V3.OOO.stepN V3.xZeroTall V3.xOneTall 3
                s0).map (fun s => decide (∀ e ∈ s.task_cache.table,
                  e.1 = (V3.NodeId.ZERO, V3.NodeId.ZERO) →
                    e.2 = V3.NodeId.ZERO)))) = none := by
            rw [h0]
            show ((V3.OOO.stepN V3.xZeroTall V3.xOneTall 3 s0).map _)
              = none
            rw [hk]
            rfl
          exact absurd hp (by decide)
      | some s =>
          show ((V3.OOO.stepN V3.xZeroTall V3.xOneTall 3 s0).map _)
            = some true
          rw [hk]
          show some _ = some true
          refine congrArg some (decide_eq_true ?_)
          exact (c8_task_cache_sentinel (by decide) (by decide) (by decide)
            h0 hk).2

end BddRs
